import Mathlib

/-!
# LC7981 graphics driver: a verification development

Shallow embedding of `src/lc7981.hpp` (class `LC7981::DisplayBase`).

* `uint8_t` / `uint16_t` values are natural numbers; every place where the C++
  code narrows a value is written with an explicit `% 256` / `% 65536`.
* The virtual `write` / `read` / `init` hooks are a `Transport` record over an
  arbitrary device state; every call through them is logged in a trace.
* The `const` members `width` and `height` are passed as arguments, the mutable
  part of the object (`needDummyRead`, the device behind the transport and the
  transaction log) is the `Display` record that every method threads through.
* `int16_t` values are integers narrowed with `wrap16`; `int` is the 16-bit `int`
  of the AVR targets the library is written for.
* Loops whose exit depends on run-time values take a fuel argument. Where the
  iteration count is bounded by an argument (`writeFullBytes`, `wideFullBytes`)
  the result is total; where the loop may fail to exit (the vertical-line loops,
  the Bresenham loops) the result is an `Option`, `none` meaning out of fuel.
-/

namespace LC7981

/-! ## Definitions -/

/-- The two registers of the controller (`enum register_t`). -/
inductive register_t where
  | Data
  | Command
  deriving DecidableEq, Repr

/-- One call through the virtual hooks of `DisplayBase`. -/
inductive Event where
  | write (reg : register_t) (val : Nat)
  | read (reg : register_t) (val : Nat)
  | init
  deriving DecidableEq, Repr

/-- The virtual methods `write`, `read`, `init` a board-specific subclass provides,
as transitions of a device state `σ`. -/
structure Transport (σ : Type) where
  write : register_t → Nat → σ → σ
  read : register_t → σ → Nat × σ
  init : σ → σ

/-- The mutable state of a `DisplayBase` object: the `needDummyRead` flag, the device
reached through the transport, and the log of the transport calls made so far. -/
structure Display (σ : Type) where
  needDummyRead : Bool
  dev : σ
  trace : List Event

variable {σ : Type}

/-- `write<reg>(val)`: the value is a `uint8_t`. -/
def write (T : Transport σ) (reg : register_t) (val : Nat) (d : Display σ) : Display σ :=
  { d with dev := T.write reg (val % 256) d.dev,
           trace := d.trace ++ [Event.write reg (val % 256)] }

/-- `read<reg>()`: the result is a `uint8_t`. -/
def read (T : Transport σ) (reg : register_t) (d : Display σ) : Nat × Display σ :=
  let r := T.read reg d.dev
  (r.1 % 256, { d with dev := r.2, trace := d.trace ++ [Event.read reg (r.1 % 256)] })

/-- `setCursorAddress(uint16_t address)`. -/
def setCursorAddress (T : Transport σ) (address : Nat) (d : Display σ) : Display σ :=
  let address := address % 65536
  let d := write T register_t.Command 0b1010 d
  let d := write T register_t.Data (address &&& 0xff) d
  let d := write T register_t.Command 0b1011 d
  let d := write T register_t.Data (address >>> 8) d
  { d with needDummyRead := true }

/-- `writeStart()`. -/
def writeStart (T : Transport σ) (d : Display σ) : Display σ :=
  write T register_t.Command 0b1100 d

/-- `writeNextByte(uint8_t value)`. -/
def writeNextByte (T : Transport σ) (value : Nat) (d : Display σ) : Display σ :=
  write T register_t.Data value d

/-- `writeSingleByte(uint8_t value)`. -/
def writeSingleByte (T : Transport σ) (value : Nat) (d : Display σ) : Display σ :=
  writeNextByte T value (writeStart T d)

/-- `readStart()`. -/
def readStart (T : Transport σ) (d : Display σ) : Display σ :=
  let d :=
    if d.needDummyRead then
      let d := { d with needDummyRead := false }
      let d := write T register_t.Command 0b1101 d
      (read T register_t.Data d).2
    else d
  write T register_t.Command 0b1101 d

/-- `readNextByte()`. -/
def readNextByte (T : Transport σ) (d : Display σ) : Nat × Display σ :=
  read T register_t.Data d

/-- `readSingleByte()`. -/
def readSingleByte (T : Transport σ) (d : Display σ) : Nat × Display σ :=
  readNextByte T (readStart T d)

/-- `setDataBit(which)`. -/
def setDataBit (T : Transport σ) (which : Nat) (d : Display σ) : Display σ :=
  write T register_t.Data which (write T register_t.Command 0b1111 d)

/-- `clearDataBit(which)`. -/
def clearDataBit (T : Transport σ) (which : Nat) (d : Display σ) : Display σ :=
  write T register_t.Data which (write T register_t.Command 0b1110 d)

/-- `setDataBit(which, black)`: the command is `0b1110 | black`. -/
def setDataBitColor (T : Transport σ) (which : Nat) (black : Bool) (d : Display σ) :
    Display σ :=
  write T register_t.Data which
    (write T register_t.Command (0b1110 ||| (if black then 1 else 0)) d)

/-- The values returned by the Data-register reads of a transaction log, in order. -/
def dataReads : List Event → List Nat
  | [] => []
  | Event.read register_t.Data v :: es => v :: dataReads es
  | _ :: es => dataReads es

/-- The register writes of a transaction log, in order. -/
def registerWrites : List Event → List (register_t × Nat)
  | [] => []
  | Event.write reg v :: es => (reg, v) :: registerWrites es
  | _ :: es => registerWrites es

/-- `a & ~m` on non-negative operands: the bits of `a` that are not bits of `m`. -/
def andNot (a m : Nat) : Nat := a ^^^ (a &&& m)

/-- The loop `while (remainingLength) { mask <<= 1; mask |= 1; remainingLength -= 1; }`
on a `uint8_t mask`: the first argument is `remainingLength`, the result the final mask. -/
def maskLoop : Nat → Nat → Nat
  | 0, mask => mask
  | remainingLength + 1, mask => maskLoop remainingLength (((mask <<< 1) % 256) ||| 1)

/-- The loop `while (remainingLength >= 8) { writeNextByte(pattern); remainingLength -= 8; }`
of `drawHorizontalLine`; returns the final `remainingLength` with the display. The first
argument bounds the number of iterations (the loop runs `remainingLength / 8` times). -/
def writeFullBytes (T : Transport σ) (pattern : Nat) :
    Nat → Nat → Display σ → Nat × Display σ
  | 0, remainingLength, d => (remainingLength, d)
  | fuel + 1, remainingLength, d =>
    if remainingLength ≥ 8 then
      writeFullBytes T pattern fuel (remainingLength - 8) (writeNextByte T pattern d)
    else (remainingLength, d)

/-- `drawHorizontalLine(x, y, length, pattern)`. -/
def drawHorizontalLine (T : Transport σ) (width : Nat) (x y length pattern : Nat)
    (d : Display σ) : Display σ :=
  let d := setCursorAddress T (width / 8 * y + x / 8) d
  let p := x % 8
  let first : Nat × Display σ :=
    if p ≠ 0 then
      let mr : Nat × Nat :=
        if length + p ≥ 8 then ((0b11111111 <<< p) % 256, (length + 256 - (8 - p)) % 256)
        else ((maskLoop length 0 <<< p) % 256, 0)
      let mask := mr.1
      let cur := readSingleByte T d
      let d := setCursorAddress T (width / 8 * y + x / 8) cur.2
      let d := writeStart T d
      (mr.2, writeNextByte T ((pattern &&& mask) ||| andNot cur.1 mask) d)
    else (length, writeStart T d)
  let full := writeFullBytes T pattern first.1 first.1 first.2
  let remainingLength := full.1
  let d := full.2
  if remainingLength > 0 then
    let mask := maskLoop remainingLength 0
    let cur := readSingleByte T d
    let d := setCursorAddress T (width / 8 * y + (x + length) / 8) cur.2
    writeSingleByte T ((pattern &&& mask) ||| andNot cur.1 mask) d
  else d

/-- `drawBlackHorizontalLine(x, y, length)`. -/
def drawBlackHorizontalLine (T : Transport σ) (width : Nat) (x y length : Nat)
    (d : Display σ) : Display σ :=
  drawHorizontalLine T width x y length 0b11111111 d

/-- `drawWhiteHorizontalLine(x, y, length)`. -/
def drawWhiteHorizontalLine (T : Transport σ) (width : Nat) (x y length : Nat)
    (d : Display σ) : Display σ :=
  drawHorizontalLine T width x y length 0b00000000 d

/-- `setPixel(x, y)`. -/
def setPixel (T : Transport σ) (width : Nat) (x y : Nat) (d : Display σ) : Display σ :=
  setDataBit T (x % 8) (setCursorAddress T (width / 8 * y + x / 8) d)

/-- `clearPixel(x, y)`. -/
def clearPixel (T : Transport σ) (width : Nat) (x y : Nat) (d : Display σ) : Display σ :=
  clearDataBit T (x % 8) (setCursorAddress T (width / 8 * y + x / 8) d)

/-- `setPixel(x, y, black)`. -/
def setPixelColor (T : Transport σ) (width : Nat) (x y : Nat) (black : Bool)
    (d : Display σ) : Display σ :=
  setDataBitColor T (x % 8) black (setCursorAddress T (width / 8 * y + x / 8) d)

/-- The loop of `drawBlackVerticalLine`:
`for (uint8_t i = y; i < y + length; i++) { setCursorAddress(...); setDataBit(x % 8); }`.
The bound `y + length` is an `int`, the counter `i` a `uint8_t` that wraps at 256.
The first argument is the fuel: `none` when it runs out before the loop exits. -/
def blackVerticalLoop (T : Transport σ) (width : Nat) (x y length : Nat) :
    Nat → Nat → Display σ → Option (Display σ)
  | 0, _, _ => none
  | fuel + 1, i, d =>
    if i < y + length then
      blackVerticalLoop T width x y length fuel ((i + 1) % 256)
        (setDataBit T (x % 8) (setCursorAddress T (width / 8 * i + x / 8) d))
    else some d

/-- The loop of `drawWhiteVerticalLine`, as `blackVerticalLoop` with `clearDataBit`. -/
def whiteVerticalLoop (T : Transport σ) (width : Nat) (x y length : Nat) :
    Nat → Nat → Display σ → Option (Display σ)
  | 0, _, _ => none
  | fuel + 1, i, d =>
    if i < y + length then
      whiteVerticalLoop T width x y length fuel ((i + 1) % 256)
        (clearDataBit T (x % 8) (setCursorAddress T (width / 8 * i + x / 8) d))
    else some d

/-- `drawBlackVerticalLine(x, y, length)`, with the fuel of its loop. -/
def drawBlackVerticalLine (T : Transport σ) (width : Nat) (x y length : Nat) (fuel : Nat)
    (d : Display σ) : Option (Display σ) :=
  blackVerticalLoop T width x y length fuel y d

/-- `drawWhiteVerticalLine(x, y, length)`, with the fuel of its loop. -/
def drawWhiteVerticalLine (T : Transport σ) (width : Nat) (x y length : Nat) (fuel : Nat)
    (d : Display σ) : Option (Display σ) :=
  whiteVerticalLoop T width x y length fuel y d

/-- Narrowing of an `int` value to `int16_t` (two's complement). -/
def wrap16 (v : Int) : Int := (v + 32768) % 65536 - 32768

/-- The Bresenham loop of `drawLine` in the branch `y1 > y0`:
`while (true) { setPixel(x0, y0, black); if (x0 == x1 && y0 == y1) break;
e2 = 2 * err; if (-e2 <= dy) { err -= dy; x0 += 1; } if (e2 <= dx) { err += dx; y0 += 1; } }`
with `uint8_t` coordinates and `int16_t` error terms (`2 * err` and `-e2` are `int`
expressions). The first argument is the fuel: `none` when it runs out before the `break`. -/
def bresenhamUp (T : Transport σ) (width : Nat) (x1 y1 dx dy : Nat) (black : Bool) :
    Nat → Nat → Nat → Int → Display σ → Option (Display σ)
  | 0, _, _, _, _ => none
  | fuel + 1, x0, y0, err, d =>
    let d := setPixelColor T width x0 y0 black d
    if x0 = x1 ∧ y0 = y1 then some d
    else
      let e2 := wrap16 (2 * err)
      let ex : Int × Nat :=
        if wrap16 (-e2) ≤ dy then (wrap16 (err - dy), (x0 + 1) % 256) else (err, x0)
      let ey : Int × Nat :=
        if e2 ≤ dx then (wrap16 (ex.1 + dx), (y0 + 1) % 256) else (ex.1, y0)
      bresenhamUp T width x1 y1 dx dy black fuel ex.2 ey.2 ey.1 d

/-- The Bresenham loop of `drawLine` in the branch `y1 < y0`: as `bresenhamUp`, with
`y0 -= 1` in place of `y0 += 1`. -/
def bresenhamDown (T : Transport σ) (width : Nat) (x1 y1 dx dy : Nat) (black : Bool) :
    Nat → Nat → Nat → Int → Display σ → Option (Display σ)
  | 0, _, _, _, _ => none
  | fuel + 1, x0, y0, err, d =>
    let d := setPixelColor T width x0 y0 black d
    if x0 = x1 ∧ y0 = y1 then some d
    else
      let e2 := wrap16 (2 * err)
      let ex : Int × Nat :=
        if wrap16 (-e2) ≤ dy then (wrap16 (err - dy), (x0 + 1) % 256) else (err, x0)
      let ey : Int × Nat :=
        if e2 ≤ dx then (wrap16 (ex.1 + dx), (y0 + 256 - 1) % 256) else (ex.1, y0)
      bresenhamDown T width x1 y1 dx dy black fuel ex.2 ey.2 ey.1 d

/-- `drawLine(x0, y0, x1, y1, black)`. The fuel bounds the recursion of the swap
(`if (x0 > x1) return drawLine(x1, y1, x0, y0, black);`) and is handed to the loops. -/
def drawLine (T : Transport σ) (width : Nat) (x0 y0 x1 y1 : Nat) (black : Bool) (fuel : Nat)
    (d : Display σ) : Option (Display σ) :=
  match fuel with
  | 0 => none
  | fuel + 1 =>
    if x0 > x1 then drawLine T width x1 y1 x0 y0 black fuel d
    else
      let dx := (x1 + 256 - x0) % 256
      if y0 = y1 then
        some (drawHorizontalLine T width x0 y0 ((dx + 1) % 256)
          (if black then 0b11111111 else 0) d)
      else if y1 > y0 then
        let dy := (y1 + 256 - y0) % 256
        if dx = 0 then
          if black then drawWhiteVerticalLine T width x0 y0 ((dy + 1) % 256) fuel d
          else drawBlackVerticalLine T width x0 y0 ((dy + 1) % 256) fuel d
        else bresenhamUp T width x1 y1 dx dy black fuel x0 y0 (wrap16 (dx - dy)) d
      else
        let dy := (y0 + 256 - y1) % 256
        if dx = 0 then
          if black then drawWhiteVerticalLine T width x1 y1 ((dy + 1) % 256) fuel d
          else drawBlackVerticalLine T width x1 y1 ((dy + 1) % 256) fuel d
        else bresenhamDown T width x1 y1 dx dy black fuel x0 y0 (wrap16 (dx - dy)) d

/-- `drawBlackLine(x0, y0, x1, y1)`. -/
def drawBlackLine (T : Transport σ) (width : Nat) (x0 y0 x1 y1 : Nat) (fuel : Nat)
    (d : Display σ) : Option (Display σ) :=
  drawLine T width x0 y0 x1 y1 true fuel d

/-- `drawWhiteLine(x0, y0, x1, y1)`. -/
def drawWhiteLine (T : Transport σ) (width : Nat) (x0 y0 x1 y1 : Nat) (fuel : Nat)
    (d : Display σ) : Option (Display σ) :=
  drawLine T width x0 y0 x1 y1 false fuel d

/-- The six register writes of one `setPixel(x, y, black)` call. -/
def setPixelEvents (width : Nat) (black : Bool) (p : Nat × Nat) : List Event :=
  [Event.write register_t.Command 0b1010,
   Event.write register_t.Data ((width / 8 * p.2 + p.1 / 8) % 65536 % 256),
   Event.write register_t.Command 0b1011,
   Event.write register_t.Data ((width / 8 * p.2 + p.1 / 8) % 65536 / 256),
   Event.write register_t.Command (if black then 0b1111 else 0b1110),
   Event.write register_t.Data (p.1 % 8)]

/-! ### Initialisation, clearing, rectangles and fills -/

/-- `this->init()`: the call of the virtual `init` hook. -/
def init (T : Transport σ) (d : Display σ) : Display σ :=
  { d with dev := T.init d.dev, trace := d.trace ++ [Event.init] }

/-- `initGraphicMode()`. The width byte is the `int` value `width / 8 - 1` narrowed to
`uint8_t`. -/
def initGraphicMode (T : Transport σ) (width : Nat) (d : Display σ) : Display σ :=
  -- Prepare display to receiving commands and data
  let d := init T d
  -- Set mode register to display ON, master mode, graphic mode
  let d := write T register_t.Command 0b0000 d
  let d := write T register_t.Data 0b00110010 d
  -- Set chars/bits per pixel to use 8 bits of 1 byte to display 8 dots
  let d := write T register_t.Command 0b0001 d
  let d := write T register_t.Data 0b00000111 d
  -- Set width of the screen
  let d := write T register_t.Command 0b0010 d
  let d := write T register_t.Data (width / 8 + 256 - 1) d
  -- Set display duty to max
  let d := write T register_t.Command 0b0011 d
  let d := write T register_t.Data 127 d
  -- Set display start lower address
  let d := write T register_t.Command 0b1000 d
  let d := write T register_t.Data 0 d
  -- Set display start upper address
  let d := write T register_t.Command 0b1001 d
  write T register_t.Data 0 d

/-- `setDisplayDuty(value)`. -/
def setDisplayDuty (T : Transport σ) (value : Nat) (d : Display σ) : Display σ :=
  write T register_t.Data value (write T register_t.Command 0b0011 d)

/-- The loop `for (uint8_t x = 0; x < width; x += 8) { writeNextByte(pattern); }` of `clear`
and `clearGray`; the counter wraps at 256. The first argument is the fuel: `none` when it
runs out before the loop exits. -/
def clearRowLoop (T : Transport σ) (width pattern : Nat) :
    Nat → Nat → Display σ → Option (Display σ)
  | 0, _, _ => none
  | fuel + 1, x, d =>
    if x < width then
      clearRowLoop T width pattern fuel ((x + 8) % 256) (writeNextByte T pattern d)
    else some d

/-- The loop `for (uint8_t y = 0; y < height; y++) { ... }` of `clear`, with the fuel that
is handed to the inner loop. -/
def clearLoop (T : Transport σ) (width height pattern : Nat) :
    Nat → Nat → Display σ → Option (Display σ)
  | 0, _, _ => none
  | fuel + 1, y, d =>
    if y < height then
      match clearRowLoop T width pattern fuel 0 d with
      | none => none
      | some d => clearLoop T width height pattern fuel ((y + 1) % 256) d
    else some d

/-- `clear(pattern)`. -/
def clear (T : Transport σ) (width height : Nat) (pattern : Nat) (fuel : Nat)
    (d : Display σ) : Option (Display σ) :=
  clearLoop T width height pattern fuel 0 (writeStart T (setCursorAddress T 0 d))

/-- `clearWhite()`. -/
def clearWhite (T : Transport σ) (width height : Nat) (fuel : Nat) (d : Display σ) :
    Option (Display σ) :=
  clear T width height 0 fuel d

/-- `clearBlack()`. -/
def clearBlack (T : Transport σ) (width height : Nat) (fuel : Nat) (d : Display σ) :
    Option (Display σ) :=
  clear T width height 0b11111111 fuel d

/-- The loop `for (uint8_t y = 0; y < height; y += 2) { ... }` of `clearGray`: a row of
`0b10101010` and a row of `0b01010101` per iteration; the counter wraps at 256. -/
def clearGrayLoop (T : Transport σ) (width height : Nat) :
    Nat → Nat → Display σ → Option (Display σ)
  | 0, _, _ => none
  | fuel + 1, y, d =>
    if y < height then
      match clearRowLoop T width 0b10101010 fuel 0 d with
      | none => none
      | some d =>
        match clearRowLoop T width 0b01010101 fuel 0 d with
        | none => none
        | some d => clearGrayLoop T width height fuel ((y + 2) % 256) d
    else some d

/-- `clearGray()`. -/
def clearGray (T : Transport σ) (width height : Nat) (fuel : Nat) (d : Display σ) :
    Option (Display σ) :=
  clearGrayLoop T width height fuel 0 (writeStart T (setCursorAddress T 0 d))

/-- `drawBlackRectangle(x, y, w, h)`. The arguments `y + h - 1`, `y + 1`, `h - 2` and
`x + w - 1` are `int` values narrowed to `uint8_t`. The fuel is that of the two
vertical lines. -/
def drawBlackRectangle (T : Transport σ) (width : Nat) (x y w h : Nat) (fuel : Nat)
    (d : Display σ) : Option (Display σ) :=
  let d := drawBlackHorizontalLine T width x y w d
  let d := drawBlackHorizontalLine T width x ((y + h + 256 - 1) % 256) w d
  match drawBlackVerticalLine T width x ((y + 1) % 256) ((h + 256 - 2) % 256) fuel d with
  | none => none
  | some d =>
    drawBlackVerticalLine T width ((x + w + 256 - 1) % 256) ((y + 1) % 256)
      ((h + 256 - 2) % 256) fuel d

/-- `drawWhiteRectangle(x, y, w, h)`. -/
def drawWhiteRectangle (T : Transport σ) (width : Nat) (x y w h : Nat) (fuel : Nat)
    (d : Display σ) : Option (Display σ) :=
  let d := drawWhiteHorizontalLine T width x y w d
  let d := drawWhiteHorizontalLine T width x ((y + h + 256 - 1) % 256) w d
  match drawWhiteVerticalLine T width x ((y + 1) % 256) ((h + 256 - 2) % 256) fuel d with
  | none => none
  | some d =>
    drawWhiteVerticalLine T width ((x + w + 256 - 1) % 256) ((y + 1) % 256)
      ((h + 256 - 2) % 256) fuel d

/-- The loop `for (uint8_t i = y; i < y + h; i++) { drawBlackHorizontalLine(x, i, w); }` of
`drawBlackFill`: the bound `y + h` is an `int`, the counter wraps at 256. -/
def blackFillLoop (T : Transport σ) (width : Nat) (x y w h : Nat) :
    Nat → Nat → Display σ → Option (Display σ)
  | 0, _, _ => none
  | fuel + 1, i, d =>
    if i < y + h then
      blackFillLoop T width x y w h fuel ((i + 1) % 256) (drawBlackHorizontalLine T width x i w d)
    else some d

/-- The loop of `drawWhiteFill`, as `blackFillLoop` with `drawWhiteHorizontalLine`. -/
def whiteFillLoop (T : Transport σ) (width : Nat) (x y w h : Nat) :
    Nat → Nat → Display σ → Option (Display σ)
  | 0, _, _ => none
  | fuel + 1, i, d =>
    if i < y + h then
      whiteFillLoop T width x y w h fuel ((i + 1) % 256) (drawWhiteHorizontalLine T width x i w d)
    else some d

/-- `drawBlackFill(x, y, w, h)`, with the fuel of its loop. -/
def drawBlackFill (T : Transport σ) (width : Nat) (x y w h : Nat) (fuel : Nat)
    (d : Display σ) : Option (Display σ) :=
  blackFillLoop T width x y w h fuel y d

/-- `drawWhiteFill(x, y, w, h)`, with the fuel of its loop. -/
def drawWhiteFill (T : Transport σ) (width : Nat) (x y w h : Nat) (fuel : Nat)
    (d : Display σ) : Option (Display σ) :=
  whiteFillLoop T width x y w h fuel y d

/-- `pgm_read_byte(pattern + i)` on a pattern blob, the list of its bytes. -/
def pgm_read_byte (pattern : List Nat) (i : Nat) : Nat := pattern.getD i 0 % 256

/-- The loop `do { p = pgm_read_byte(pattern + (i & mask) + 1); drawHorizontalLine(x, i, w, p);
i += 1; } while (i < limit);` of `drawPatternFill`, entered at the top of the body; `i` and
`limit` are `uint8_t`. -/
def patternFillLoop (T : Transport σ) (width : Nat) (x w : Nat) (pattern : List Nat)
    (mask limit : Nat) : Nat → Nat → Display σ → Option (Display σ)
  | 0, _, _ => none
  | fuel + 1, i, d =>
    let p := pgm_read_byte pattern ((i &&& mask) + 1)
    let d := drawHorizontalLine T width x i w p d
    let i := (i + 1) % 256
    if i < limit then patternFillLoop T width x w pattern mask limit fuel i d else some d

/-- `drawPatternFill(x, y, w, h, pattern)`, with the fuel of its loop. -/
def drawPatternFill (T : Transport σ) (width : Nat) (x y w h : Nat) (pattern : List Nat)
    (fuel : Nat) (d : Display σ) : Option (Display σ) :=
  let mask := pgm_read_byte pattern 0
  let limit := (y + h) % 256
  patternFillLoop T width x w pattern mask limit fuel y d

/-- `drawGrayFill(x, y, w, h)`, with its static pattern. -/
def drawGrayFill (T : Transport σ) (width : Nat) (x y w h : Nat) (fuel : Nat)
    (d : Display σ) : Option (Display σ) :=
  drawPatternFill T width x y w h [0b1, 0b01010101, 0b10101010] fuel d

/-! ### Text -/

/-- A font blob (`const void* font`) in program memory: the two header bytes
`font_header_t { width, height }` and the glyph bytes that follow the header, `data i` being
the byte at `fontData + i`; `before i` is the byte at `fontData - 3 - i`, the program memory
in front of the blob. -/
structure Font where
  width : Nat
  height : Nat
  data : Nat → Nat
  before : Nat → Nat := fun _ => 0

/-- `pgm_read_byte(fontData + i)` for an offset `i` that is not negative: the result is a
`uint8_t`. -/
def Font.byte (font : Font) (i : Nat) : Nat := font.data i % 256

/-- `*pointer` as the `int` it is promoted to. A string is the list of its bytes; `char` is
signed on AVR, so the bytes from 128 on are the values `-128 .. -1`. -/
def charValue (c : Nat) : Int := if c < 128 then (c : Int) else (c : Int) - 256

/-- `pgm_read_byte(fontData + k)` for an `int` offset `k`, which may be negative. Offsets
and addresses have 16 bits, so `k` counts modulo `2 ^ 16`: from 0 on the byte is a glyph
byte, at `-1` and `-2` it is the header byte `height` and `width`, and below them it is the
program memory in front of the blob. -/
def Font.byteAt (font : Font) (k : Int) : Nat :=
  let a := wrap16 k
  if 0 ≤ a then font.byte a.toNat
  else if a = -1 then font.height % 256
  else if a = -2 then font.width % 256
  else font.before (-a - 3).toNat % 256

/-- The loop `while (*pointer) { ... pointer += 1; }` of `drawTextVertical_narrow` for glyph
row `r`. A string is the list of its bytes; the loop stops at the end of the list or at a
NUL. Returns the final `pointer`, `bitsPending`, `nextByte` and the display. The glyph
offset `(*pointer - ' ') * fontRowBytes + r` is an `int` computed from the signed `char`. -/
def narrowLoop (T : Transport σ) (font : Font) (r : Nat) :
    List Nat → Nat → Nat → Display σ → List Nat × Nat × Nat × Display σ
  | [], bitsPending, nextByte, d => ([], bitsPending, nextByte, d)
  | c :: pointer, bitsPending, nextByte, d =>
    if c = 0 then (c :: pointer, bitsPending, nextByte, d)
    else
      let fontWidth := font.width
      let fontRowBytes := font.height
      let data := font.byteAt ((charValue c - 32) * fontRowBytes + r)
      let nextByte := (nextByte ||| (data <<< bitsPending)) % 256
      let bitsPending := (bitsPending + fontWidth) % 256
      let st : Nat × Nat × Display σ :=
        if bitsPending ≥ 8 then
          let d := writeNextByte T nextByte d
          let bitsPending := (bitsPending + 256 - 8) % 256
          (bitsPending, data >>> (fontWidth - bitsPending), d)
        else (bitsPending, nextByte, d)
      narrowLoop T font r pointer st.1 st.2.1 st.2.2

/-- The row loop `for (uint8_t r = 0; r < fontHeight; r++) { ...; y += 1; }` of
`drawTextVertical_narrow`; the first argument counts the rows still to draw. -/
def narrowRows (T : Transport σ) (width : Nat) (x : Nat) (string : List Nat) (font : Font) :
    Nat → Nat → Nat → Display σ → Display σ
  | 0, _, _, d => d
  | rows + 1, r, y, d =>
    let bitsOffset := x % 8
    -- Read background for first block if not aligned start
    let st0 : Nat × Nat × Display σ :=
      if bitsOffset ≠ 0 then
        let d := setCursorAddress T (width / 8 * y + x / 8) d
        let cur := readSingleByte T d
        (bitsOffset, (andNot cur.1 (0b11111111 <<< bitsOffset)) % 256, cur.2)
      else (0, 0, d)
    -- Process next blocks
    let d := setCursorAddress T (width / 8 * y + x / 8) st0.2.2
    let d := writeStart T d
    let lp := narrowLoop T font r string st0.1 st0.2.1 d
    let pointer := lp.1
    let bitsPending := lp.2.1
    let nextByte := lp.2.2.1
    let d := lp.2.2.2
    -- Write last block, with background, if not aligned end
    let d :=
      if bitsPending > 0 then
        let cur := readSingleByte T d
        let nextByte := (nextByte ||| (cur.1 &&& (0b11111111 <<< bitsPending))) % 256
        let widthTotal := ((string.length - pointer.length) * font.width + bitsOffset) % 256
        let d := setCursorAddress T (width / 8 * y + x / 8 + widthTotal / 8) cur.2
        let d := writeStart T d
        writeNextByte T nextByte d
      else d
    narrowRows T width x string font rows (r + 1) ((y + 1) % 256) d

/-- `drawTextVertical_narrow(x, y, string, font)`. -/
def drawTextVertical_narrow (T : Transport σ) (width : Nat) (x y : Nat) (string : List Nat)
    (font : Font) (d : Display σ) : Display σ :=
  narrowRows T width x string font font.height 0 y d

/-- The loop `while (remainingFontWidth > 8) { ... }` ("Full bytes") of
`drawTextVertical_wide`; `base` is the pointer `charAddress + rowOffsetByte`, as its offset
from `fontData`. The first argument bounds the number of iterations (each takes 8 off
`remainingFontWidth`). Returns the final `remainingFontWidth`, `byteOffset`, `nextByte` and
the display. -/
def wideFullBytes (T : Transport σ) (font : Font) (base : Int) (bitsPending : Nat) :
    Nat → Nat → Nat → Nat → Display σ → Nat × Nat × Nat × Display σ
  | 0, remainingFontWidth, byteOffset, nextByte, d =>
    (remainingFontWidth, byteOffset, nextByte, d)
  | fuel + 1, remainingFontWidth, byteOffset, nextByte, d =>
    if remainingFontWidth > 8 then
      let data := font.byteAt (base + byteOffset)
      let nextByte := (nextByte ||| (data <<< bitsPending)) % 256
      let d := writeNextByte T nextByte d
      wideFullBytes T font base bitsPending fuel ((remainingFontWidth + 256 - 8) % 256)
        ((byteOffset + 1) % 256) (data >>> (8 - bitsPending)) d
    else (remainingFontWidth, byteOffset, nextByte, d)

/-- The loop `while (*pointer) { ... pointer += 1; }` of `drawTextVertical_wide` for glyph
row `r`: per character the partial first byte, the full bytes and the last bits. The
pointer `charAddress = fontData + (*pointer - ' ') * fontRowBytes` is kept as its offset
from `fontData`, an `int` computed from the signed `char`. -/
def wideLoop (T : Transport σ) (font : Font) (r : Nat) :
    List Nat → Nat → Nat → Display σ → List Nat × Nat × Nat × Display σ
  | [], bitsPending, nextByte, d => ([], bitsPending, nextByte, d)
  | c :: pointer, bitsPending, nextByte, d =>
    if c = 0 then (c :: pointer, bitsPending, nextByte, d)
    else
      let fontWidth := font.width
      let fontRowBytes := ((font.width * font.height + 7) / 8) % 256
      let rowOffsetByte := (r * fontWidth / 8) % 256
      let rowOffsetBits := (r * fontWidth % 8) % 256
      let remainingFontWidth := fontWidth
      let charAddress : Int := (charValue c - 32) * fontRowBytes
      -- Partial first byte: (remainingFontWidth, byteOffset, bitsPending, nextByte, d)
      let s1 : Nat × Nat × Nat × Nat × Display σ :=
        if rowOffsetBits ≠ 0 then
          let data := (font.byteAt (charAddress + rowOffsetByte)) >>> rowOffsetBits
          let length := 8 - rowOffsetBits
          let nextByte := (nextByte ||| (data <<< bitsPending)) % 256
          let bitsPending := (bitsPending + length) % 256
          let remainingFontWidth := (remainingFontWidth + 256 - length) % 256
          if bitsPending ≥ 8 then
            let d := writeNextByte T nextByte d
            let bitsPending := (bitsPending + 256 - 8) % 256
            (remainingFontWidth, 1, bitsPending, data >>> (length - bitsPending), d)
          else (remainingFontWidth, 1, bitsPending, nextByte, d)
        else (remainingFontWidth, 0, bitsPending, nextByte, d)
      let bitsPending := s1.2.2.1
      -- Full bytes: (remainingFontWidth, byteOffset, nextByte, d)
      let s2 := wideFullBytes T font (charAddress + rowOffsetByte) bitsPending
        s1.1 s1.1 s1.2.1 s1.2.2.2.1 s1.2.2.2.2
      let remainingFontWidth := s2.1
      let byteOffset := s2.2.1
      let nextByte := s2.2.2.1
      let d := s2.2.2.2
      -- Last bits
      let data := andNot (font.byteAt (charAddress + rowOffsetByte + byteOffset))
        (0b11111111 <<< remainingFontWidth)
      let nextByte := (nextByte ||| (data <<< bitsPending)) % 256
      let bitsPending := (bitsPending + remainingFontWidth) % 256
      let s3 : Nat × Nat × Display σ :=
        if bitsPending ≥ 8 then
          let d := writeNextByte T nextByte d
          let bitsPending := (bitsPending + 256 - 8) % 256
          (bitsPending, data >>> (remainingFontWidth - bitsPending), d)
        else (bitsPending, nextByte, d)
      wideLoop T font r pointer s3.1 s3.2.1 s3.2.2

/-- The row loop `for (uint8_t r = 0; r < fontHeight; r++) { ...; y += 1; }` of
`drawTextVertical_wide`; the first argument counts the rows still to draw. -/
def wideRows (T : Transport σ) (width : Nat) (x : Nat) (string : List Nat) (font : Font) :
    Nat → Nat → Nat → Display σ → Display σ
  | 0, _, _, d => d
  | rows + 1, r, y, d =>
    let bitsOffset := x % 8
    -- Read background for first block if not aligned start
    let st0 : Nat × Nat × Display σ :=
      if bitsOffset ≠ 0 then
        let d := setCursorAddress T (width / 8 * y + x / 8) d
        let cur := readSingleByte T d
        (bitsOffset, (andNot cur.1 (0b11111111 <<< bitsOffset)) % 256, cur.2)
      else (0, 0, d)
    -- Process next blocks
    let d := setCursorAddress T (width / 8 * y + x / 8) st0.2.2
    let d := writeStart T d
    let lp := wideLoop T font r string st0.1 st0.2.1 d
    let pointer := lp.1
    let bitsPending := lp.2.1
    let nextByte := lp.2.2.1
    let d := lp.2.2.2
    -- Write last block, with background, if not aligned end
    let d :=
      if bitsPending > 0 then
        let cur := readSingleByte T d
        let nextByte := (nextByte ||| (cur.1 &&& (0b11111111 <<< bitsPending))) % 256
        let widthTotal := ((string.length - pointer.length) * font.width + bitsOffset) % 256
        let d := setCursorAddress T (width / 8 * y + x / 8 + widthTotal / 8) cur.2
        let d := writeStart T d
        writeNextByte T nextByte d
      else d
    wideRows T width x string font rows (r + 1) ((y + 1) % 256) d

/-- `drawTextVertical_wide(x, y, string, font)`. -/
def drawTextVertical_wide (T : Transport σ) (width : Nat) (x y : Nat) (string : List Nat)
    (font : Font) (d : Display σ) : Display σ :=
  wideRows T width x string font font.height 0 y d

/-- Bit `b` of a bit-packed glyph starting at byte `base`: bit `b mod 8` of byte `b / 8`. -/
def Font.packedBit (font : Font) (base b : Nat) : Bool :=
  (font.byte (base + b / 8)).testBit (b % 8)

/-! ### The byte-array device -/

/-- Modelled from the spec: the device behind the transport, which is hardware and not part
of the sources. An addressable byte array `mem` with the controller's cursor, the last
command written to the Command register (`ir`), and the flag `stale` of the controller's
read quirk: after an address change the first Data read is a throwaway that neither
returns display data nor moves the cursor. The cursor is a natural number and is not
wrapped at `2 ^ 16`; the addresses of a surface stay far below. -/
structure Device where
  mem : Nat → Nat
  cursor : Nat
  ir : Nat
  stale : Bool

/-- Memory with the byte at address `a` replaced by `v`. -/
def store (mem : Nat → Nat) (a v : Nat) : Nat → Nat :=
  fun i => if i = a then v else mem i

/-- Modelled from the spec: a register write as the byte-array device sees it. Data writes
under the cursor commands load the low/high cursor byte; under `0b1100` they store the byte
at the cursor; under `0b1111` / `0b1110` they set / clear one bit of the byte at the cursor;
the three memory accesses advance the cursor. Mode registers do not touch the memory. -/
def Device.write (reg : register_t) (val : Nat) (s : Device) : Device :=
  match reg with
  | register_t.Command => { s with ir := val }
  | register_t.Data =>
    if s.ir = 0b1010 then
      { s with cursor := s.cursor / 256 * 256 + val % 256, stale := true }
    else if s.ir = 0b1011 then
      { s with cursor := val % 256 * 256 + s.cursor % 256, stale := true }
    else if s.ir = 0b1100 then
      { s with mem := store s.mem s.cursor (val % 256), cursor := s.cursor + 1 }
    else if s.ir = 0b1111 then
      { s with mem := store s.mem s.cursor (s.mem s.cursor ||| (1 <<< (val % 8))),
               cursor := s.cursor + 1 }
    else if s.ir = 0b1110 then
      { s with mem := store s.mem s.cursor (andNot (s.mem s.cursor) (1 <<< (val % 8))),
               cursor := s.cursor + 1 }
    else s

/-- Modelled from the spec: a register read as the byte-array device sees it. Under the
read command `0b1101` the throwaway read after an address change returns no data and leaves
the cursor; every other Data read returns the byte at the cursor and advances the cursor. -/
def Device.read (reg : register_t) (s : Device) : Nat × Device :=
  match reg with
  | register_t.Command => (0, s)
  | register_t.Data =>
    if s.ir = 0b1101 then
      if s.stale then (0, { s with stale := false })
      else (s.mem s.cursor, { s with cursor := s.cursor + 1 })
    else (0, s)

/-- Modelled from the spec: the byte-array device as an implementation of the transport
contract. -/
def byteArray : Transport Device where
  write := Device.write
  read := Device.read
  init := id

/-- Memory with the `k` bytes from address `c` on replaced by `v`. -/
def fillRange (mem : Nat → Nat) (c k v : Nat) : Nat → Nat :=
  fun a => if c ≤ a ∧ a < c + k then v else mem a

/-- The pixel at column `x` of row `y`: bit `x mod 8` of the byte at `(W/8)*y + x/8`. -/
def pixel (width : Nat) (mem : Nat → Nat) (x y : Nat) : Bool :=
  (mem (width / 8 * y + x / 8)).testBit (x % 8)

/-- A display object in front of a byte-array device. -/
def onDevice (needDummyRead : Bool) (mem : Nat → Nat) (cursor ir : Nat) (stale : Bool)
    (trace : List Event) : Display Device :=
  { needDummyRead := needDummyRead,
    dev := { mem := mem, cursor := cursor, ir := ir, stale := stale },
    trace := trace }

/-! ### Auxiliary definitions for the text proofs -/

/-- One accumulator step of the text blitters, as it occurs in `narrowLoop` and three times
in `wideLoop`: `nextByte |= data << bitsPending; bitsPending += len;
if (bitsPending >= 8) { writeNextByte(nextByte); bitsPending -= 8;
nextByte = data >> (len - bitsPending); }`. Returns `bitsPending`, `nextByte`, display. -/
def pushBits (T : Transport σ) (data len bitsPending nextByte : Nat) (d : Display σ) :
    Nat × Nat × Display σ :=
  if (bitsPending + len) % 256 ≥ 8 then
    (((bitsPending + len) % 256 + 256 - 8) % 256,
      data >>> (len - ((bitsPending + len) % 256 + 256 - 8) % 256),
      writeNextByte T ((nextByte ||| (data <<< bitsPending)) % 256) d)
  else ((bitsPending + len) % 256, (nextByte ||| (data <<< bitsPending)) % 256, d)

/-- The state of a text row on the byte-array device after `L` bits of the row's bit stream
`f` (counted from the start of the first byte of the row, at address `A`) have been
accumulated: the `L / 8` full bytes are in memory, the `L % 8` pending bits in `nextByte`,
the cursor is behind the bytes written and everything else is as in `m0`. -/
def StreamInv (f : Nat → Bool) (m0 : Nat → Nat) (A L : Nat) (bitsPending nextByte : Nat)
    (d : Display Device) : Prop :=
  d.needDummyRead = true ∧ d.dev.stale = true ∧ d.dev.ir = 0b1100 ∧
  d.dev.cursor = A + L / 8 ∧ bitsPending = L % 8 ∧
  (∀ j, nextByte.testBit j = (decide (j < L % 8) && f (8 * (L / 8) + j))) ∧
  (∀ a j, j < 8 → (d.dev.mem a).testBit j =
    if A ≤ a ∧ a < A + L / 8 then f (8 * (a - A) + j) else (m0 a).testBit j)

/-- The block "Read background for first block if not aligned start" of the text blitters,
followed by `setCursorAddress(...); writeStart();`. Returns `bitsPending`, `nextByte` and
the display. -/
def textRowBegin (T : Transport σ) (width x y : Nat) (d : Display σ) :
    Nat × Nat × Display σ :=
  let st0 : Nat × Nat × Display σ :=
    if x % 8 ≠ 0 then
      (x % 8, (andNot (readSingleByte T (setCursorAddress T (width / 8 * y + x / 8) d)).1
          (0b11111111 <<< (x % 8))) % 256,
        (readSingleByte T (setCursorAddress T (width / 8 * y + x / 8) d)).2)
    else (0, 0, d)
  (st0.1, st0.2.1, writeStart T (setCursorAddress T (width / 8 * y + x / 8) st0.2.2))

/-- The block "Write last block, with background, if not aligned end" of the text
blitters; `count` is `pointer - string`. -/
def textRowEnd (T : Transport σ) (width x y count fontWidth : Nat)
    (bitsPending nextByte : Nat) (d : Display σ) : Display σ :=
  if bitsPending > 0 then
    writeNextByte T
      ((nextByte ||| ((readSingleByte T d).1 &&& (0b11111111 <<< bitsPending))) % 256)
      (writeStart T (setCursorAddress T
        (width / 8 * y + x / 8 + ((count * fontWidth + x % 8) % 256) / 8)
        (readSingleByte T d).2))
  else d

/-- The bit stream of a text row: below the bit offset `bo` the background bits of the
first byte `b0`, from `bo` on the row bits `g` of the glyphs. -/
def rowStream (bo b0 : Nat) (g : Nat → Bool) (t : Nat) : Bool :=
  if t < bo then b0.testBit t else g (t - bo)

/-- Bit `t` of glyph row `r` of the text `s` in a narrow font, the glyph rows side by side:
bit `t mod width` of the row byte of character number `t / width`. -/
def narrowRowBit (font : Font) (s : List Nat) (r t : Nat) : Bool :=
  (font.byte ((s.getD (t / font.width) 0 - 32) * font.height + r)).testBit (t % font.width)

/-- Bit `t` of glyph row `r` of the text `s` in a wide font: bit `r * width + t mod width`
of the packed glyph of character number `t / width`. -/
def wideRowBit (font : Font) (s : List Nat) (r t : Nat) : Bool :=
  font.packedBit ((s.getD (t / font.width) 0 - 32) * ((font.width * font.height + 7) / 8))
    (r * font.width + t % font.width)

/-- A small narrow font for examples: 5 x 2, glyph rows below `2 ^ 5`. -/
def sampleNarrowFont : Font :=
  { width := 5, height := 2, data := fun i => (i * 7 + 3) % 32 }

/-- A small wide font for examples: 11 x 3, bit-packed in 5 bytes per glyph. -/
def sampleWideFont : Font :=
  { width := 11, height := 3, data := fun i => (i * 73 + 29) % 256 }

/-- The body of the `while (*pointer)` loop of `drawTextVertical_wide` for one character
`c` of the glyph table (codes 32 to 127, whose glyph offsets are natural numbers), in terms
of `pushBits`: the partial first byte, the full bytes, the last bits. Returns
`bitsPending`, `nextByte` and the display. -/
def wideChar (T : Transport σ) (font : Font) (r c : Nat) (bitsPending nextByte : Nat)
    (d : Display σ) : Nat × Nat × Display σ :=
  let rob := (r * font.width % 8) % 256
  let base := (c - 32) * (((font.width * font.height + 7) / 8) % 256) +
    (r * font.width / 8) % 256
  let p1 : Nat × Nat × Display σ :=
    if rob ≠ 0 then pushBits T (font.byte base >>> rob) (8 - rob) bitsPending nextByte d
    else (bitsPending, nextByte, d)
  let rem1 := if rob ≠ 0 then (font.width + 256 - (8 - rob)) % 256 else font.width
  let fb := wideFullBytes T font (base : Int) p1.1 rem1 rem1 (if rob ≠ 0 then 1 else 0)
    p1.2.1 p1.2.2
  pushBits T (andNot (font.byteAt ((base : Int) + (fb.2.1 : Int))) (0b11111111 <<< fb.1))
    fb.1 p1.1 fb.2.2.1 fb.2.2.2

/-! ### The byte-aligned text fast path and the dispatcher -/

/-- The loop `while (*pointer) { uint8_t next = pgm_read_byte(fontData + (*pointer - ' ') *
16 + i); pointer += 1; writeNextByte((prev >> (8 - p)) | (next << p)); prev = next; }`
("Middle blocks") of the unaligned branch of `drawTextVertical_8x16`. Returns the final
`pointer`, `prev` and the display. -/
def middleLoop_8x16 (T : Transport σ) (font : Font) (i p : Nat) :
    List Nat → Nat → Display σ → List Nat × Nat × Display σ
  | [], prev, d => ([], prev, d)
  | c :: pointer, prev, d =>
    if c = 0 then (c :: pointer, prev, d)
    else
      let next := font.byteAt ((charValue c - 32) * 16 + i)
      let d := writeNextByte T ((prev >>> (8 - p)) ||| (next <<< p)) d
      middleLoop_8x16 T font i p pointer next d

/-- The row loop `for (uint8_t i = 0; i < 16; i++) { ...; y += 1; }` of the unaligned branch
(`p != 0`) of `drawTextVertical_8x16`: first block, middle blocks, last block. The first
argument counts the rows still to draw; the string is not empty. -/
def unalignedRows_8x16 (T : Transport σ) (width : Nat) (x : Nat) (string : List Nat)
    (font : Font) : Nat → Nat → Nat → Display σ → Display σ
  | 0, _, _, d => d
  | rows + 1, i, y, d =>
    let p := x % 8
    -- First block
    let mask := (0b11111111 <<< p) % 256
    let d := setCursorAddress T (width / 8 * y + x / 8) d
    let cur := readSingleByte T d
    let prev := font.byteAt ((charValue (string.headD 0) - 32) * 16 + i)
    let pointer := string.tail
    let d := setCursorAddress T (width / 8 * y + x / 8) cur.2
    let d := writeStart T d
    let d := writeNextByte T ((andNot cur.1 mask) ||| (prev <<< p)) d
    -- Middle blocks
    let lp := middleLoop_8x16 T font i p pointer prev d
    let pointer := lp.1
    let prev := lp.2.1
    let d := lp.2.2
    -- Last block
    let cur := readSingleByte T d
    let d := setCursorAddress T
      (width / 8 * y + x / 8 + (string.length - pointer.length)) cur.2
    let d := writeStart T d
    let d := writeNextByte T ((prev >>> (8 - p)) ||| (cur.1 &&& mask)) d
    unalignedRows_8x16 T width x string font rows (i + 1) ((y + 1) % 256) d

/-- The loop `while (*pointer) { writeNextByte(pgm_read_byte(fontData + (*pointer - ' ') *
16 + i)); pointer += 1; }` of the aligned branch of `drawTextVertical_8x16`. -/
def alignedLoop_8x16 (T : Transport σ) (font : Font) (i : Nat) :
    List Nat → Display σ → Display σ
  | [], d => d
  | c :: pointer, d =>
    if c = 0 then d
    else
      alignedLoop_8x16 T font i pointer
        (writeNextByte T (font.byteAt ((charValue c - 32) * 16 + i)) d)

/-- The row loop `for (uint8_t i = 0; i < 16; i++) { ...; y += 1; }` of the aligned branch
(`p == 0`) of `drawTextVertical_8x16`; the first argument counts the rows still to draw. -/
def alignedRows_8x16 (T : Transport σ) (width : Nat) (x : Nat) (string : List Nat)
    (font : Font) : Nat → Nat → Nat → Display σ → Display σ
  | 0, _, _, d => d
  | rows + 1, i, y, d =>
    let d := setCursorAddress T (width / 8 * y + x / 8) d
    let d := writeStart T d
    let d := alignedLoop_8x16 T font i string d
    alignedRows_8x16 T width x string font rows (i + 1) ((y + 1) % 256) d

/-- `drawTextVertical_8x16(x, y, string, font)` (compiled under `FONT_ANY_8X16`): returns at
once on an empty string (`if (!*string) return;`), else runs the branch for `p = x % 8`. -/
def drawTextVertical_8x16 (T : Transport σ) (width : Nat) (x y : Nat) (string : List Nat)
    (font : Font) (d : Display σ) : Display σ :=
  if string.headD 0 = 0 then d
  else if x % 8 ≠ 0 then unalignedRows_8x16 T width x string font 16 0 y d
  else alignedRows_8x16 T width x string font 16 0 y d

/-- `drawTextVertical(x, y, string, font)`; `fast8x16` tells whether `FONT_ANY_8X16` is
defined, that is whether the fast path is compiled in. -/
def drawTextVertical (T : Transport σ) (fast8x16 : Bool) (width : Nat) (x y : Nat)
    (string : List Nat) (font : Font) (d : Display σ) : Display σ :=
  if fast8x16 = true ∧ font.width = 8 ∧ font.height = 16 then
    drawTextVertical_8x16 T width x y string font d
  else if font.width ≤ 8 then drawTextVertical_narrow T width x y string font d
  else drawTextVertical_wide T width x y string font d

/-! ### Pattern blobs of `nice_custom_fill_patterns.hpp` -/

/-- `grayscale_0`: gray scale 0:16 (white). -/
def grayscale_0 : List Nat := [0b0, 0b00000000]

/-- `grayscale_8`: gray scale 8:16 (gray). -/
def grayscale_8 : List Nat := [0b1, 0b01010101, 0b10101010]

/-- `grayscale_16`: gray scale 16:16 (black). -/
def grayscale_16 : List Nat := [0b0, 0b11111111]

/-! ### Sequences of basic methods -/

/-- A call of one of the basic methods of `DisplayBase`, with its arguments. -/
inductive BasicOp where
  | setCursorAddress (address : Nat)
  | writeStart
  | writeNextByte (value : Nat)
  | writeSingleByte (value : Nat)
  | readStart
  | readNextByte
  | readSingleByte
  | setDataBit (which : Nat)
  | clearDataBit (which : Nat)
  | setDataBitColor (which : Nat) (black : Bool)
  | setDisplayDuty (value : Nat)
  deriving DecidableEq

/-- The display after the call `op`; results of reads are dropped. -/
def BasicOp.run (T : Transport σ) : BasicOp → Display σ → Display σ
  | BasicOp.setCursorAddress address, d => LC7981.setCursorAddress T address d
  | BasicOp.writeStart, d => LC7981.writeStart T d
  | BasicOp.writeNextByte value, d => LC7981.writeNextByte T value d
  | BasicOp.writeSingleByte value, d => LC7981.writeSingleByte T value d
  | BasicOp.readStart, d => LC7981.readStart T d
  | BasicOp.readNextByte, d => (LC7981.readNextByte T d).2
  | BasicOp.readSingleByte, d => (LC7981.readSingleByte T d).2
  | BasicOp.setDataBit which, d => LC7981.setDataBit T which d
  | BasicOp.clearDataBit which, d => LC7981.clearDataBit T which d
  | BasicOp.setDataBitColor which black, d => LC7981.setDataBitColor T which black d
  | BasicOp.setDisplayDuty value, d => LC7981.setDisplayDuty T value d

/-- The display after a sequence of calls, first call first. -/
def runOps (T : Transport σ) (ops : List BasicOp) (d : Display σ) : Display σ :=
  ops.foldl (fun d op => op.run T d) d

/-- Whether the call begins a read sequence (`readStart`, also inside `readSingleByte`). -/
def BasicOp.startsRead : BasicOp → Bool
  | BasicOp.readStart => true
  | BasicOp.readSingleByte => true
  | _ => false

/-! ### Auxiliary definitions for the flag and fast-path proofs -/

/-- What a call leaves behind apart from the flag: the device state and the transaction
log. -/
def Display.outcome (d : Display σ) : σ × List Event := (d.dev, d.trace)

/-- A small 8 x 16 font for examples. -/
def sampleFont_8x16 : Font :=
  { width := 8, height := 16, data := fun i => (i * 37 + 11) % 256 }

/-! ### The remaining pattern blobs of `nice_custom_fill_patterns.hpp` -/

/-- `grayscale_1`: pattern for gray scale with 1:16 ratio. -/
def grayscale_1 : List Nat := [0b11, 0b00000000, 0b01000000, 0b00000000, 0b00000100]

/-- `grayscale_2`: pattern for gray scale with 2:16 ratio. -/
def grayscale_2 : List Nat := [0b11, 0b10001000, 0b00000000, 0b00100010, 0b00000000]

/-- `grayscale_3`: pattern for gray scale with 3:16 ratio. -/
def grayscale_3 : List Nat := [0b11, 0b10001000, 0b00000000, 0b10101010, 0b00000000]

/-- `grayscale_4`: pattern for gray scale with 4:16 ratio. -/
def grayscale_4 : List Nat := [0b11, 0b00000000, 0b01010101, 0b00000000, 0b10101010]

/-- `grayscale_5`: pattern for gray scale with 5:16 ratio (honeycomb). -/
def grayscale_5 : List Nat := [0b11, 0b01000100, 0b00111000, 0b01000100, 0b10000011]

/-- `grayscale_6`: pattern for gray scale with 6:16 ratio. -/
def grayscale_6 : List Nat := [0b11, 0b10001000, 0b01010101, 0b00100010, 0b01010101]

/-- `grayscale_7`: pattern for gray scale with 7:16 ratio. -/
def grayscale_7 : List Nat := [0b11, 0b10100010, 0b01010101, 0b00101010, 0b01010101]

/-- `grayscale_9`: pattern for gray scale with 9:16 ratio. -/
def grayscale_9 : List Nat := [0b11, 0b01011101, 0b10101010, 0b11010101, 0b10101010]

/-- `grayscale_10`: pattern for gray scale with 10:16 ratio. -/
def grayscale_10 : List Nat := [0b11, 0b01110111, 0b10101010, 0b11011101, 0b10101010]

/-- `grayscale_11`: pattern for gray scale with 11:16 ratio (honeycomb). -/
def grayscale_11 : List Nat := [0b11, 0b10111011, 0b11000111, 0b10111011, 0b01111100]

/-- `grayscale_12`: pattern for gray scale with 12:16 ratio. -/
def grayscale_12 : List Nat := [0b11, 0b11111111, 0b10101010, 0b11111111, 0b01010101]

/-- `grayscale_13`: pattern for gray scale with 13:16 ratio. -/
def grayscale_13 : List Nat := [0b11, 0b01110111, 0b11111111, 0b01010101, 0b11111111]

/-- `grayscale_14`: pattern for gray scale with 14:16 ratio. -/
def grayscale_14 : List Nat := [0b11, 0b01110111, 0b11111111, 0b11011101, 0b11111111]

/-- `grayscale_15`: pattern for gray scale with 15:16 ratio. -/
def grayscale_15 : List Nat := [0b11, 0b11111111, 0b10111111, 0b11111111, 0b11111011]

/-- `gray_big`: gray big mesh. -/
def gray_big : List Nat := [0b11, 0b00110011, 0b00110011, 0b11001100, 0b11001100]

/-- `gray_wide`: gray wide mesh. -/
def gray_wide : List Nat := [0b11, 0b00110011, 0b11001100, 0b00110011, 0b11001100]

/-- `gray_tall`: gray tall mesh. -/
def gray_tall : List Nat := [0b11, 0b01010101, 0b01010101, 0b10101010, 0b10101010]

/-- `lines_horizontally`: lines horizontally. -/
def lines_horizontally : List Nat := [0b11, 0b00000000, 0b11111111, 0b00000000, 0b11111111]

/-- `lines_vertically`: lines vertically. -/
def lines_vertically : List Nat := [0b0, 0b01010101]

/-- `lines_horizontally_thick`: lines horizontally thick. -/
def lines_horizontally_thick : List Nat := [0b11, 0b00000000, 0b11111111, 0b11111111, 0b00000000]

/-- `lines_vertically_thick`: lines vertically thick. -/
def lines_vertically_thick : List Nat := [0b0, 0b01100110]

/-- `lines_left`: lines falling to left. -/
def lines_left : List Nat := [0b11, 0b00010001, 0b00100010, 0b01000100, 0b10001000]

/-- `lines_right`: lines falling to right. -/
def lines_right : List Nat := [0b11, 0b10001000, 0b01000100, 0b00100010, 0b00010001]

/-- `waves_horizontally`: waves horizontally. -/
def waves_horizontally : List Nat := [0b11, 0b01100000, 0b10010000, 0b00001001, 0b00000110]

/-- `waves_vertically`: waves vertically. -/
def waves_vertically : List Nat :=
  [0b111, 0b01000100, 0b10001000, 0b10001000, 0b01000100,
   0b00100010, 0b00010001, 0b00010001, 0b00100010]

/-- `waves_horizontally_thick`: waves horizontally thick. -/
def waves_horizontally_thick : List Nat := [0b11, 0b01100110, 0b11110000, 0b10011001, 0b00001111]

/-- `waves_vertically_thick`: waves vertically thick. -/
def waves_vertically_thick : List Nat :=
  [0b111, 0b01100110, 0b11001100, 0b11001100, 0b01100110,
   0b00110011, 0b10011001, 0b10011001, 0b00110011]

/-- `waves_left`: waves falling to left. -/
def waves_left : List Nat :=
  [0b111, 0b00000001, 0b00000001, 0b00000001, 0b00001110,
   0b01110000, 0b10000000, 0b10000000, 0b10000000]

/-- `waves_right`: waves falling to right. -/
def waves_right : List Nat :=
  [0b111, 0b10000000, 0b10000000, 0b10000000, 0b01110000,
   0b00001110, 0b00000001, 0b00000001, 0b00000001]

/-- `waves_left_dense`: waves falling to left dense. -/
def waves_left_dense : List Nat :=
  [0b111, 0b00010001, 0b00010001, 0b00100010, 0b11001100,
   0b00110011, 0b01000100, 0b10001000, 0b10001000]

/-- `waves_right_dense`: waves falling to right dense. -/
def waves_right_dense : List Nat :=
  [0b111, 0b10001000, 0b10001000, 0b01000100, 0b00110011,
   0b11001100, 0b00100010, 0b00010001, 0b00010001]

/-- Every blob that `NiceCustomFillPatterns` defines, in the order of the file. -/
def NiceCustomFillPatterns : List (List Nat) :=
  [grayscale_0, grayscale_1, grayscale_2, grayscale_3, grayscale_4, grayscale_5, grayscale_6,
   grayscale_7, grayscale_8, grayscale_9, grayscale_10, grayscale_11, grayscale_12, grayscale_13,
   grayscale_14, grayscale_15, grayscale_16, gray_big, gray_wide, gray_tall, lines_horizontally,
   lines_vertically, lines_horizontally_thick, lines_vertically_thick, lines_left, lines_right,
   waves_horizontally, waves_vertically, waves_horizontally_thick, waves_vertically_thick,
   waves_left, waves_right, waves_left_dense, waves_right_dense]

/-- The blobs `grayscale_0`, ..., `grayscale_16`, the blob for the ratio `N : 16` at index
`N`. -/
def grayscale : List (List Nat) :=
  [grayscale_0, grayscale_1, grayscale_2, grayscale_3, grayscale_4, grayscale_5, grayscale_6,
   grayscale_7, grayscale_8, grayscale_9, grayscale_10, grayscale_11, grayscale_12, grayscale_13,
   grayscale_14, grayscale_15, grayscale_16]

/-- The number of set bits of a byte. -/
def bitCount (b : Nat) : Nat := ((List.range 8).filter (fun j => b.testBit j)).length

/-- The number of set bits in the row bytes of a pattern blob (all bytes after the mask
byte). -/
def setBits (pattern : List Nat) : Nat := (pattern.tail.map bitCount).sum

/-- The number of black pixels of one tile (8 columns, `rowCount` rows) as
`drawPatternFill` renders it: the set bits of the bytes
`pgm_read_byte(pattern + (i & mask) + 1)` it reads for the rows `i = 0, ..., mask`. -/
def tileBlackPixels (pattern : List Nat) : Nat :=
  ((List.range (pgm_read_byte pattern 0 + 1)).map (fun i =>
    bitCount (pgm_read_byte pattern ((i &&& pgm_read_byte pattern 0) + 1)))).sum

end LC7981

/-! ## The hardcoded variant

Shallow embedding of `src/lc7981_240x128.hpp` (class `LC7981_240x128::DisplayBase`), the
variant with the display size 240 x 128 written into the code. Its `register_t` is the same
enumeration as in `lc7981.hpp`; the embedding shares the register, event, transport and
display-state types (and the integer helpers) with the generic class, so that the two
transaction logs can be compared. Every method is translated from its own source text.
-/

namespace LC7981_240x128

open LC7981 (register_t Event Transport Display andNot wrap16 pgm_read_byte)

variable {σ : Type}

/-- `write<reg>(val)`: the value is a `uint8_t`. -/
def write (T : Transport σ) (reg : register_t) (val : Nat) (d : Display σ) : Display σ :=
  { d with dev := T.write reg (val % 256) d.dev,
           trace := d.trace ++ [Event.write reg (val % 256)] }

/-- `read<reg>()`: the result is a `uint8_t`. -/
def read (T : Transport σ) (reg : register_t) (d : Display σ) : Nat × Display σ :=
  let r := T.read reg d.dev
  (r.1 % 256, { d with dev := r.2, trace := d.trace ++ [Event.read reg (r.1 % 256)] })

/-- `this->init()`: the call of the virtual `init` hook. -/
def init (T : Transport σ) (d : Display σ) : Display σ :=
  { d with dev := T.init d.dev, trace := d.trace ++ [Event.init] }

/-- `initGraphicMode()`. -/
def initGraphicMode (T : Transport σ) (d : Display σ) : Display σ :=
  -- Prepare display to receiving commands and data
  let d := init T d
  -- Set mode register to display ON, master mode, graphic mode
  let d := write T register_t.Command 0b0000 d
  let d := write T register_t.Data 0b00110010 d
  -- Set chars/bits per pixel to use 8 bits of 1 byte to display 8 dots
  let d := write T register_t.Command 0b0001 d
  let d := write T register_t.Data 0b00000111 d
  -- Set width of screen of 240
  let d := write T register_t.Command 0b0010 d
  let d := write T register_t.Data (240 / 8 - 1) d
  -- Set display duty to max
  let d := write T register_t.Command 0b0011 d
  let d := write T register_t.Data 127 d
  -- Set display start lower address
  let d := write T register_t.Command 0b1000 d
  let d := write T register_t.Data 0 d
  -- Set display start upper address
  let d := write T register_t.Command 0b1001 d
  write T register_t.Data 0 d

/-- `setCursorAddress(uint16_t address)`. -/
def setCursorAddress (T : Transport σ) (address : Nat) (d : Display σ) : Display σ :=
  let address := address % 65536
  let d := write T register_t.Command 0b1010 d
  let d := write T register_t.Data (address &&& 0xff) d
  let d := write T register_t.Command 0b1011 d
  let d := write T register_t.Data (address >>> 8) d
  { d with needDummyRead := true }

/-- `writeStart()`. -/
def writeStart (T : Transport σ) (d : Display σ) : Display σ :=
  write T register_t.Command 0b1100 d

/-- `writeNextByte(uint8_t value)`. -/
def writeNextByte (T : Transport σ) (value : Nat) (d : Display σ) : Display σ :=
  write T register_t.Data value d

/-- `writeSingleByte(uint8_t value)`. -/
def writeSingleByte (T : Transport σ) (value : Nat) (d : Display σ) : Display σ :=
  writeNextByte T value (writeStart T d)

/-- `readStart()`. -/
def readStart (T : Transport σ) (d : Display σ) : Display σ :=
  let d :=
    if d.needDummyRead then
      let d := { d with needDummyRead := false }
      let d := write T register_t.Command 0b1101 d
      (read T register_t.Data d).2
    else d
  write T register_t.Command 0b1101 d

/-- `readNextByte()`. -/
def readNextByte (T : Transport σ) (d : Display σ) : Nat × Display σ :=
  read T register_t.Data d

/-- `readSingleByte()`. -/
def readSingleByte (T : Transport σ) (d : Display σ) : Nat × Display σ :=
  readNextByte T (readStart T d)

/-- `setDataBit(which)`. -/
def setDataBit (T : Transport σ) (which : Nat) (d : Display σ) : Display σ :=
  write T register_t.Data which (write T register_t.Command 0b1111 d)

/-- `clearDataBit(which)`. -/
def clearDataBit (T : Transport σ) (which : Nat) (d : Display σ) : Display σ :=
  write T register_t.Data which (write T register_t.Command 0b1110 d)

/-- `setDataBit(which, black)`: the command is `0b1110 | black`. -/
def setDataBitColor (T : Transport σ) (which : Nat) (black : Bool) (d : Display σ) :
    Display σ :=
  write T register_t.Data which
    (write T register_t.Command (0b1110 ||| (if black then 1 else 0)) d)

/-- `setDisplayDuty(value)`. -/
def setDisplayDuty (T : Transport σ) (value : Nat) (d : Display σ) : Display σ :=
  write T register_t.Data value (write T register_t.Command 0b0011 d)

/-- The loop `for (uint8_t x = 0; x < 240; x += 8) { writeNextByte(pattern); }` of `clear`
and `clearGray`. The first argument is the fuel. -/
def clearRowLoop (T : Transport σ) (pattern : Nat) :
    Nat → Nat → Display σ → Option (Display σ)
  | 0, _, _ => none
  | fuel + 1, x, d =>
    if x < 240 then
      clearRowLoop T pattern fuel ((x + 8) % 256) (writeNextByte T pattern d)
    else some d

/-- The loop `for (uint8_t y = 0; y < 128; y++) { ... }` of `clear`. -/
def clearLoop (T : Transport σ) (pattern : Nat) :
    Nat → Nat → Display σ → Option (Display σ)
  | 0, _, _ => none
  | fuel + 1, y, d =>
    if y < 128 then
      match clearRowLoop T pattern fuel 0 d with
      | none => none
      | some d => clearLoop T pattern fuel ((y + 1) % 256) d
    else some d

/-- `clear(pattern)`. -/
def clear (T : Transport σ) (pattern : Nat) (fuel : Nat) (d : Display σ) :
    Option (Display σ) :=
  clearLoop T pattern fuel 0 (writeStart T (setCursorAddress T 0 d))

/-- `clearWhite()`. -/
def clearWhite (T : Transport σ) (fuel : Nat) (d : Display σ) : Option (Display σ) :=
  clear T 0 fuel d

/-- `clearBlack()`. -/
def clearBlack (T : Transport σ) (fuel : Nat) (d : Display σ) : Option (Display σ) :=
  clear T 0b11111111 fuel d

/-- The loop `for (uint8_t y = 0; y < 128; y += 2) { ... }` of `clearGray`. -/
def clearGrayLoop (T : Transport σ) : Nat → Nat → Display σ → Option (Display σ)
  | 0, _, _ => none
  | fuel + 1, y, d =>
    if y < 128 then
      match clearRowLoop T 0b10101010 fuel 0 d with
      | none => none
      | some d =>
        match clearRowLoop T 0b01010101 fuel 0 d with
        | none => none
        | some d => clearGrayLoop T fuel ((y + 2) % 256) d
    else some d

/-- `clearGray()`. -/
def clearGray (T : Transport σ) (fuel : Nat) (d : Display σ) : Option (Display σ) :=
  clearGrayLoop T fuel 0 (writeStart T (setCursorAddress T 0 d))

/-- `setPixel(x, y)`. -/
def setPixel (T : Transport σ) (x y : Nat) (d : Display σ) : Display σ :=
  setDataBit T (x % 8) (setCursorAddress T (240 / 8 * y + x / 8) d)

/-- `clearPixel(x, y)`. -/
def clearPixel (T : Transport σ) (x y : Nat) (d : Display σ) : Display σ :=
  clearDataBit T (x % 8) (setCursorAddress T (240 / 8 * y + x / 8) d)

/-- `setPixel(x, y, black)`. -/
def setPixelColor (T : Transport σ) (x y : Nat) (black : Bool) (d : Display σ) :
    Display σ :=
  setDataBitColor T (x % 8) black (setCursorAddress T (240 / 8 * y + x / 8) d)

/-- The loop `while (remainingLength) { mask <<= 1; mask |= 1; remainingLength -= 1; }`. -/
def maskLoop : Nat → Nat → Nat
  | 0, mask => mask
  | remainingLength + 1, mask => maskLoop remainingLength (((mask <<< 1) % 256) ||| 1)

/-- The loop `while (remainingLength >= 8) { writeNextByte(pattern); remainingLength -= 8; }`
of `drawHorizontalLine`; the first argument bounds the number of iterations. -/
def writeFullBytes (T : Transport σ) (pattern : Nat) :
    Nat → Nat → Display σ → Nat × Display σ
  | 0, remainingLength, d => (remainingLength, d)
  | fuel + 1, remainingLength, d =>
    if remainingLength ≥ 8 then
      writeFullBytes T pattern fuel (remainingLength - 8) (writeNextByte T pattern d)
    else (remainingLength, d)

/-- `drawHorizontalLine(x, y, length, pattern)`. -/
def drawHorizontalLine (T : Transport σ) (x y length pattern : Nat) (d : Display σ) :
    Display σ :=
  let d := setCursorAddress T (240 / 8 * y + x / 8) d
  let p := x % 8
  let first : Nat × Display σ :=
    if p ≠ 0 then
      let mr : Nat × Nat :=
        if length + p ≥ 8 then ((0b11111111 <<< p) % 256, (length + 256 - (8 - p)) % 256)
        else ((maskLoop length 0 <<< p) % 256, 0)
      let mask := mr.1
      let cur := readSingleByte T d
      let d := setCursorAddress T (240 / 8 * y + x / 8) cur.2
      let d := writeStart T d
      (mr.2, writeNextByte T ((pattern &&& mask) ||| andNot cur.1 mask) d)
    else (length, writeStart T d)
  let full := writeFullBytes T pattern first.1 first.1 first.2
  let remainingLength := full.1
  let d := full.2
  if remainingLength > 0 then
    let mask := maskLoop remainingLength 0
    let cur := readSingleByte T d
    let d := setCursorAddress T (240 / 8 * y + (x + length) / 8) cur.2
    writeSingleByte T ((pattern &&& mask) ||| andNot cur.1 mask) d
  else d

/-- `drawBlackHorizontalLine(x, y, length)`. -/
def drawBlackHorizontalLine (T : Transport σ) (x y length : Nat) (d : Display σ) :
    Display σ :=
  drawHorizontalLine T x y length 0b11111111 d

/-- `drawWhiteHorizontalLine(x, y, length)`. -/
def drawWhiteHorizontalLine (T : Transport σ) (x y length : Nat) (d : Display σ) :
    Display σ :=
  drawHorizontalLine T x y length 0b00000000 d

/-- The loop of `drawBlackVerticalLine`:
`for (uint8_t i = y; i < y + length; i++) { setCursorAddress(...); setDataBit(x % 8); }`. -/
def blackVerticalLoop (T : Transport σ) (x y length : Nat) :
    Nat → Nat → Display σ → Option (Display σ)
  | 0, _, _ => none
  | fuel + 1, i, d =>
    if i < y + length then
      blackVerticalLoop T x y length fuel ((i + 1) % 256)
        (setDataBit T (x % 8) (setCursorAddress T (240 / 8 * i + x / 8) d))
    else some d

/-- The loop of `drawWhiteVerticalLine`. -/
def whiteVerticalLoop (T : Transport σ) (x y length : Nat) :
    Nat → Nat → Display σ → Option (Display σ)
  | 0, _, _ => none
  | fuel + 1, i, d =>
    if i < y + length then
      whiteVerticalLoop T x y length fuel ((i + 1) % 256)
        (clearDataBit T (x % 8) (setCursorAddress T (240 / 8 * i + x / 8) d))
    else some d

/-- `drawBlackVerticalLine(x, y, length)`, with the fuel of its loop. -/
def drawBlackVerticalLine (T : Transport σ) (x y length : Nat) (fuel : Nat)
    (d : Display σ) : Option (Display σ) :=
  blackVerticalLoop T x y length fuel y d

/-- `drawWhiteVerticalLine(x, y, length)`, with the fuel of its loop. -/
def drawWhiteVerticalLine (T : Transport σ) (x y length : Nat) (fuel : Nat)
    (d : Display σ) : Option (Display σ) :=
  whiteVerticalLoop T x y length fuel y d

/-- The Bresenham loop of `drawLine` in the branch `y1 > y0`. -/
def bresenhamUp (T : Transport σ) (x1 y1 dx dy : Nat) (black : Bool) :
    Nat → Nat → Nat → Int → Display σ → Option (Display σ)
  | 0, _, _, _, _ => none
  | fuel + 1, x0, y0, err, d =>
    let d := setPixelColor T x0 y0 black d
    if x0 = x1 ∧ y0 = y1 then some d
    else
      let e2 := wrap16 (2 * err)
      let ex : Int × Nat :=
        if wrap16 (-e2) ≤ dy then (wrap16 (err - dy), (x0 + 1) % 256) else (err, x0)
      let ey : Int × Nat :=
        if e2 ≤ dx then (wrap16 (ex.1 + dx), (y0 + 1) % 256) else (ex.1, y0)
      bresenhamUp T x1 y1 dx dy black fuel ex.2 ey.2 ey.1 d

/-- The Bresenham loop of `drawLine` in the branch `y1 < y0`. -/
def bresenhamDown (T : Transport σ) (x1 y1 dx dy : Nat) (black : Bool) :
    Nat → Nat → Nat → Int → Display σ → Option (Display σ)
  | 0, _, _, _, _ => none
  | fuel + 1, x0, y0, err, d =>
    let d := setPixelColor T x0 y0 black d
    if x0 = x1 ∧ y0 = y1 then some d
    else
      let e2 := wrap16 (2 * err)
      let ex : Int × Nat :=
        if wrap16 (-e2) ≤ dy then (wrap16 (err - dy), (x0 + 1) % 256) else (err, x0)
      let ey : Int × Nat :=
        if e2 ≤ dx then (wrap16 (ex.1 + dx), (y0 + 256 - 1) % 256) else (ex.1, y0)
      bresenhamDown T x1 y1 dx dy black fuel ex.2 ey.2 ey.1 d

/-- `drawLine(x0, y0, x1, y1, black)`. -/
def drawLine (T : Transport σ) (x0 y0 x1 y1 : Nat) (black : Bool) (fuel : Nat)
    (d : Display σ) : Option (Display σ) :=
  match fuel with
  | 0 => none
  | fuel + 1 =>
    if x0 > x1 then drawLine T x1 y1 x0 y0 black fuel d
    else
      let dx := (x1 + 256 - x0) % 256
      if y0 = y1 then
        some (drawHorizontalLine T x0 y0 ((dx + 1) % 256)
          (if black then 0b11111111 else 0) d)
      else if y1 > y0 then
        let dy := (y1 + 256 - y0) % 256
        if dx = 0 then
          if black then drawWhiteVerticalLine T x0 y0 ((dy + 1) % 256) fuel d
          else drawBlackVerticalLine T x0 y0 ((dy + 1) % 256) fuel d
        else bresenhamUp T x1 y1 dx dy black fuel x0 y0 (wrap16 (dx - dy)) d
      else
        let dy := (y0 + 256 - y1) % 256
        if dx = 0 then
          if black then drawWhiteVerticalLine T x1 y1 ((dy + 1) % 256) fuel d
          else drawBlackVerticalLine T x1 y1 ((dy + 1) % 256) fuel d
        else bresenhamDown T x1 y1 dx dy black fuel x0 y0 (wrap16 (dx - dy)) d

/-- `drawBlackLine(x0, y0, x1, y1)`. -/
def drawBlackLine (T : Transport σ) (x0 y0 x1 y1 : Nat) (fuel : Nat) (d : Display σ) :
    Option (Display σ) :=
  drawLine T x0 y0 x1 y1 true fuel d

/-- `drawWhiteLine(x0, y0, x1, y1)`. -/
def drawWhiteLine (T : Transport σ) (x0 y0 x1 y1 : Nat) (fuel : Nat) (d : Display σ) :
    Option (Display σ) :=
  drawLine T x0 y0 x1 y1 false fuel d

/-- `drawBlackRectangle(x, y, w, h)`. -/
def drawBlackRectangle (T : Transport σ) (x y w h : Nat) (fuel : Nat) (d : Display σ) :
    Option (Display σ) :=
  let d := drawBlackHorizontalLine T x y w d
  let d := drawBlackHorizontalLine T x ((y + h + 256 - 1) % 256) w d
  match drawBlackVerticalLine T x ((y + 1) % 256) ((h + 256 - 2) % 256) fuel d with
  | none => none
  | some d =>
    drawBlackVerticalLine T ((x + w + 256 - 1) % 256) ((y + 1) % 256)
      ((h + 256 - 2) % 256) fuel d

/-- `drawWhiteRectangle(x, y, w, h)`. -/
def drawWhiteRectangle (T : Transport σ) (x y w h : Nat) (fuel : Nat) (d : Display σ) :
    Option (Display σ) :=
  let d := drawWhiteHorizontalLine T x y w d
  let d := drawWhiteHorizontalLine T x ((y + h + 256 - 1) % 256) w d
  match drawWhiteVerticalLine T x ((y + 1) % 256) ((h + 256 - 2) % 256) fuel d with
  | none => none
  | some d =>
    drawWhiteVerticalLine T ((x + w + 256 - 1) % 256) ((y + 1) % 256)
      ((h + 256 - 2) % 256) fuel d

/-- The loop of `drawBlackFill`. -/
def blackFillLoop (T : Transport σ) (x y w h : Nat) :
    Nat → Nat → Display σ → Option (Display σ)
  | 0, _, _ => none
  | fuel + 1, i, d =>
    if i < y + h then
      blackFillLoop T x y w h fuel ((i + 1) % 256) (drawBlackHorizontalLine T x i w d)
    else some d

/-- The loop of `drawWhiteFill`. -/
def whiteFillLoop (T : Transport σ) (x y w h : Nat) :
    Nat → Nat → Display σ → Option (Display σ)
  | 0, _, _ => none
  | fuel + 1, i, d =>
    if i < y + h then
      whiteFillLoop T x y w h fuel ((i + 1) % 256) (drawWhiteHorizontalLine T x i w d)
    else some d

/-- `drawBlackFill(x, y, w, h)`, with the fuel of its loop. -/
def drawBlackFill (T : Transport σ) (x y w h : Nat) (fuel : Nat) (d : Display σ) :
    Option (Display σ) :=
  blackFillLoop T x y w h fuel y d

/-- `drawWhiteFill(x, y, w, h)`, with the fuel of its loop. -/
def drawWhiteFill (T : Transport σ) (x y w h : Nat) (fuel : Nat) (d : Display σ) :
    Option (Display σ) :=
  whiteFillLoop T x y w h fuel y d

/-- The `do { ... } while (i < limit);` loop of `drawPatternFill`. -/
def patternFillLoop (T : Transport σ) (x w : Nat) (pattern : List Nat) (mask limit : Nat) :
    Nat → Nat → Display σ → Option (Display σ)
  | 0, _, _ => none
  | fuel + 1, i, d =>
    let p := pgm_read_byte pattern ((i &&& mask) + 1)
    let d := drawHorizontalLine T x i w p d
    let i := (i + 1) % 256
    if i < limit then patternFillLoop T x w pattern mask limit fuel i d else some d

/-- `drawPatternFill(x, y, w, h, pattern)`, with the fuel of its loop. -/
def drawPatternFill (T : Transport σ) (x y w h : Nat) (pattern : List Nat) (fuel : Nat)
    (d : Display σ) : Option (Display σ) :=
  let mask := pgm_read_byte pattern 0
  let limit := (y + h) % 256
  patternFillLoop T x w pattern mask limit fuel y d

/-- `drawGrayFill(x, y, w, h)`, with its static pattern. -/
def drawGrayFill (T : Transport σ) (x y w h : Nat) (fuel : Nat) (d : Display σ) :
    Option (Display σ) :=
  drawPatternFill T x y w h [0b1, 0b01010101, 0b10101010] fuel d

end LC7981_240x128

namespace LC7981

variable {σ : Type}

/-! ## Theorems -/

/-- C10: for every 16-bit address `A`, `setCursorAddress(A)` appends exactly four register
writes to the log, Command `0b1010`, Data `A mod 256`, Command `0b1011`, Data `A div 256`,
the two data bytes recombine to `A`, and `needDummyRead` is left true. -/
theorem setCursorAddress_trace (T : Transport σ) (A : Nat) (d : Display σ)
    (hA : A < 65536) :
    (setCursorAddress T A d).trace = d.trace ++
        [Event.write register_t.Command 0b1010, Event.write register_t.Data (A % 256),
         Event.write register_t.Command 0b1011, Event.write register_t.Data (A / 256)] ∧
      A % 256 + 256 * (A / 256) = A ∧ A % 256 < 256 ∧ A / 256 < 256 ∧
      (setCursorAddress T A d).needDummyRead = true := by
  have h1 : A % 65536 = A := Nat.mod_eq_of_lt hA
  have h2 : A / 256 < 256 := by omega
  have h3 : (A >>> 8) % 256 = A / 256 := by
    rw [Nat.shiftRight_eq_div_pow]; simpa using Nat.mod_eq_of_lt h2
  have h4 : (A &&& 0xff) % 256 = A % 256 := by
    have : A &&& 0xff = A % 2 ^ 8 := Nat.and_pow_two_sub_one_eq_mod A 8
    rw [this]; simp
  refine ⟨?_, by omega, by omega, h2, rfl⟩
  simp [setCursorAddress, write, h1, h3, h4]

/-- The statement of `setCursorAddress_trace` at the address `0x1234`. -/
theorem setCursorAddress_trace_witness :
    (0x1234 < 65536) ∧
    ((setCursorAddress byteArray 0x1234 (onDevice false (fun _ => 0) 0 0 false [])).trace =
        (onDevice false (fun _ => 0) 0 0 false []).trace ++
        [Event.write register_t.Command 0b1010, Event.write register_t.Data (0x1234 % 256),
         Event.write register_t.Command 0b1011, Event.write register_t.Data (0x1234 / 256)] ∧
      0x1234 % 256 + 256 * (0x1234 / 256) = 0x1234 ∧ 0x1234 % 256 < 256 ∧ 0x1234 / 256 < 256 ∧
      (setCursorAddress byteArray 0x1234
        (onDevice false (fun _ => 0) 0 0 false [])).needDummyRead = true) :=
  ⟨by decide, setCursorAddress_trace byteArray 0x1234 (onDevice false (fun _ => 0) 0 0 false [])
    (by decide)⟩

/-! ### Projections of the primitives -/

@[simp] theorem write_dev (T : Transport σ) (reg : register_t) (v : Nat) (d : Display σ) :
    (write T reg v d).dev = T.write reg (v % 256) d.dev := rfl

@[simp] theorem write_needDummyRead (T : Transport σ) (reg : register_t) (v : Nat)
    (d : Display σ) : (write T reg v d).needDummyRead = d.needDummyRead := rfl

@[simp] theorem write_trace (T : Transport σ) (reg : register_t) (v : Nat) (d : Display σ) :
    (write T reg v d).trace = d.trace ++ [Event.write reg (v % 256)] := rfl

@[simp] theorem read_fst (T : Transport σ) (reg : register_t) (d : Display σ) :
    (read T reg d).1 = (T.read reg d.dev).1 % 256 := rfl

@[simp] theorem read_dev (T : Transport σ) (reg : register_t) (d : Display σ) :
    (read T reg d).2.dev = (T.read reg d.dev).2 := rfl

@[simp] theorem read_needDummyRead (T : Transport σ) (reg : register_t) (d : Display σ) :
    (read T reg d).2.needDummyRead = d.needDummyRead := rfl

@[simp] theorem read_trace (T : Transport σ) (reg : register_t) (d : Display σ) :
    (read T reg d).2.trace = d.trace ++ [Event.read reg ((T.read reg d.dev).1 % 256)] := rfl

theorem and_255 (a : Nat) : a &&& 255 = a % 256 := Nat.and_pow_two_sub_one_eq_mod a 8

theorem shiftRight_8 (a : Nat) : a >>> 8 = a / 256 := by
  rw [Nat.shiftRight_eq_div_pow]

/-! ### The primitives on the byte-array device -/

@[simp] theorem byteArray_write : byteArray.write = Device.write := rfl
@[simp] theorem byteArray_read : byteArray.read = Device.read := rfl

@[simp] theorem setCursorAddress_needDummyRead (T : Transport σ) (a : Nat) (d : Display σ) :
    (setCursorAddress T a d).needDummyRead = true := rfl

@[simp] theorem setCursorAddress_dev (a : Nat) (d : Display Device) :
    (setCursorAddress byteArray a d).dev =
      { mem := d.dev.mem, cursor := a % 65536, ir := 0b1011, stale := true } := by
  simp only [setCursorAddress, write_dev, byteArray_write, Device.write, and_255, shiftRight_8]
  simp
  omega

@[simp] theorem writeStart_dev (d : Display Device) :
    (writeStart byteArray d).dev =
      { mem := d.dev.mem, cursor := d.dev.cursor, ir := 0b1100, stale := d.dev.stale } := rfl

@[simp] theorem writeStart_needDummyRead (T : Transport σ) (d : Display σ) :
    (writeStart T d).needDummyRead = d.needDummyRead := rfl

@[simp] theorem writeNextByte_needDummyRead (T : Transport σ) (v : Nat) (d : Display σ) :
    (writeNextByte T v d).needDummyRead = d.needDummyRead := rfl

theorem writeNextByte_dev (v : Nat) (d : Display Device) (h : d.dev.ir = 0b1100) :
    (writeNextByte byteArray v d).dev =
      { mem := store d.dev.mem d.dev.cursor (v % 256), cursor := d.dev.cursor + 1,
        ir := d.dev.ir, stale := d.dev.stale } := by
  simp [writeNextByte, Device.write, h]

theorem readSingleByte_spec (d : Display Device) (hn : d.needDummyRead = true)
    (hs : d.dev.stale = true) :
    (readSingleByte byteArray d).1 = d.dev.mem d.dev.cursor % 256 ∧
    (readSingleByte byteArray d).2.dev =
      { mem := d.dev.mem, cursor := d.dev.cursor + 1, ir := 0b1101, stale := false } ∧
    (readSingleByte byteArray d).2.needDummyRead = false := by
  simp [readSingleByte, readNextByte, readStart, Device.read, Device.write, hn, hs]

theorem fillRange_zero (mem : Nat → Nat) (c v : Nat) : fillRange mem c 0 v = mem := by
  funext a
  simp [fillRange]

theorem writeFullBytes_spec (pat : Nat) : ∀ (fuel rem : Nat) (d : Display Device),
    rem / 8 ≤ fuel → d.dev.ir = 0b1100 →
    (writeFullBytes byteArray pat fuel rem d).1 = rem % 8 ∧
    (writeFullBytes byteArray pat fuel rem d).2.dev =
      { mem := fillRange d.dev.mem d.dev.cursor (rem / 8) (pat % 256),
        cursor := d.dev.cursor + rem / 8, ir := d.dev.ir, stale := d.dev.stale } ∧
    (writeFullBytes byteArray pat fuel rem d).2.needDummyRead = d.needDummyRead := by
  intro fuel
  induction fuel with
  | zero =>
    intro rem d hf hir
    have h0 : rem / 8 = 0 := by omega
    have h1 : rem % 8 = rem := by omega
    simp only [writeFullBytes, h0, h1, Nat.add_zero, true_and, and_true, fillRange_zero]
  | succ fuel ih =>
    intro rem d hf hir
    by_cases h8 : rem ≥ 8
    · have hir2 : (writeNextByte byteArray pat d).dev.ir = 0b1100 := by
        rw [writeNextByte_dev pat d hir]; exact hir
      obtain ⟨e1, e2, e3⟩ := ih (rem - 8) (writeNextByte byteArray pat d) (by omega) hir2
      have hq : rem / 8 = (rem - 8) / 8 + 1 := by omega
      simp only [writeFullBytes, h8, if_true, e1, e2, e3, writeNextByte_needDummyRead,
        writeNextByte_dev pat d hir]
      refine ⟨by omega, ?_, trivial⟩
      congr 1
      · funext a
        simp only [fillRange, store, hq]
        by_cases ha : a = d.dev.cursor
        · subst ha; simp
        · simp only [ha, if_false]
          congr 1
          apply propext
          omega
      · omega
    · have h0 : rem / 8 = 0 := by omega
      have h1 : rem % 8 = rem := by omega
      simp only [writeFullBytes, h8, if_false, h0, h1, Nat.add_zero, true_and, and_true,
        fillRange_zero]

theorem testBit_merge (pat cur mask i : Nat) :
    ((pat &&& mask) ||| andNot cur mask).testBit i =
      if mask.testBit i then pat.testBit i else cur.testBit i := by
  simp only [andNot, Nat.testBit_or, Nat.testBit_and, Nat.testBit_xor]
  cases pat.testBit i <;> cases cur.testBit i <;> cases mask.testBit i <;> rfl

theorem testBit_maskLoop : ∀ (n k m : Nat), n + k ≤ 8 → (∀ i, m.testBit i = decide (i < k)) →
    ∀ i, (maskLoop n m).testBit i = decide (i < k + n) := by
  intro n
  induction n with
  | zero => intro k m _ hm i; simpa [maskLoop] using hm i
  | succ n ih =>
    intro k m hk hm i
    rw [maskLoop]
    have := ih (k + 1) (((m <<< 1) % 256) ||| 1) (by omega) (by
      intro j
      have e : (256 : Nat) = 2 ^ 8 := by norm_num
      rw [Nat.testBit_or, e, Nat.testBit_mod_two_pow, Nat.testBit_shiftLeft, hm]
      rcases Nat.eq_zero_or_pos j with h0 | h0
      · subst h0; simp
      · have h1 : Nat.testBit 1 j = false := by
          have : j = (j - 1) + 1 := by omega
          rw [this, Nat.testBit_succ]; simp
        rw [h1]
        simp only [Bool.or_false]
        by_cases hj : j < k + 1
        · simp [hj]; omega
        · simp [hj]; omega) i
    rw [this]
    congr 1
    apply propext
    omega

theorem testBit_maskLoop_zero (n i : Nat) (hn : n ≤ 8) :
    (maskLoop n 0).testBit i = decide (i < n) := by
  have := testBit_maskLoop n 0 0 (by omega) (by intro i; simp) i
  simpa using this

theorem testBit_ff_shift (p i : Nat) :
    ((0b11111111 <<< p) % 256).testBit i = decide (p ≤ i ∧ i < 8) := by
  have e : (256 : Nat) = 2 ^ 8 := by norm_num
  have e2 : (0b11111111 : Nat) = 2 ^ 8 - 1 := by norm_num
  rw [e, Nat.testBit_mod_two_pow, Nat.testBit_shiftLeft, e2, Nat.testBit_two_pow_sub_one]
  by_cases h1 : i < 8 <;> by_cases h2 : p ≤ i <;> simp [h1, h2]
  omega

theorem testBit_maskLoop_shift (n p i : Nat) (hn : n + p ≤ 8) :
    ((maskLoop n 0 <<< p) % 256).testBit i = decide (p ≤ i ∧ i < p + n) := by
  have e : (256 : Nat) = 2 ^ 8 := by norm_num
  rw [e, Nat.testBit_mod_two_pow, Nat.testBit_shiftLeft, testBit_maskLoop_zero _ _ (by omega)]
  by_cases h1 : i < 8 <;> by_cases h2 : p ≤ i <;> simp [h1, h2] <;> omega

theorem testBit_mod_256 (v i : Nat) (hi : i < 8) : (v % 256).testBit i = v.testBit i := by
  have e : (256 : Nat) = 2 ^ 8 := by norm_num
  rw [e, Nat.testBit_mod_two_pow]; simp [hi]

theorem rmw_tail (A v : Nat) (d : Display Device) (hn : d.needDummyRead = true)
    (hs : d.dev.stale = true) :
    (writeSingleByte byteArray v
        (setCursorAddress byteArray A (readSingleByte byteArray d).2)).dev.mem =
      store d.dev.mem (A % 65536) (v % 256) := by
  obtain ⟨_, e2, _⟩ := readSingleByte_spec d hn hs
  simp [writeSingleByte, writeNextByte, writeStart, Device.write, e2]

theorem rmw_head (A v : Nat) (d : Display Device) (hn : d.needDummyRead = true)
    (hs : d.dev.stale = true) :
    (writeNextByte byteArray v (writeStart byteArray
        (setCursorAddress byteArray A (readSingleByte byteArray d).2))).dev =
      { mem := store d.dev.mem (A % 65536) (v % 256), cursor := A % 65536 + 1,
        ir := 0b1100, stale := true } := by
  obtain ⟨_, e2, _⟩ := readSingleByte_spec d hn hs
  simp [writeNextByte, writeStart, Device.write, e2]

theorem drawHorizontalLine_mem (W x y len pat : Nat) (d : Display Device)
    (hW : W < 256) (hx : x < 256) (hy : y < 256) (hl : len < 256) (a i : Nat) (hi : i < 8) :
    ((drawHorizontalLine byteArray W x y len pat d).dev.mem a).testBit i =
      if W / 8 * y ≤ a ∧ x ≤ 8 * (a - W / 8 * y) + i ∧ 8 * (a - W / 8 * y) + i < x + len
      then pat.testBit i else (d.dev.mem a).testBit i := by
  have hR : W / 8 * y ≤ 31 * 255 := Nat.mul_le_mul (by omega) (by omega)
  unfold drawHorizontalLine
  generalize W / 8 * y = R at hR ⊢
  have hA : (R + x / 8) % 65536 = R + x / 8 := by omega
  have hA2 : (R + (x + len) / 8) % 65536 = R + (x + len) / 8 := by omega
  by_cases hp : x % 8 = 0
  · simp only [hp, ne_eq, not_true_eq_false, if_false]
    obtain ⟨e1, e2, e3⟩ := writeFullBytes_spec pat len len
      (writeStart byteArray (setCursorAddress byteArray (R + x / 8) d)) (by omega) rfl
    simp only [e1]
    by_cases hr : len % 8 > 0
    · simp only [hr, if_true]
      rw [rmw_tail _ _ _ (by rw [e3]; rfl) (by rw [e2]; rfl),
        (readSingleByte_spec _ (by rw [e3]; rfl) (by rw [e2]; rfl)).1, e2, hA2]
      simp only [writeStart_dev, setCursorAddress_dev, fillRange, store, hA]
      by_cases h1 : a = R + (x + len) / 8
      · rw [if_pos h1, if_neg (by omega), testBit_mod_256 _ _ hi, testBit_merge,
          testBit_maskLoop_zero _ _ (by omega), testBit_mod_256 _ _ hi]
        subst h1
        have e4 : R + x / 8 + len / 8 = R + (x + len) / 8 := by omega
        simp only [decide_eq_true_eq, e4]
        split_ifs <;> first | rfl | omega
      · rw [if_neg h1]
        by_cases h2 : R + x / 8 ≤ a ∧ a < R + x / 8 + len / 8
        · rw [if_pos h2, if_pos (by omega), testBit_mod_256 _ _ hi]
        · rw [if_neg h2, if_neg (by omega)]
    · simp only [hr, if_false, e2]
      simp only [writeStart_dev, setCursorAddress_dev, fillRange, hA]
      by_cases h2 : R + x / 8 ≤ a ∧ a < R + x / 8 + len / 8
      · rw [if_pos h2, if_pos (by omega), testBit_mod_256 _ _ hi]
      · rw [if_neg h2, if_neg (by omega)]
  · have hd0n : (setCursorAddress byteArray (R + x / 8) d).needDummyRead = true := rfl
    have hd0s : (setCursorAddress byteArray (R + x / 8) d).dev.stale = true := by simp
    have hcur := (readSingleByte_spec _ hd0n hd0s).1
    simp only [setCursorAddress_dev, hA] at hcur
    simp only [hp, ne_eq, not_false_eq_true, if_true]
    by_cases h8 : len + x % 8 ≥ 8
    · simp only [h8, if_true]
      have hrem : (len + 256 - (8 - x % 8)) % 256 = len - (8 - x % 8) := by omega
      rw [hrem]
      generalize hv : (pat &&& (0b11111111 <<< (x % 8)) % 256 |||
        andNot (readSingleByte byteArray (setCursorAddress byteArray (R + x / 8) d)).1
          ((0b11111111 <<< (x % 8)) % 256)) = v
      have hd1 := rmw_head (R + x / 8) v _ hd0n hd0s
      obtain ⟨e1, e2, e3⟩ := writeFullBytes_spec pat (len - (8 - x % 8)) (len - (8 - x % 8))
        (writeNextByte byteArray v (writeStart byteArray (setCursorAddress byteArray (R + x / 8)
          (readSingleByte byteArray (setCursorAddress byteArray (R + x / 8) d)).2)))
        (by omega) (by rw [hd1])
      rw [hd1] at e2
      simp only [setCursorAddress_dev, hA] at e2
      simp only [e1]
      have hvb : (v % 256).testBit i =
          if x % 8 ≤ i then pat.testBit i else (d.dev.mem (R + x / 8)).testBit i := by
        rw [← hv, testBit_mod_256 _ _ hi, testBit_merge, testBit_ff_shift, hcur,
          testBit_mod_256 _ _ hi]
        simp only [decide_eq_true_eq]
        split_ifs <;> first | rfl | omega
      by_cases hr : (len - (8 - x % 8)) % 8 > 0
      · simp only [hr, if_true]
        rw [rmw_tail _ _ _ (by rw [e3]; rfl) (by rw [e2]),
          (readSingleByte_spec _ (by rw [e3]; rfl) (by rw [e2])).1, e2, hA2]
        simp only [fillRange, store]
        have e4 : R + x / 8 + 1 + (len - (8 - x % 8)) / 8 = R + (x + len) / 8 := by omega
        by_cases h1 : a = R + (x + len) / 8
        · rw [if_pos h1, testBit_mod_256 _ _ hi, testBit_merge,
            testBit_maskLoop_zero _ _ (by omega), testBit_mod_256 _ _ hi]
          subst h1
          simp only [decide_eq_true_eq, e4]
          split_ifs <;> first | rfl | omega
        · rw [if_neg h1]
          by_cases h2 : R + x / 8 + 1 ≤ a ∧ a < R + x / 8 + 1 + (len - (8 - x % 8)) / 8
          · rw [if_pos h2, if_pos (by omega), testBit_mod_256 _ _ hi]
          · rw [if_neg h2]
            by_cases h3 : a = R + x / 8
            · subst h3
              rw [if_pos rfl, hvb]
              split_ifs <;> first | rfl | omega
            · rw [if_neg h3, if_neg (by omega)]
      · simp only [hr, if_false, e2]
        simp only [fillRange, store]
        by_cases h2 : R + x / 8 + 1 ≤ a ∧ a < R + x / 8 + 1 + (len - (8 - x % 8)) / 8
        · rw [if_pos h2, if_pos (by omega), testBit_mod_256 _ _ hi]
        · rw [if_neg h2]
          by_cases h3 : a = R + x / 8
          · subst h3
            rw [if_pos rfl, hvb]
            split_ifs <;> first | rfl | omega
          · rw [if_neg h3, if_neg (by omega)]
    · simp only [h8, if_false]
      generalize hv : (pat &&& (maskLoop len 0 <<< (x % 8)) % 256 |||
        andNot (readSingleByte byteArray (setCursorAddress byteArray (R + x / 8) d)).1
          ((maskLoop len 0 <<< (x % 8)) % 256)) = v
      have hd1 := rmw_head (R + x / 8) v _ hd0n hd0s
      simp only [setCursorAddress_dev, hA] at hd1
      simp only [writeFullBytes, Nat.lt_irrefl, gt_iff_lt, if_false, hd1, store]
      have hvb : (v % 256).testBit i =
          if x % 8 ≤ i ∧ i < x % 8 + len then pat.testBit i
          else (d.dev.mem (R + x / 8)).testBit i := by
        rw [← hv, testBit_mod_256 _ _ hi, testBit_merge, testBit_maskLoop_shift _ _ _ (by omega),
          hcur, testBit_mod_256 _ _ hi]
        simp only [decide_eq_true_eq]
      by_cases h3 : a = R + x / 8
      · subst h3
        rw [if_pos rfl, hvb]
        split_ifs <;> first | rfl | omega
      · rw [if_neg h3, if_neg (by omega)]

theorem row_address_inj (B y y' u v : Nat) (hu : u < B) (hv : v < B)
    (h : B * y + u = B * y' + v) : y = y' ∧ u = v := by
  have h1 : (B * y + u) / B = y := by
    rw [Nat.mul_add_div (by omega), Nat.div_eq_of_lt hu]; rfl
  have h2 : (B * y' + v) / B = y' := by
    rw [Nat.mul_add_div (by omega), Nat.div_eq_of_lt hv]; rfl
  have hy : y = y' := by rw [← h1, ← h2, h]
  subst hy
  exact ⟨rfl, by omega⟩

/-- C1: on the byte-array device, for a surface width `W` that is a multiple of 8 and an
in-bounds line (`x + length ≤ W`, `y < H`), `drawHorizontalLine` leaves every bit that is not
the location of one of the pixels `[x, x+length)` of row `y` as it was: bit `i` of the byte at
any address `a` (first conjunct), hence every pixel of the surface outside that range,
in row `y` and in every other row (second conjunct). -/
theorem drawHorizontalLine_frame (W H x y length pattern : Nat) (d : Display Device)
    (hW8 : W % 8 = 0) (hW : W < 256) (hH : H < 256) (hxl : x + length ≤ W) (hy : y < H) :
    (∀ a i, i < 8 →
      (¬ ∃ c, x ≤ c ∧ c < x + length ∧ a = W / 8 * y + c / 8 ∧ i = c % 8) →
      ((drawHorizontalLine byteArray W x y length pattern d).dev.mem a).testBit i =
        (d.dev.mem a).testBit i) ∧
    (∀ x' y', x' < W → y' < H → (y' ≠ y ∨ x' < x ∨ x + length ≤ x') →
      pixel W (drawHorizontalLine byteArray W x y length pattern d).dev.mem x' y' =
        pixel W d.dev.mem x' y') := by
  have key : ∀ a i, i < 8 →
      (¬ ∃ c, x ≤ c ∧ c < x + length ∧ a = W / 8 * y + c / 8 ∧ i = c % 8) →
      ((drawHorizontalLine byteArray W x y length pattern d).dev.mem a).testBit i =
        (d.dev.mem a).testBit i := by
    intro a i hi hout
    rw [drawHorizontalLine_mem W x y length pattern d hW (by omega) (by omega) (by omega) a i hi]
    split_ifs with h
    · exfalso
      apply hout
      refine ⟨8 * (a - W / 8 * y) + i, h.2.1, h.2.2, ?_, ?_⟩ <;> omega
    · rfl
  refine ⟨key, ?_⟩
  intro x' y' hx' _ hor
  apply key _ _ (Nat.mod_lt _ (by omega))
  rintro ⟨c, hc1, hc2, hc3, hc4⟩
  have := row_address_inj (W / 8) y' y (x' / 8) (c / 8) (by omega) (by omega) hc3
  omega

/-- C2: on the byte-array device, after an in-bounds `drawHorizontalLine(x, y, length, pattern)`
the pixel at every column `c` of `[x, x+length)` in row `y` is bit `c mod 8` of the pattern;
so pattern `0xFF` sets every pixel of the range and pattern `0x00` clears every one. -/
theorem drawHorizontalLine_pixels (W H x y length pattern : Nat) (d : Display Device)
    (hW8 : W % 8 = 0) (hW : W < 256) (hH : H < 256) (hxl : x + length ≤ W) (hy : y < H) :
    (∀ c, x ≤ c → c < x + length →
      pixel W (drawHorizontalLine byteArray W x y length pattern d).dev.mem c y =
        pattern.testBit (c % 8)) ∧
    (pattern = 0xFF → ∀ c, x ≤ c → c < x + length →
      pixel W (drawHorizontalLine byteArray W x y length pattern d).dev.mem c y = true) ∧
    (pattern = 0x00 → ∀ c, x ≤ c → c < x + length →
      pixel W (drawHorizontalLine byteArray W x y length pattern d).dev.mem c y = false) := by
  have key : ∀ c, x ≤ c → c < x + length →
      pixel W (drawHorizontalLine byteArray W x y length pattern d).dev.mem c y =
        pattern.testBit (c % 8) := by
    intro c h1 h2
    unfold pixel
    rw [drawHorizontalLine_mem W x y length pattern d hW (by omega) (by omega) (by omega) _ _
      (Nat.mod_lt _ (by omega)), if_pos (by omega)]
  refine ⟨key, ?_, ?_⟩
  · intro hp c h1 h2
    rw [key c h1 h2, hp]
    have e : (0xFF : Nat) = 2 ^ 8 - 1 := by norm_num
    rw [e, Nat.testBit_two_pow_sub_one]
    simpa using Nat.mod_lt c (by omega : 8 > 0)
  · intro hp c h1 h2
    rw [key c h1 h2, hp]
    simp

/-- The statement of `drawHorizontalLine_frame` for the line `(3, 0, 10, 0xA5)` on a 240 x 128
surface filled with `0x3C`. -/
theorem drawHorizontalLine_frame_witness :
    (240 % 8 = 0 ∧ 240 < 256 ∧ 128 < 256 ∧ 3 + 10 ≤ 240 ∧ 0 < 128) ∧
    ((∀ a i, i < 8 →
      (¬ ∃ c, 3 ≤ c ∧ c < 3 + 10 ∧ a = 240 / 8 * 0 + c / 8 ∧ i = c % 8) →
      ((drawHorizontalLine byteArray 240 3 0 10 0xA5
          (onDevice false (fun _ => 0x3C) 7 0 false [])).dev.mem a).testBit i =
        ((onDevice false (fun _ => 0x3C) 7 0 false []).dev.mem a).testBit i) ∧
    (∀ x' y', x' < 240 → y' < 128 → (y' ≠ 0 ∨ x' < 3 ∨ 3 + 10 ≤ x') →
      pixel 240 (drawHorizontalLine byteArray 240 3 0 10 0xA5
          (onDevice false (fun _ => 0x3C) 7 0 false [])).dev.mem x' y' =
        pixel 240 (onDevice false (fun _ => 0x3C) 7 0 false []).dev.mem x' y')) :=
  ⟨by decide, drawHorizontalLine_frame 240 128 3 0 10 0xA5
    (onDevice false (fun _ => 0x3C) 7 0 false [])
    (by decide) (by decide) (by decide) (by decide) (by decide)⟩

/-- The statement of `drawHorizontalLine_pixels` for the line `(3, 5, 10, 0xA5)` on a 240 x 128
surface, at column 8. -/
theorem drawHorizontalLine_pixels_witness :
    (240 % 8 = 0 ∧ 240 < 256 ∧ 128 < 256 ∧ 3 + 10 ≤ 240 ∧ 5 < 128) ∧
    pixel 240 (drawHorizontalLine byteArray 240 3 5 10 0xA5
        (onDevice false (fun _ => 0x3C) 7 0 false [])).dev.mem 8 5 = Nat.testBit 0xA5 (8 % 8) :=
  ⟨by decide, (drawHorizontalLine_pixels 240 128 3 5 10 0xA5
    (onDevice false (fun _ => 0x3C) 7 0 false [])
    (by decide) (by decide) (by decide) (by decide) (by decide)).1 8
    (by decide) (by decide)⟩

/-- C3 (as the code behaves): on a width-240 surface whose bytes are all zero,
`drawHorizontalLine(3, 0, 10, 0xFF)` leaves row-0 byte 0 equal to `0b11111000` and row-0
byte 1 equal to `0b00011111` (columns 8..12 are bits 0..4), every other byte still zero. -/
theorem drawHorizontalLine_3_0_10 (needDummyRead stale : Bool) (cursor ir : Nat)
    (trace : List Event) :
    (drawHorizontalLine byteArray 240 3 0 10 0xFF
        (onDevice needDummyRead (fun _ => 0) cursor ir stale trace)).dev.mem 0 = 0b11111000 ∧
    (drawHorizontalLine byteArray 240 3 0 10 0xFF
        (onDevice needDummyRead (fun _ => 0) cursor ir stale trace)).dev.mem 1 = 0b00011111 ∧
    ∀ a, a ≠ 0 → a ≠ 1 →
      (drawHorizontalLine byteArray 240 3 0 10 0xFF
        (onDevice needDummyRead (fun _ => 0) cursor ir stale trace)).dev.mem a = 0 := by
  have h : (drawHorizontalLine byteArray 240 3 0 10 0xFF
        (onDevice needDummyRead (fun _ => 0) cursor ir stale trace)).dev.mem =
      store (store (fun _ => 0) 0 0b11111000) 1 0b00011111 := by
    funext a
    simp [drawHorizontalLine, readSingleByte, readNextByte, readStart, writeSingleByte,
      writeNextByte, writeStart, Device.write, Device.read, onDevice, writeFullBytes, maskLoop,
      store, andNot]
    rfl
  rw [h]
  refine ⟨rfl, rfl, ?_⟩
  intro a h0 h1
  simp [store, h0, h1]

/-- C3 as stated fails: with an all-zero background the second byte of row 0 after
`drawHorizontalLine(3, 0, 10, 0xFF)` on a width-240 surface is not `0b00000011`. -/
theorem drawHorizontalLine_3_0_10_counterexample :
    ¬ ((drawHorizontalLine byteArray 240 3 0 10 0xFF
          (onDevice false (fun _ => 0) 0 0 false [])).dev.mem 0 = 0b11111000 ∧
       (drawHorizontalLine byteArray 240 3 0 10 0xFF
          (onDevice false (fun _ => 0) 0 0 false [])).dev.mem 1 = 0b00000011 ∧
       ∀ a, a ≠ 0 → a ≠ 1 →
        (drawHorizontalLine byteArray 240 3 0 10 0xFF
          (onDevice false (fun _ => 0) 0 0 false [])).dev.mem a = 0) := by
  intro h
  exact absurd h.2.1 (by decide)

/-- C9: `setCursorAddress(A)` followed by `readSingleByte()` issues exactly two Data-register
reads, each after a read command: the first value `v0` is dropped, the second is the value
returned; a second `readSingleByte()` right after issues one read command and exactly one
Data-register read, the value it returns, and no dummy read. -/
theorem readSingleByte_after_setCursorAddress (T : Transport σ) (A : Nat) (d : Display σ) :
    ∃ v0,
      (readSingleByte T (setCursorAddress T A d)).2.trace =
        (setCursorAddress T A d).trace ++
          [Event.write register_t.Command 0b1101, Event.read register_t.Data v0,
           Event.write register_t.Command 0b1101,
           Event.read register_t.Data (readSingleByte T (setCursorAddress T A d)).1] ∧
      dataReads [Event.write register_t.Command 0b1101, Event.read register_t.Data v0,
           Event.write register_t.Command 0b1101,
           Event.read register_t.Data (readSingleByte T (setCursorAddress T A d)).1] =
        [v0, (readSingleByte T (setCursorAddress T A d)).1] ∧
      (readSingleByte T (readSingleByte T (setCursorAddress T A d)).2).2.trace =
        (readSingleByte T (setCursorAddress T A d)).2.trace ++
          [Event.write register_t.Command 0b1101,
           Event.read register_t.Data
            (readSingleByte T (readSingleByte T (setCursorAddress T A d)).2).1] ∧
      dataReads [Event.write register_t.Command 0b1101,
           Event.read register_t.Data
            (readSingleByte T (readSingleByte T (setCursorAddress T A d)).2).1] =
        [(readSingleByte T (readSingleByte T (setCursorAddress T A d)).2).1] := by
  refine ⟨(T.read register_t.Data (T.write register_t.Command 0b1101
    (setCursorAddress T A d).dev)).1 % 256, ?_, rfl, ?_, rfl⟩
  · simp [readSingleByte, readNextByte, readStart]
  · simp [readSingleByte, readNextByte, readStart]

/-! ### The line loops -/

theorem wrap16_id (v : Int) (h1 : -32768 ≤ v) (h2 : v < 32768) : wrap16 v = v := by
  unfold wrap16; omega

theorem setPixelColor_trace (T : Transport σ) (W x y : Nat) (black : Bool) (d : Display σ) :
    (setPixelColor T W x y black d).trace = d.trace ++ setPixelEvents W black (x, y) := by
  have h1 : ∀ A : Nat, (A % 65536 &&& 255) % 256 = A % 65536 % 256 := by
    intro A; rw [and_255]; omega
  have h2 : ∀ A : Nat, ((A % 65536) >>> 8) % 256 = A % 65536 / 256 := by
    intro A; rw [shiftRight_8]; omega
  have h3 : x % 8 % 256 = x % 8 := by omega
  cases black <;>
    simp only [setPixelColor, setDataBitColor, setCursorAddress, setPixelEvents, write_trace,
      h1, h2, h3, List.append_assoc, List.singleton_append, List.cons_append, List.nil_append] <;>
    rfl

/-- One run of a Bresenham loop of `drawLine`, for either direction of `y`: `ypos b` is the
row with `b` vertical steps left, `ynext` the update of `y0`. With `a` horizontal and `b`
vertical steps left the loop reaches `(x1, y1)` within `a + b + 1` iterations. -/
theorem bresenham_generic (T : Transport σ) (W x1 y1 dx dy : Nat) (black : Bool)
    (loop : Nat → Nat → Nat → Int → Display σ → Option (Display σ))
    (ynext ypos : Nat → Nat)
    (hloop : ∀ fuel x0 y0 err d, loop (fuel + 1) x0 y0 err d =
      if x0 = x1 ∧ y0 = y1 then some (setPixelColor T W x0 y0 black d)
      else loop fuel
        (if wrap16 (-(wrap16 (2 * err))) ≤ dy then (wrap16 (err - dy), (x0 + 1) % 256)
          else (err, x0)).2
        (if wrap16 (2 * err) ≤ dx then
          (wrap16 ((if wrap16 (-(wrap16 (2 * err))) ≤ dy then
            (wrap16 (err - dy), (x0 + 1) % 256) else (err, x0)).1 + dx), ynext y0)
          else ((if wrap16 (-(wrap16 (2 * err))) ≤ dy then
            (wrap16 (err - dy), (x0 + 1) % 256) else (err, x0)).1, y0)).2
        (if wrap16 (2 * err) ≤ dx then
          (wrap16 ((if wrap16 (-(wrap16 (2 * err))) ≤ dy then
            (wrap16 (err - dy), (x0 + 1) % 256) else (err, x0)).1 + dx), ynext y0)
          else ((if wrap16 (-(wrap16 (2 * err))) ≤ dy then
            (wrap16 (err - dy), (x0 + 1) % 256) else (err, x0)).1, y0)).1
        (setPixelColor T W x0 y0 black d))
    (hx1 : x1 < 256) (hdx : 1 ≤ dx) (hdy : 1 ≤ dy) (hdx2 : dx < 256) (hdy2 : dy < 256)
    (hy0 : ypos 0 = y1)
    (hynext : ∀ b, 1 ≤ b → b ≤ dy → ynext (ypos b) = ypos (b - 1))
    (hyne : ∀ b, 1 ≤ b → b ≤ dy → ypos b ≠ y1) :
    ∀ (n fuel a b : Nat) (err : Int) (d : Display σ),
      a + b ≤ n → n < fuel → a ≤ x1 → b ≤ dy →
      err = (dx : Int) - dy + (a : Int) * dy - (b : Int) * dx →
      -3 * (dy : Int) ≤ 2 * err → 2 * err ≤ 3 * (dx : Int) →
      ∃ (pts : List (Nat × Nat)) (d' : Display σ),
        loop fuel (x1 - a) (ypos b) err d = some d' ∧
        d'.trace = d.trace ++ pts.flatMap (setPixelEvents W black) ∧
        pts.head? = some (x1 - a, ypos b) ∧ pts.getLast? = some (x1, y1) := by
  intro n
  induction n with
  | zero =>
    intro fuel a b err d hab hf ha hb herr hlo hhi
    have ha0 : a = 0 := by omega
    have hb0 : b = 0 := by omega
    subst ha0; subst hb0
    obtain ⟨f, rfl⟩ : ∃ f, fuel = f + 1 := ⟨fuel - 1, by omega⟩
    refine ⟨[(x1, y1)], setPixelColor T W x1 y1 black d, ?_, ?_, ?_, ?_⟩
    · rw [hloop, if_pos ⟨by omega, hy0⟩, hy0, Nat.sub_zero]
    · simp [setPixelColor_trace]
    · simp [hy0]
    · simp
  | succ n ih =>
    intro fuel a b err d hab hf ha hb herr hlo hhi
    obtain ⟨f, rfl⟩ : ∃ f, fuel = f + 1 := ⟨fuel - 1, by omega⟩
    by_cases hfin : a = 0 ∧ b = 0
    · obtain ⟨ha0, hb0⟩ := hfin
      subst ha0; subst hb0
      refine ⟨[(x1, y1)], setPixelColor T W x1 y1 black d, ?_, ?_, ?_, ?_⟩
      · rw [hloop, if_pos ⟨by omega, hy0⟩, hy0, Nat.sub_zero]
      · simp [setPixelColor_trace]
      · simp [hy0]
      · simp
    · have hne : ¬ (x1 - a = x1 ∧ ypos b = y1) := by
        intro h
        apply hfin
        have ha0 : a = 0 := by omega
        refine ⟨ha0, ?_⟩
        by_contra hb0
        exact hyne b (by omega) hb h.2
      rw [hloop, if_neg hne]
      have hw1 : wrap16 (2 * err) = 2 * err := wrap16_id _ (by omega) (by omega)
      have hw2 : wrap16 (-(2 * err)) = -(2 * err) := wrap16_id _ (by omega) (by omega)
      have hw3 : wrap16 (err - dy) = err - dy := wrap16_id _ (by omega) (by omega)
      have hw4 : wrap16 (err - dy + dx) = err - dy + dx := wrap16_id _ (by omega) (by omega)
      have hw5 : wrap16 (err + dx) = err + dx := wrap16_id _ (by omega) (by omega)
      rw [hw1, hw2]
      -- the products, as atoms
      have hP : (0 : Int) ≤ (a : Int) * dy := by positivity
      have hQ : (0 : Int) ≤ (b : Int) * dx := by positivity
      have hPa : 1 ≤ a → (dy : Int) ≤ (a : Int) * dy := by
        intro h; nlinarith
      have hQb : 1 ≤ b → (dx : Int) ≤ (b : Int) * dx := by
        intro h; nlinarith
      have hP0 : a = 0 → (a : Int) * dy = 0 := by intro h; simp [h]
      have hQ0 : b = 0 → (b : Int) * dx = 0 := by intro h; simp [h]
      have hPs : 1 ≤ a → ((a - 1 : Nat) : Int) * dy = (a : Int) * dy - dy := by
        intro h; rw [Nat.cast_sub h]; push_cast; ring
      have hQs : 1 ≤ b → ((b - 1 : Nat) : Int) * dx = (b : Int) * dx - dx := by
        intro h; rw [Nat.cast_sub h]; push_cast; ring
      generalize hPdef : (a : Int) * dy = P at *
      generalize hQdef : (b : Int) * dx = Q at *
      by_cases hxs : -(2 * err) ≤ (dy : Int)
      · -- a horizontal step
        have ha1 : 1 ≤ a := by
          by_contra h
          have ha0 : a = 0 := by omega
          have hb1 : 1 ≤ b := by
            by_contra hb'
            exact hfin ⟨ha0, by omega⟩
          have := hP0 ha0
          have := hQb hb1
          omega
        have hxn : (x1 - a + 1) % 256 = x1 - (a - 1) := by omega
        by_cases hys : 2 * err ≤ (dx : Int)
        · -- and a vertical step
          have hb1 : 1 ≤ b := by
            by_contra h
            have hb0 : b = 0 := by omega
            have := hQ0 hb0
            have := hPa ha1
            omega
          simp only [hxs, hys, if_true, hw3, hw4, hxn, hynext b hb1 hb]
          obtain ⟨pts, d', e1, e2, e3, e4⟩ := ih f (a - 1) (b - 1) (err - dy + dx)
            (setPixelColor T W (x1 - a) (ypos b) black d) (by omega) (by omega) (by omega)
            (by omega) (by rw [hPs ha1, hQs hb1]; omega) (by omega) (by omega)
          refine ⟨(x1 - a, ypos b) :: pts, d', e1, ?_, rfl, ?_⟩
          · rw [e2, setPixelColor_trace]; simp
          · cases pts with
            | nil => simp at e3
            | cons p ps => simpa using e4
        · simp only [hxs, hys, if_true, if_false, hw3, hxn]
          obtain ⟨pts, d', e1, e2, e3, e4⟩ := ih f (a - 1) b (err - dy)
            (setPixelColor T W (x1 - a) (ypos b) black d) (by omega) (by omega) (by omega)
            (by omega) (by rw [hPs ha1]; omega) (by omega) (by omega)
          refine ⟨(x1 - a, ypos b) :: pts, d', e1, ?_, rfl, ?_⟩
          · rw [e2, setPixelColor_trace]; simp
          · cases pts with
            | nil => simp at e3
            | cons p ps => simpa using e4
      · -- no horizontal step: a vertical step
        have hys : 2 * err ≤ (dx : Int) := by omega
        have hb1 : 1 ≤ b := by
          by_contra h
          have hb0 : b = 0 := by omega
          have ha1 : 1 ≤ a := by
            by_contra ha'
            exact hfin ⟨by omega, hb0⟩
          have := hQ0 hb0
          have := hPa ha1
          omega
        simp only [hxs, hys, if_true, if_false, hw5, hynext b hb1 hb]
        obtain ⟨pts, d', e1, e2, e3, e4⟩ := ih f a (b - 1) (err + dx)
          (setPixelColor T W (x1 - a) (ypos b) black d) (by omega) (by omega) (by omega)
          (by omega) (by rw [hQs hb1]; omega) (by omega) (by omega)
        refine ⟨(x1 - a, ypos b) :: pts, d', e1, ?_, rfl, ?_⟩
        · rw [e2, setPixelColor_trace]; simp
        · cases pts with
          | nil => simp at e3
          | cons p ps => simpa using e4

theorem bresenham_fuel_succ (T : Transport σ) (W x1 y1 dx dy : Nat) (black : Bool)
    (loop : Nat → Nat → Nat → Int → Display σ → Option (Display σ)) (ynext : Nat → Nat)
    (hloop0 : ∀ x0 y0 err d, loop 0 x0 y0 err d = none)
    (hloop : ∀ fuel x0 y0 err d, loop (fuel + 1) x0 y0 err d =
      if x0 = x1 ∧ y0 = y1 then some (setPixelColor T W x0 y0 black d)
      else loop fuel
        (if wrap16 (-(wrap16 (2 * err))) ≤ dy then (wrap16 (err - dy), (x0 + 1) % 256)
          else (err, x0)).2
        (if wrap16 (2 * err) ≤ dx then
          (wrap16 ((if wrap16 (-(wrap16 (2 * err))) ≤ dy then
            (wrap16 (err - dy), (x0 + 1) % 256) else (err, x0)).1 + dx), ynext y0)
          else ((if wrap16 (-(wrap16 (2 * err))) ≤ dy then
            (wrap16 (err - dy), (x0 + 1) % 256) else (err, x0)).1, y0)).2
        (if wrap16 (2 * err) ≤ dx then
          (wrap16 ((if wrap16 (-(wrap16 (2 * err))) ≤ dy then
            (wrap16 (err - dy), (x0 + 1) % 256) else (err, x0)).1 + dx), ynext y0)
          else ((if wrap16 (-(wrap16 (2 * err))) ≤ dy then
            (wrap16 (err - dy), (x0 + 1) % 256) else (err, x0)).1, y0)).1
        (setPixelColor T W x0 y0 black d)) :
    ∀ (fuel x0 y0 : Nat) (err : Int) (d r : Display σ),
      loop fuel x0 y0 err d = some r → loop (fuel + 1) x0 y0 err d = some r := by
  intro fuel
  induction fuel with
  | zero => intro x0 y0 err d r h; rw [hloop0] at h; exact absurd h (by simp)
  | succ f ih =>
    intro x0 y0 err d r h
    rw [hloop] at h
    rw [hloop]
    by_cases hfin : x0 = x1 ∧ y0 = y1
    · rw [if_pos hfin] at h ⊢; exact h
    · rw [if_neg hfin] at h ⊢; exact ih _ _ _ _ _ h

theorem bresenhamUp_fuel_succ (T : Transport σ) (W x1 y1 dx dy : Nat) (black : Bool)
    (fuel x0 y0 : Nat) (err : Int) (d r : Display σ)
    (h : bresenhamUp T W x1 y1 dx dy black fuel x0 y0 err d = some r) :
    bresenhamUp T W x1 y1 dx dy black (fuel + 1) x0 y0 err d = some r :=
  bresenham_fuel_succ T W x1 y1 dx dy black (bresenhamUp T W x1 y1 dx dy black)
    (fun y => (y + 1) % 256) (fun _ _ _ _ => rfl) (fun _ _ _ _ _ => rfl) fuel x0 y0 err d r h

theorem bresenhamDown_fuel_succ (T : Transport σ) (W x1 y1 dx dy : Nat) (black : Bool)
    (fuel x0 y0 : Nat) (err : Int) (d r : Display σ)
    (h : bresenhamDown T W x1 y1 dx dy black fuel x0 y0 err d = some r) :
    bresenhamDown T W x1 y1 dx dy black (fuel + 1) x0 y0 err d = some r :=
  bresenham_fuel_succ T W x1 y1 dx dy black (bresenhamDown T W x1 y1 dx dy black)
    (fun y => (y + 256 - 1) % 256) (fun _ _ _ _ => rfl) (fun _ _ _ _ _ => rfl)
    fuel x0 y0 err d r h

theorem blackVerticalLoop_fuel_succ (T : Transport σ) (W x y len : Nat) :
    ∀ (fuel i : Nat) (d r : Display σ),
      blackVerticalLoop T W x y len fuel i d = some r →
      blackVerticalLoop T W x y len (fuel + 1) i d = some r := by
  intro fuel
  induction fuel with
  | zero => intro i d r h; simp [blackVerticalLoop] at h
  | succ f ih =>
    intro i d r h
    rw [blackVerticalLoop] at h ⊢
    by_cases hc : i < y + len
    · rw [if_pos hc] at h ⊢; exact ih _ _ _ h
    · rw [if_neg hc] at h ⊢; exact h

theorem whiteVerticalLoop_fuel_succ (T : Transport σ) (W x y len : Nat) :
    ∀ (fuel i : Nat) (d r : Display σ),
      whiteVerticalLoop T W x y len fuel i d = some r →
      whiteVerticalLoop T W x y len (fuel + 1) i d = some r := by
  intro fuel
  induction fuel with
  | zero => intro i d r h; simp [whiteVerticalLoop] at h
  | succ f ih =>
    intro i d r h
    rw [whiteVerticalLoop] at h ⊢
    by_cases hc : i < y + len
    · rw [if_pos hc] at h ⊢; exact ih _ _ _ h
    · rw [if_neg hc] at h ⊢; exact h

theorem blackVerticalLoop_terminates (T : Transport σ) (W x y len : Nat)
    (hb : y + len ≤ 255) :
    ∀ (n fuel i : Nat) (d : Display σ), y + len - i ≤ n → n < fuel →
      ∃ r, blackVerticalLoop T W x y len fuel i d = some r := by
  intro n
  induction n with
  | zero =>
    intro fuel i d hn hf
    obtain ⟨f, rfl⟩ : ∃ f, fuel = f + 1 := ⟨fuel - 1, by omega⟩
    exact ⟨d, by rw [blackVerticalLoop, if_neg (by omega)]⟩
  | succ n ih =>
    intro fuel i d hn hf
    obtain ⟨f, rfl⟩ : ∃ f, fuel = f + 1 := ⟨fuel - 1, by omega⟩
    rw [blackVerticalLoop]
    by_cases hc : i < y + len
    · rw [if_pos hc]
      have hi : (i + 1) % 256 = i + 1 := by omega
      rw [hi]
      exact ih f (i + 1) _ (by omega) (by omega)
    · rw [if_neg hc]; exact ⟨d, rfl⟩

theorem whiteVerticalLoop_terminates (T : Transport σ) (W x y len : Nat)
    (hb : y + len ≤ 255) :
    ∀ (n fuel i : Nat) (d : Display σ), y + len - i ≤ n → n < fuel →
      ∃ r, whiteVerticalLoop T W x y len fuel i d = some r := by
  intro n
  induction n with
  | zero =>
    intro fuel i d hn hf
    obtain ⟨f, rfl⟩ : ∃ f, fuel = f + 1 := ⟨fuel - 1, by omega⟩
    exact ⟨d, by rw [whiteVerticalLoop, if_neg (by omega)]⟩
  | succ n ih =>
    intro fuel i d hn hf
    obtain ⟨f, rfl⟩ : ∃ f, fuel = f + 1 := ⟨fuel - 1, by omega⟩
    rw [whiteVerticalLoop]
    by_cases hc : i < y + len
    · rw [if_pos hc]
      have hi : (i + 1) % 256 = i + 1 := by omega
      rw [hi]
      exact ih f (i + 1) _ (by omega) (by omega)
    · rw [if_neg hc]; exact ⟨d, rfl⟩

theorem drawLine_fuel_succ (T : Transport σ) (W : Nat) (black : Bool) :
    ∀ (fuel x0 y0 x1 y1 : Nat) (d r : Display σ),
      drawLine T W x0 y0 x1 y1 black fuel d = some r →
      drawLine T W x0 y0 x1 y1 black (fuel + 1) d = some r := by
  intro fuel
  induction fuel with
  | zero => intro x0 y0 x1 y1 d r h; simp [drawLine] at h
  | succ f ih =>
    intro x0 y0 x1 y1 d r h
    rw [drawLine] at h ⊢
    by_cases hx : x0 > x1
    · rw [if_pos hx] at h ⊢; exact ih _ _ _ _ _ _ h
    · rw [if_neg hx] at h ⊢
      by_cases hy : y0 = y1
      · simp only [hy, if_true] at h ⊢; exact h
      · simp only [hy, if_false] at h ⊢
        by_cases hu : y1 > y0
        · simp only [hu, if_true] at h ⊢
          by_cases hd : (x1 + 256 - x0) % 256 = 0
          · simp only [hd, if_true] at h ⊢
            cases black
            · simp only [Bool.false_eq_true, if_false] at h ⊢
              exact blackVerticalLoop_fuel_succ _ _ _ _ _ _ _ _ _ h
            · simp only [if_true] at h ⊢
              exact whiteVerticalLoop_fuel_succ _ _ _ _ _ _ _ _ _ h
          · simp only [hd, if_false] at h ⊢
            exact bresenhamUp_fuel_succ _ _ _ _ _ _ _ _ _ _ _ _ _ h
        · simp only [hu, if_false] at h ⊢
          by_cases hd : (x1 + 256 - x0) % 256 = 0
          · simp only [hd, if_true] at h ⊢
            cases black
            · simp only [Bool.false_eq_true, if_false] at h ⊢
              exact blackVerticalLoop_fuel_succ _ _ _ _ _ _ _ _ _ h
            · simp only [if_true] at h ⊢
              exact whiteVerticalLoop_fuel_succ _ _ _ _ _ _ _ _ _ h
          · simp only [hd, if_false] at h ⊢
            exact bresenhamDown_fuel_succ _ _ _ _ _ _ _ _ _ _ _ _ _ h

theorem drawLine_bresenham_run (T : Transport σ) (W x0 y0 x1 y1 : Nat) (black : Bool)
    (fuel : Nat) (d : Display σ) (hx : x0 < x1) (hy : y0 ≠ y1) (hx1 : x1 < 256)
    (hy0 : y0 < 256) (hy1 : y1 < 256) (hf : 512 ≤ fuel) :
    ∃ (pts : List (Nat × Nat)) (d' : Display σ),
      drawLine T W x0 y0 x1 y1 black fuel d = some d' ∧
      d'.trace = d.trace ++ pts.flatMap (setPixelEvents W black) ∧
      pts.head? = some (x0, y0) ∧ pts.getLast? = some (x1, y1) := by
  obtain ⟨f, rfl⟩ : ∃ f, fuel = f + 1 := ⟨fuel - 1, by omega⟩
  have hdx : (x1 + 256 - x0) % 256 = x1 - x0 := by omega
  have hxx : x1 - (x1 - x0) = x0 := by omega
  rw [drawLine, if_neg (by omega)]
  simp only [hdx, hy, if_false]
  by_cases hu : y1 > y0
  · have hdy : (y1 + 256 - y0) % 256 = y1 - y0 := by omega
    have hyy : y1 - (y1 - y0) = y0 := by omega
    simp only [hu, if_true, hdy]
    rw [if_neg (by omega)]
    have hw : wrap16 (((x1 - x0 : Nat) : Int) - ((y1 - y0 : Nat) : Int)) =
        ((x1 - x0 : Nat) : Int) - ((y1 - y0 : Nat) : Int) := wrap16_id _ (by omega) (by omega)
    rw [hw]
    have := bresenham_generic T W x1 y1 (x1 - x0) (y1 - y0) black
      (bresenhamUp T W x1 y1 (x1 - x0) (y1 - y0) black) (fun y => (y + 1) % 256)
      (fun b => y1 - b) (fun _ _ _ _ _ => rfl) hx1 (by omega) (by omega) (by omega) (by omega)
      rfl (by intro b h1 h2; show (y1 - b + 1) % 256 = y1 - (b - 1); omega)
      (by intro b h1 h2; show y1 - b ≠ y1; omega)
      (x1 - x0 + (y1 - y0)) f (x1 - x0) (y1 - y0)
      (((x1 - x0 : Nat) : Int) - ((y1 - y0 : Nat) : Int)) d (le_refl _) (by omega) (by omega)
      (le_refl _) (by ring) (by omega) (by omega)
    simpa only [hxx, hyy] using this
  · have hdy : (y0 + 256 - y1) % 256 = y0 - y1 := by omega
    have hyy : y1 + (y0 - y1) = y0 := by omega
    simp only [hu, if_false, hdy]
    rw [if_neg (by omega)]
    have hw : wrap16 (((x1 - x0 : Nat) : Int) - ((y0 - y1 : Nat) : Int)) =
        ((x1 - x0 : Nat) : Int) - ((y0 - y1 : Nat) : Int) := wrap16_id _ (by omega) (by omega)
    rw [hw]
    have := bresenham_generic T W x1 y1 (x1 - x0) (y0 - y1) black
      (bresenhamDown T W x1 y1 (x1 - x0) (y0 - y1) black) (fun y => (y + 256 - 1) % 256)
      (fun b => y1 + b) (fun _ _ _ _ _ => rfl) hx1 (by omega) (by omega) (by omega) (by omega)
      rfl (by intro b h1 h2; show (y1 + b + 256 - 1) % 256 = y1 + (b - 1); omega)
      (by intro b h1 h2; show y1 + b ≠ y1; omega)
      (x1 - x0 + (y0 - y1)) f (x1 - x0) (y0 - y1)
      (((x1 - x0 : Nat) : Int) - ((y0 - y1 : Nat) : Int)) d (le_refl _) (by omega) (by omega)
      (le_refl _) (by ring) (by omega) (by omega)
    simpa only [hxx, hyy] using this

theorem drawLine_ordered_total (T : Transport σ) (W x0 y0 x1 y1 : Nat) (black : Bool)
    (fuel : Nat) (d : Display σ) (hx : x0 ≤ x1) (hx1 : x1 < 256)
    (hy0 : y0 < 255) (hy1 : y1 < 255) (hf : 512 ≤ fuel) :
    ∃ r, drawLine T W x0 y0 x1 y1 black fuel d = some r := by
  by_cases hy : y0 = y1
  · obtain ⟨f, rfl⟩ : ∃ f, fuel = f + 1 := ⟨fuel - 1, by omega⟩
    rw [drawLine, if_neg (by omega)]
    simp only [hy, if_true]
    exact ⟨_, rfl⟩
  · by_cases hxe : x0 = x1
    · obtain ⟨f, rfl⟩ : ∃ f, fuel = f + 1 := ⟨fuel - 1, by omega⟩
      have hdx : (x1 + 256 - x0) % 256 = 0 := by omega
      rw [drawLine, if_neg (by omega)]
      simp only [hy, if_false, hdx, if_true]
      by_cases hu : y1 > y0
      · simp only [hu, if_true]
        have hl : ((y1 + 256 - y0) % 256 + 1) % 256 = y1 - y0 + 1 := by omega
        rw [hl]
        cases black
        · exact blackVerticalLoop_terminates T W x0 y0 _ (by omega) 256 f y0 d (by omega)
            (by omega)
        · exact whiteVerticalLoop_terminates T W x0 y0 _ (by omega) 256 f y0 d (by omega)
            (by omega)
      · simp only [hu, if_false]
        have hl : ((y0 + 256 - y1) % 256 + 1) % 256 = y0 - y1 + 1 := by omega
        rw [hl]
        cases black
        · exact blackVerticalLoop_terminates T W x1 y1 _ (by omega) 256 f y1 d (by omega)
            (by omega)
        · exact whiteVerticalLoop_terminates T W x1 y1 _ (by omega) 256 f y1 d (by omega)
            (by omega)
    · obtain ⟨pts, d', h, _⟩ := drawLine_bresenham_run T W x0 y0 x1 y1 black fuel d
        (by omega) hy hx1 (by omega) (by omega) hf
      exact ⟨d', h⟩

/-- C8: for `x0 < x1` and `y0 ≠ y1` (8-bit values) the Bresenham loop of `drawLine`
terminates, within the 511 iterations that 512 units of fuel allow: the call returns, its
transactions are those of a finite sequence `pts` of `setPixel` calls, the first of them
at `(x0, y0)` and the last at `(x1, y1)`. -/
theorem drawLine_bresenham_terminates (T : Transport σ) (W x0 y0 x1 y1 : Nat) (black : Bool)
    (fuel : Nat) (d : Display σ) (hx : x0 < x1) (hy : y0 ≠ y1) (hx1 : x1 < 256)
    (hy0 : y0 < 256) (hy1 : y1 < 256) (hf : 512 ≤ fuel) :
    ∃ (pts : List (Nat × Nat)) (d' : Display σ),
      drawLine T W x0 y0 x1 y1 black fuel d = some d' ∧
      d'.trace = d.trace ++ pts.flatMap (setPixelEvents W black) ∧
      pts.head? = some (x0, y0) ∧ pts.getLast? = some (x1, y1) :=
  drawLine_bresenham_run T W x0 y0 x1 y1 black fuel d hx hy hx1 hy0 hy1 hf

/-- The statement of `drawLine_bresenham_terminates` for the line from `(0, 0)` to `(5, 2)`. -/
theorem drawLine_bresenham_terminates_witness :
    (0 < 5 ∧ 0 ≠ 2 ∧ 5 < 256 ∧ 0 < 256 ∧ 2 < 256 ∧ 512 ≤ 512) ∧
    ∃ (pts : List (Nat × Nat)) (d' : Display Device),
      drawLine byteArray 240 0 0 5 2 true 512 (onDevice false (fun _ => 0) 0 0 false []) =
        some d' ∧
      d'.trace = (onDevice false (fun _ => 0) 0 0 false []).trace ++
        pts.flatMap (setPixelEvents 240 true) ∧
      pts.head? = some (0, 0) ∧ pts.getLast? = some (5, 2) :=
  ⟨by decide, drawLine_bresenham_terminates byteArray 240 0 0 5 2 true 512
    (onDevice false (fun _ => 0) 0 0 false []) (by decide) (by decide) (by decide)
    (by decide) (by decide) (by decide)⟩

/-- C6: for end points inside the surface and either colour, `drawLine(x0, y0, x1, y1, black)`
and `drawLine(x1, y1, x0, y0, black)` both return and leave the same display object behind:
the same transaction log (so the same pixels touched) and the same device state, on every
transport and so on the byte-array device. -/
theorem drawLine_symmetric (T : Transport σ) (W H x0 y0 x1 y1 : Nat) (black : Bool)
    (fuel : Nat) (d : Display σ) (hW : W < 256) (hH : H < 256) (hx0 : x0 < W) (hx1 : x1 < W)
    (hy0 : y0 < H) (hy1 : y1 < H) (hf : 513 ≤ fuel) :
    ∃ r, drawLine T W x0 y0 x1 y1 black fuel d = some r ∧
      drawLine T W x1 y1 x0 y0 black fuel d = some r := by
  obtain ⟨f, rfl⟩ : ∃ f, fuel = f + 1 := ⟨fuel - 1, by omega⟩
  rcases Nat.lt_trichotomy x0 x1 with hlt | heq | hgt
  · obtain ⟨r, hr⟩ := drawLine_ordered_total T W x0 y0 x1 y1 black f d (by omega) (by omega)
      (by omega) (by omega) (by omega)
    refine ⟨r, drawLine_fuel_succ T W black f x0 y0 x1 y1 d r hr, ?_⟩
    rw [drawLine, if_pos hlt]; exact hr
  · subst heq
    obtain ⟨r, hr⟩ := drawLine_ordered_total T W x0 y0 x0 y1 black (f + 1) d (le_refl _)
      (by omega) (by omega) (by omega) (by omega)
    refine ⟨r, hr, ?_⟩
    rw [← hr, drawLine, drawLine]
    by_cases hy : y0 = y1
    · subst hy; rfl
    · have hy' : ¬ y1 = y0 := fun h => hy h.symm
      simp only [gt_iff_lt, Nat.lt_irrefl, if_false, hy, hy']
      have hdx : (x0 + 256 - x0) % 256 = 0 := by omega
      by_cases hu : y0 < y1
      · have hu' : ¬ y1 < y0 := by omega
        simp only [hu, hu', hdx, if_true, if_false]
      · have hu' : y1 < y0 := by omega
        simp only [hu, hu', hdx, if_true, if_false]
  · obtain ⟨r, hr⟩ := drawLine_ordered_total T W x1 y1 x0 y0 black f d (by omega) (by omega)
      (by omega) (by omega) (by omega)
    refine ⟨r, ?_, drawLine_fuel_succ T W black f x1 y1 x0 y0 d r hr⟩
    rw [drawLine, if_pos hgt]; exact hr

/-- The statement of `drawLine_symmetric` for the end points `(7, 1)` and `(2, 4)`. -/
theorem drawLine_symmetric_witness :
    (240 < 256 ∧ 128 < 256 ∧ 7 < 240 ∧ 2 < 240 ∧ 1 < 128 ∧ 4 < 128 ∧ 513 ≤ 513) ∧
    ∃ r, drawLine byteArray 240 7 1 2 4 true 513 (onDevice false (fun _ => 0) 0 0 false []) =
        some r ∧
      drawLine byteArray 240 2 4 7 1 true 513 (onDevice false (fun _ => 0) 0 0 false []) =
        some r :=
  ⟨by decide, drawLine_symmetric byteArray 240 128 7 1 2 4 true 513
    (onDevice false (fun _ => 0) 0 0 false []) (by decide) (by decide) (by decide)
    (by decide) (by decide) (by decide) (by decide)⟩

/-- For a purely vertical line `drawLine` hands the opposite colour to the vertical-line
primitive: with `black = true` it runs `drawWhiteVerticalLine`, with `black = false`
`drawBlackVerticalLine`, from the upper end point over `|y1 - y0| + 1` rows. -/
theorem drawLine_vertical_inverted (T : Transport σ) (W x y0 y1 : Nat) (fuel : Nat)
    (d : Display σ) (hy : y0 < y1) (hy1 : y1 < 256) :
    drawLine T W x y0 x y1 true (fuel + 1) d =
      drawWhiteVerticalLine T W x y0 ((y1 - y0 + 1) % 256) fuel d ∧
    drawLine T W x y1 x y0 true (fuel + 1) d =
      drawWhiteVerticalLine T W x y0 ((y1 - y0 + 1) % 256) fuel d ∧
    drawLine T W x y0 x y1 false (fuel + 1) d =
      drawBlackVerticalLine T W x y0 ((y1 - y0 + 1) % 256) fuel d ∧
    drawLine T W x y1 x y0 false (fuel + 1) d =
      drawBlackVerticalLine T W x y0 ((y1 - y0 + 1) % 256) fuel d := by
  have hdx : (x + 256 - x) % 256 = 0 := by omega
  have hdy : (y1 + 256 - y0) % 256 = y1 - y0 := by omega
  have h1 : ¬ y0 = y1 := by omega
  have h2 : ¬ y1 = y0 := by omega
  have h3 : ¬ y0 > y1 := by omega
  refine ⟨?_, ?_, ?_, ?_⟩ <;>
    simp [drawLine, hdx, hdy, h1, h2, h3, hy]

/-- C7 at a failing input: on a width-240 surface whose pixels are all black,
`drawBlackLine(5, 0, 5, 3)` runs `drawWhiteVerticalLine(5, 0, 4)`: every one of its four
pixel transactions uses the clear-bit command `0b1110`, and the four pixels
`(5, 0) .. (5, 3)` end up white. -/
theorem drawBlackLine_vertical_draws_white :
    drawBlackLine byteArray 240 5 0 5 3 600 (onDevice false (fun _ => 0xFF) 0 0 false []) =
      drawWhiteVerticalLine byteArray 240 5 0 4 599
        (onDevice false (fun _ => 0xFF) 0 0 false []) ∧
    (drawBlackLine byteArray 240 5 0 5 3 600
        (onDevice false (fun _ => 0xFF) 0 0 false [])).map
      (fun r => (pixel 240 r.dev.mem 5 0, pixel 240 r.dev.mem 5 1, pixel 240 r.dev.mem 5 2,
        pixel 240 r.dev.mem 5 3, registerWrites r.trace)) =
      some (false, false, false, false,
        [(register_t.Command, 0b1010), (register_t.Data, 0),
         (register_t.Command, 0b1011), (register_t.Data, 0),
         (register_t.Command, 0b1110), (register_t.Data, 5),
         (register_t.Command, 0b1010), (register_t.Data, 30),
         (register_t.Command, 0b1011), (register_t.Data, 0),
         (register_t.Command, 0b1110), (register_t.Data, 5),
         (register_t.Command, 0b1010), (register_t.Data, 60),
         (register_t.Command, 0b1011), (register_t.Data, 0),
         (register_t.Command, 0b1110), (register_t.Data, 5),
         (register_t.Command, 0b1010), (register_t.Data, 90),
         (register_t.Command, 0b1011), (register_t.Data, 0),
         (register_t.Command, 0b1110), (register_t.Data, 5)]) := by
  constructor
  · rfl
  · rfl

/-! ### Text rows on the byte-array device -/

theorem narrowRows_succ (T : Transport σ) (W x : Nat) (s : List Nat) (font : Font)
    (rows r y : Nat) (d : Display σ) :
    narrowRows T W x s font (rows + 1) r y d =
      narrowRows T W x s font rows (r + 1) ((y + 1) % 256)
        (textRowEnd T W x y
          (s.length - (narrowLoop T font r s (textRowBegin T W x y d).1
            (textRowBegin T W x y d).2.1 (textRowBegin T W x y d).2.2).1.length)
          font.width
          (narrowLoop T font r s (textRowBegin T W x y d).1
            (textRowBegin T W x y d).2.1 (textRowBegin T W x y d).2.2).2.1
          (narrowLoop T font r s (textRowBegin T W x y d).1
            (textRowBegin T W x y d).2.1 (textRowBegin T W x y d).2.2).2.2.1
          (narrowLoop T font r s (textRowBegin T W x y d).1
            (textRowBegin T W x y d).2.1 (textRowBegin T W x y d).2.2).2.2.2) := rfl

theorem wideRows_succ (T : Transport σ) (W x : Nat) (s : List Nat) (font : Font)
    (rows r y : Nat) (d : Display σ) :
    wideRows T W x s font (rows + 1) r y d =
      wideRows T W x s font rows (r + 1) ((y + 1) % 256)
        (textRowEnd T W x y
          (s.length - (wideLoop T font r s (textRowBegin T W x y d).1
            (textRowBegin T W x y d).2.1 (textRowBegin T W x y d).2.2).1.length)
          font.width
          (wideLoop T font r s (textRowBegin T W x y d).1
            (textRowBegin T W x y d).2.1 (textRowBegin T W x y d).2.2).2.1
          (wideLoop T font r s (textRowBegin T W x y d).1
            (textRowBegin T W x y d).2.1 (textRowBegin T W x y d).2.2).2.2.1
          (wideLoop T font r s (textRowBegin T W x y d).1
            (textRowBegin T W x y d).2.1 (textRowBegin T W x y d).2.2).2.2.2) := rfl

theorem charValue_glyph (c : Nat) (h128 : c < 128) : charValue c = (c : Int) := by
  simp [charValue, h128]

theorem byteAt_lt (font : Font) (k : Int) : font.byteAt k < 256 := by
  unfold Font.byteAt Font.byte
  simp only []
  split_ifs <;> exact Nat.mod_lt _ (by norm_num)

/-- At an offset that is not negative (and fits 16 bits) `pgm_read_byte` reads a glyph
byte. -/
theorem byteAt_natCast (font : Font) (n : Nat) (hn : n < 32768) :
    font.byteAt (n : Int) = font.byte n := by
  unfold Font.byteAt
  have e : wrap16 (n : Int) = (n : Int) := wrap16_id _ (by omega) (by omega)
  simp only [e]
  rw [if_pos (by omega), Int.toNat_ofNat]

/-- For a character code of the glyph table (32 to 127) the glyph offset computed from the
signed `char` is the natural number `(c - 32) * rowBytes`. -/
theorem glyphOffset_cast (c rowBytes : Nat) (h32 : 32 ≤ c) (h128 : c < 128) :
    (charValue c - 32) * (rowBytes : Int) = (((c - 32) * rowBytes : Nat) : Int) := by
  rw [charValue_glyph c h128]
  push_cast [Nat.cast_sub h32]
  ring

theorem byteAt_glyph (font : Font) (c rowBytes r : Nat) (h32 : 32 ≤ c) (h128 : c < 128)
    (hb : (c - 32) * rowBytes + r < 32768) :
    font.byteAt ((charValue c - 32) * (rowBytes : Int) + (r : Int)) =
      font.byte ((c - 32) * rowBytes + r) := by
  rw [glyphOffset_cast c rowBytes h32 h128, ← Nat.cast_add, byteAt_natCast font _ hb]

/-- Codes outside the glyph table read in front of the glyph bytes: with 2 row bytes per
glyph, code 200 (the `char` -56) reads the offset `-176` and code 31 reads the offset `-2`,
the header byte `width`. -/
theorem byteAt_outside_table (font : Font) :
    font.byteAt ((charValue 200 - 32) * 2 + 0) = font.before 173 % 256 ∧
    font.byteAt ((charValue 31 - 32) * 2 + 0) = font.width % 256 := by
  constructor <;> rfl

theorem narrowLoop_cons_signed (T : Transport σ) (font : Font) (r c : Nat) (cs : List Nat)
    (bp nb : Nat) (d : Display σ) (hc : c ≠ 0) :
    narrowLoop T font r (c :: cs) bp nb d =
      narrowLoop T font r cs
        (pushBits T (font.byteAt ((charValue c - 32) * font.height + r)) font.width
          bp nb d).1
        (pushBits T (font.byteAt ((charValue c - 32) * font.height + r)) font.width
          bp nb d).2.1
        (pushBits T (font.byteAt ((charValue c - 32) * font.height + r)) font.width
          bp nb d).2.2 := by
  rw [narrowLoop, if_neg hc]
  by_cases h : (bp + font.width) % 256 ≥ 8
  · simp only [pushBits, h, if_true]
  · simp only [pushBits, h, if_false]

theorem narrowLoop_cons (T : Transport σ) (font : Font) (r c : Nat) (cs : List Nat)
    (bp nb : Nat) (d : Display σ) (h32 : 32 ≤ c) (h128 : c < 128)
    (hb : (c - 32) * font.height + r < 32768) :
    narrowLoop T font r (c :: cs) bp nb d =
      narrowLoop T font r cs
        (pushBits T (font.byte ((c - 32) * font.height + r)) font.width bp nb d).1
        (pushBits T (font.byte ((c - 32) * font.height + r)) font.width bp nb d).2.1
        (pushBits T (font.byte ((c - 32) * font.height + r)) font.width bp nb d).2.2 := by
  rw [narrowLoop_cons_signed T font r c cs bp nb d (by omega),
    byteAt_glyph font c font.height r h32 h128 hb]

theorem pushBits_inv (f : Nat → Bool) (m0 : Nat → Nat) (A L data len bp nb : Nat)
    (d : Display Device) (hinv : StreamInv f m0 A L bp nb d) (hlen : len ≤ 8)
    (hdata : ∀ j, data.testBit j = (decide (j < len) && f (L + j))) :
    StreamInv f m0 A (L + len) (pushBits byteArray data len bp nb d).1
      (pushBits byteArray data len bp nb d).2.1 (pushBits byteArray data len bp nb d).2.2 := by
  obtain ⟨h1, h2, h3, h4, h5, h6, h7⟩ := hinv
  have hbp : bp < 8 := by omega
  have hmod : (bp + len) % 256 = bp + len := by omega
  have hnb1 : ∀ j, j < 8 → ((nb ||| (data <<< bp)) % 256).testBit j =
      (decide (j < bp + len) && f (8 * (L / 8) + j)) := by
    intro j hj
    rw [testBit_mod_256 _ _ hj, Nat.testBit_or, Nat.testBit_shiftLeft, h6, hdata]
    by_cases hjb : j < bp
    · have e1 : j < L % 8 := by omega
      have e2 : ¬ j ≥ bp := by omega
      have e3 : j < bp + len := by omega
      simp [e1, e2, e3]
    · have e1 : ¬ j < L % 8 := by omega
      have e2 : j ≥ bp := by omega
      have e4 : L + (j - bp) = 8 * (L / 8) + j := by omega
      simp only [e1, e2, decide_False, decide_True, Bool.false_and, Bool.false_or,
        Bool.true_and, e4]
      congr 2
      apply propext
      omega
  unfold pushBits
  rw [hmod]
  by_cases h8 : bp + len ≥ 8
  · rw [if_pos h8]
    have hsub : (bp + len + 256 - 8) % 256 = bp + len - 8 := by omega
    simp only [hsub]
    have hq : (L + len) / 8 = L / 8 + 1 := by omega
    have hr : (L + len) % 8 = bp + len - 8 := by omega
    refine ⟨h1, ?_, ?_, ?_, hr.symm, ?_, ?_⟩
    · rw [writeNextByte_dev _ _ h3]; exact h2
    · rw [writeNextByte_dev _ _ h3]; exact h3
    · rw [writeNextByte_dev _ _ h3]; simp only [h4, hq]; omega
    · intro j
      rw [Nat.testBit_shiftRight, hdata, hr, hq]
      have e4 : L + (len - (bp + len - 8) + j) = 8 * (L / 8 + 1) + j := by omega
      rw [e4]
      congr 2
      apply propext
      omega
    · intro a j hj
      rw [writeNextByte_dev _ _ h3]
      simp only [store, h4, hq]
      by_cases ha : a = A + L / 8
      · subst ha
        rw [if_pos rfl, if_pos (by omega), testBit_mod_256 _ _ hj, hnb1 j hj]
        have e5 : A + L / 8 - A = L / 8 := by omega
        have e6 : j < bp + len := by omega
        simp [e5, e6]
      · rw [if_neg ha, h7 a j hj]
        by_cases hin : A ≤ a ∧ a < A + L / 8
        · rw [if_pos hin, if_pos (by omega)]
        · rw [if_neg hin, if_neg (by omega)]
  · rw [if_neg h8]
    have hq : (L + len) / 8 = L / 8 := by omega
    have hr : (L + len) % 8 = bp + len := by omega
    refine ⟨h1, h2, h3, by rw [h4, hq], hr.symm, ?_, ?_⟩
    · intro j
      rw [hr, hq]
      by_cases hj : j < 8
      · exact hnb1 j hj
      · have e : (256 : Nat) = 2 ^ 8 := by norm_num
        rw [e, Nat.testBit_mod_two_pow]
        have e1 : ¬ j < bp + len := by omega
        simp [hj, e1]
    · intro a j hj
      rw [h7 a j hj, hq]

theorem testBit_andNot (a m j : Nat) :
    (andNot a m).testBit j = (a.testBit j && !m.testBit j) := by
  simp only [andNot, Nat.testBit_xor, Nat.testBit_and]
  cases a.testBit j <;> cases m.testBit j <;> rfl

theorem testBit_ff_shiftLeft (p j : Nat) :
    (0b11111111 <<< p).testBit j = decide (p ≤ j ∧ j < p + 8) := by
  have e2 : (0b11111111 : Nat) = 2 ^ 8 - 1 := by norm_num
  rw [Nat.testBit_shiftLeft, e2, Nat.testBit_two_pow_sub_one]
  by_cases h2 : p ≤ j
  · by_cases h1 : j < p + 8
    · have h3 : j - p < 8 := by omega
      simp [h1, h2, h3]
    · have h3 : ¬ j - p < 8 := by omega
      simp [h1, h2, h3]
  · have h3 : ¬ j ≥ p := by omega
    simp [h2, h3]

theorem testBit_ge_8 (v j : Nat) (hj : ¬ j < 8) : (v % 256).testBit j = false := by
  have e : (256 : Nat) = 2 ^ 8 := by norm_num
  rw [e, Nat.testBit_mod_two_pow]
  simp [hj]

theorem textRowBegin_inv (W x y : Nat) (g : Nat → Bool) (d : Display Device)
    (hA : W / 8 * y + x / 8 < 65536) :
    StreamInv (rowStream (x % 8) (d.dev.mem (W / 8 * y + x / 8)) g) d.dev.mem
      (W / 8 * y + x / 8) (x % 8) (textRowBegin byteArray W x y d).1
      (textRowBegin byteArray W x y d).2.1 (textRowBegin byteArray W x y d).2.2 := by
  have hAm : (W / 8 * y + x / 8) % 65536 = W / 8 * y + x / 8 := Nat.mod_eq_of_lt hA
  unfold textRowBegin
  generalize W / 8 * y + x / 8 = A at *
  have hq : x % 8 / 8 = 0 := by omega
  have hr : x % 8 % 8 = x % 8 := by omega
  by_cases hp : x % 8 = 0
  · simp only [hp, ne_eq, not_true_eq_false, if_false]
    refine ⟨rfl, ?_, rfl, ?_, rfl, ?_, ?_⟩
    · simp
    · simp [hAm]
    · intro j; simp
    · intro a j _
      simp only [writeStart_dev, setCursorAddress_dev]
      rw [if_neg (by omega)]
  · simp only [hp, ne_eq, not_false_eq_true, if_true]
    obtain ⟨e1, e2, e3⟩ := readSingleByte_spec (setCursorAddress byteArray A d) rfl (by simp)
    simp only [setCursorAddress_dev, hAm] at e1 e2
    refine ⟨rfl, ?_, rfl, ?_, hr.symm, ?_, ?_⟩
    · simp
    · simp [hAm, hq]
    · intro j
      rw [e1, hq, hr]
      by_cases hj : j < 8
      · rw [testBit_mod_256 _ _ hj, testBit_andNot, testBit_mod_256 _ _ hj,
          testBit_ff_shiftLeft]
        unfold rowStream
        by_cases hjp : j < x % 8
        · have e4 : ¬ (x % 8 ≤ j ∧ j < x % 8 + 8) := by omega
          simp [hjp, e4]
        · have e4 : x % 8 ≤ j ∧ j < x % 8 + 8 := by omega
          simp [hjp, e4]
      · rw [testBit_ge_8 _ _ hj]
        have : ¬ j < x % 8 := by omega
        simp [this]
    · intro a j _
      simp only [writeStart_dev, setCursorAddress_dev, e2]
      rw [if_neg (by omega)]

theorem textRowEnd_mem (W x y count w : Nat) (f : Nat → Bool) (m0 : Nat → Nat)
    (L bp nb : Nat) (d : Display Device)
    (hinv : StreamInv f m0 (W / 8 * y + x / 8) L bp nb d)
    (hL : count * w + x % 8 = L) (hL2 : L < 256) (hA : W / 8 * y + x / 8 < 65000)
    (a j : Nat) (hj : j < 8) :
    ((textRowEnd byteArray W x y count w bp nb d).dev.mem a).testBit j =
      if W / 8 * y + x / 8 ≤ a ∧ 8 * (a - (W / 8 * y + x / 8)) + j < L
      then f (8 * (a - (W / 8 * y + x / 8)) + j) else (m0 a).testBit j := by
  unfold textRowEnd
  generalize W / 8 * y + x / 8 = A at *
  obtain ⟨h1, h2, h3, h4, h5, h6, h7⟩ := hinv
  by_cases hb : bp > 0
  · rw [if_pos hb]
    obtain ⟨e1, e2, e3⟩ := readSingleByte_spec d h1 h2
    have hwt : (A + (count * w + x % 8) % 256 / 8) % 65536 = A + L / 8 := by
      rw [hL]; omega
    rw [writeNextByte_dev _ _ (by simp)]
    simp only [writeStart_dev, setCursorAddress_dev, e2, hwt, store, e1, h4]
    by_cases ha : a = A + L / 8
    · subst ha
      rw [if_pos rfl, testBit_mod_256 _ _ hj, testBit_mod_256 _ _ hj, Nat.testBit_or,
        Nat.testBit_and, h6,
        testBit_mod_256 _ _ hj, testBit_ff_shiftLeft, h7 _ j hj, if_neg (by omega)]
      have e5 : A + L / 8 - A = L / 8 := by omega
      rw [e5]
      by_cases hjb : j < L % 8
      · have e6 : ¬ (bp ≤ j ∧ j < bp + 8) := by omega
        rw [if_pos (by omega)]
        simp [hjb, e6]
      · have e6 : bp ≤ j ∧ j < bp + 8 := by omega
        rw [if_neg (by omega)]
        simp [hjb, e6]
    · rw [if_neg ha, h7 a j hj]
      by_cases hin : A ≤ a ∧ a < A + L / 8
      · rw [if_pos hin, if_pos (by omega)]
      · rw [if_neg hin, if_neg (by omega)]
  · rw [if_neg hb, h7 a j hj]
    by_cases hin : A ≤ a ∧ a < A + L / 8
    · rw [if_pos hin, if_pos (by omega)]
    · rw [if_neg hin, if_neg (by omega)]

theorem drop_cons_facts (s : List Nat) (k c : Nat) (cs : List Nat) (h : s.drop k = c :: cs) :
    s.getD k 0 = c ∧ s.drop (k + 1) = cs ∧ k < s.length := by
  have hk : k < s.length := by
    by_contra hk
    rw [List.drop_eq_nil_of_le (by omega)] at h
    exact absurd h (by simp)
  have h1 : s.drop (k + 1) = cs := by
    have : s.drop (k + 1) = (s.drop k).drop 1 := by rw [List.drop_drop, Nat.add_comm]
    rw [this, h]; rfl
  have h2 : s.getD k 0 = c := by
    have e : (s.drop k)[0]? = s[k]? := by rw [List.getElem?_drop]; rfl
    rw [h] at e
    rw [List.getD_eq_getElem?_getD, ← e]; simp
  exact ⟨h2, h1, hk⟩

theorem mul_add_div_mod (k w j : Nat) (hj : j < w) :
    (k * w + j) / w = k ∧ (k * w + j) % w = j := by
  have hw : 0 < w := by omega
  constructor
  · rw [Nat.mul_comm, Nat.mul_add_div hw, Nat.div_eq_of_lt hj]; rfl
  · rw [Nat.mul_comm, Nat.mul_add_mod, Nat.mod_eq_of_lt hj]

theorem narrowLoop_inv (font : Font) (r : Nat) (s : List Nat) (m0 : Nat → Nat)
    (A bo b0 : Nat) (hw8 : font.width ≤ 8) (hfh : font.height ≤ 255) (hr : r < 256)
    (hs : ∀ c ∈ s, (32 ≤ c ∧ c < 128) ∧
      font.byte ((c - 32) * font.height + r) < 2 ^ font.width) :
    ∀ (cs : List Nat) (k bp nb : Nat) (d : Display Device), s.drop k = cs → k ≤ s.length →
      StreamInv (rowStream bo b0 (narrowRowBit font s r)) m0 A (bo + k * font.width) bp nb d →
      (narrowLoop byteArray font r cs bp nb d).1 = [] ∧
      StreamInv (rowStream bo b0 (narrowRowBit font s r)) m0 A (bo + s.length * font.width)
        (narrowLoop byteArray font r cs bp nb d).2.1
        (narrowLoop byteArray font r cs bp nb d).2.2.1
        (narrowLoop byteArray font r cs bp nb d).2.2.2 := by
  intro cs
  induction cs with
  | nil =>
    intro k bp nb d hdrop hk hinv
    have hk2 : k = s.length := by
      have := congrArg List.length hdrop
      simp at this
      omega
    subst hk2
    exact ⟨rfl, hinv⟩
  | cons c cs ih =>
    intro k bp nb d hdrop hk hinv
    obtain ⟨hget, hdrop', hklt⟩ := drop_cons_facts s k c cs hdrop
    have hcmem : c ∈ s := by
      have : c ∈ s.drop k := by rw [hdrop]; exact List.mem_cons_self _ _
      exact List.mem_of_mem_drop this
    obtain ⟨⟨h32, h128⟩, hcb⟩ := hs c hcmem
    have hidx : (c - 32) * font.height ≤ 95 * 255 := Nat.mul_le_mul (by omega) hfh
    rw [narrowLoop_cons _ _ _ _ _ _ _ _ h32 h128 (by omega)]
    have hstep := pushBits_inv (rowStream bo b0 (narrowRowBit font s r)) m0 A
      (bo + k * font.width) (font.byte ((c - 32) * font.height + r)) font.width bp nb d
      hinv hw8 (by
        intro j
        by_cases hj : j < font.width
        · obtain ⟨e1, e2⟩ := mul_add_div_mod k font.width j hj
          have e3 : ¬ bo + k * font.width + j < bo := by omega
          have e4 : bo + k * font.width + j - bo = k * font.width + j := by omega
          simp only [hj, decide_True, Bool.true_and, rowStream, e3, if_false, e4,
            narrowRowBit, e1, e2, hget]
        · simp only [hj, decide_False, Bool.false_and]
          apply Nat.testBit_lt_two_pow
          calc font.byte ((c - 32) * font.height + r) < 2 ^ font.width := hcb
            _ ≤ 2 ^ j := Nat.pow_le_pow_right (by omega) (by omega))
    have e5 : bo + k * font.width + font.width = bo + (k + 1) * font.width := by ring
    rw [e5] at hstep
    exact ih (k + 1) _ _ _ hdrop' (by omega) hstep

theorem row_pixel_of_mem (W x y N : Nat) (g : Nat → Bool) (m0 m1 : Nat → Nat)
    (hW8 : W % 8 = 0) (hN : x + N ≤ W)
    (hmem : ∀ a j, j < 8 → (m1 a).testBit j =
      if W / 8 * y + x / 8 ≤ a ∧ x % 8 ≤ 8 * (a - (W / 8 * y + x / 8)) + j ∧
          8 * (a - (W / 8 * y + x / 8)) + j < x % 8 + N
      then g (8 * (a - (W / 8 * y + x / 8)) + j - x % 8) else (m0 a).testBit j)
    (x' y' : Nat) (hx' : x' < W) :
    pixel W m1 x' y' =
      if y' = y ∧ x ≤ x' ∧ x' < x + N then g (x' - x) else pixel W m0 x' y' := by
  unfold pixel
  rw [hmem _ _ (Nat.mod_lt _ (by omega))]
  by_cases hin : y' = y ∧ x ≤ x' ∧ x' < x + N
  · obtain ⟨hy, h1, h2⟩ := hin
    subst hy
    rw [if_pos (by omega), if_pos ⟨rfl, h1, h2⟩]
    congr 1
    omega
  · rw [if_neg hin, if_neg]
    rintro ⟨h1, h2, h3⟩
    apply hin
    have hinj := row_address_inj (W / 8) y' y (x' / 8)
      ((8 * (W / 8 * y' + x' / 8 - (W / 8 * y + x / 8)) + x' % 8 - x % 8 + x) / 8)
      (by omega) (by omega) (by omega)
    omega

theorem textRow_pixel (W x y n w : Nat) (g : Nat → Bool) (d : Display Device)
    (bp nb : Nat) (d1 : Display Device)
    (hinv : StreamInv (rowStream (x % 8) (d.dev.mem (W / 8 * y + x / 8)) g) d.dev.mem
      (W / 8 * y + x / 8) (x % 8 + n * w) bp nb d1)
    (hW8 : W % 8 = 0) (hW : W < 256) (hy : y < 256) (hx : x + n * w ≤ W)
    (x' y' : Nat) (hx' : x' < W) :
    pixel W (textRowEnd byteArray W x y n w bp nb d1).dev.mem x' y' =
      if y' = y ∧ x ≤ x' ∧ x' < x + n * w then g (x' - x) else pixel W d.dev.mem x' y' := by
  have hR : W / 8 * y ≤ 31 * 255 := Nat.mul_le_mul (by omega) (by omega)
  apply row_pixel_of_mem W x y (n * w) g d.dev.mem _ hW8 hx _ x' y' hx'
  intro a j hj
  rw [textRowEnd_mem W x y n w _ d.dev.mem (x % 8 + n * w) bp nb d1 hinv (by omega) (by omega)
    (by omega) a j hj]
  generalize W / 8 * y + x / 8 = A
  unfold rowStream
  by_cases h1 : A ≤ a ∧ 8 * (a - A) + j < x % 8 + n * w
  · rw [if_pos h1]
    by_cases h2 : 8 * (a - A) + j < x % 8
    · rw [if_pos h2, if_neg (by omega)]
      have ha : a = A := by omega
      subst ha
      congr 1
      omega
    · rw [if_neg h2, if_pos (by omega)]
  · rw [if_neg h1, if_neg (by omega)]

theorem narrowRows_pixel (W x : Nat) (s : List Nat) (font : Font)
    (hW8 : W % 8 = 0) (hW : W < 256) (hw8 : font.width ≤ 8) (hfh : font.height ≤ 255)
    (hs : ∀ c ∈ s, (32 ≤ c ∧ c < 128) ∧
      ∀ r < font.height, font.byte ((c - 32) * font.height + r) < 2 ^ font.width)
    (hx : x + s.length * font.width ≤ W) (x' y' : Nat) (hx' : x' < W) :
    ∀ (rows r y : Nat) (d : Display Device), r + rows ≤ font.height → y + rows ≤ 255 →
      pixel W (narrowRows byteArray W x s font rows r y d).dev.mem x' y' =
        if y ≤ y' ∧ y' < y + rows ∧ x ≤ x' ∧ x' < x + s.length * font.width
        then narrowRowBit font s (r + (y' - y)) (x' - x) else pixel W d.dev.mem x' y' := by
  intro rows
  induction rows with
  | zero =>
    intro r y d _ _
    rw [if_neg (by omega)]
    rfl
  | succ rows ih =>
    intro r y d hr hy
    have hR : W / 8 * y ≤ 31 * 255 := Nat.mul_le_mul (by omega) (by omega)
    rw [narrowRows_succ]
    have hy1 : (y + 1) % 256 = y + 1 := by omega
    rw [hy1, ih (r + 1) (y + 1) _ (by omega) (by omega)]
    have hbeg := textRowBegin_inv W x y (narrowRowBit font s r) d (by omega)
    obtain ⟨hl1, hl2⟩ := narrowLoop_inv font r s d.dev.mem (W / 8 * y + x / 8) (x % 8)
      (d.dev.mem (W / 8 * y + x / 8)) hw8 hfh (by omega)
      (fun c hc => ⟨(hs c hc).1, (hs c hc).2 r (by omega)⟩) s 0 _ _ _ (by simp) (by omega)
      (by simpa using hbeg)
    rw [hl1]
    simp only [List.length_nil, Nat.sub_zero]
    rw [textRow_pixel W x y s.length font.width (narrowRowBit font s r) d _ _ _ hl2 hW8 hW
      (by omega) hx x' y' hx']
    by_cases h1 : y' = y ∧ x ≤ x' ∧ x' < x + s.length * font.width
    · obtain ⟨e1, e2, e3⟩ := h1
      subst e1
      rw [if_neg (by omega), if_pos ⟨rfl, e2, e3⟩, if_pos (by omega)]
      simp
    · rw [if_neg h1]
      by_cases h2 : y + 1 ≤ y' ∧ y' < y + 1 + rows ∧ x ≤ x' ∧ x' < x + s.length * font.width
      · rw [if_pos h2, if_pos (by omega)]
        congr 1
        omega
      · rw [if_neg h2, if_neg (by omega)]

/-- C4: on the byte-array device, for a narrow font (width `w` in `1..8`, one byte per glyph
row with the bits from `w` up zero), a string of `n` characters with codes inside the glyph
table (32 to 127: the code is a signed `char` and glyph `c - 32` starts the table at the
space) and an in-bounds position (`x + n*w ≤ W`, `y + h ≤ H`, any offset `x mod 8`),
`drawTextVertical_narrow` makes pixel `(x + k*w + j, y + r)` equal to bit `j` of row `r` of
the glyph of character `k`, and leaves every pixel of the surface outside
`[x, x+n*w) × [y, y+h)` unchanged. -/
theorem drawTextVertical_narrow_correct (W H x y : Nat) (s : List Nat) (font : Font)
    (d : Display Device) (hW8 : W % 8 = 0) (hW : W < 256) (hH : H < 256)
    (hw1 : 1 ≤ font.width) (hw8 : font.width ≤ 8)
    (hs : ∀ c ∈ s, 32 ≤ c ∧ c ≤ 127 ∧
      ∀ r < font.height, font.byte ((c - 32) * font.height + r) < 2 ^ font.width)
    (hx : x + s.length * font.width ≤ W) (hy : y + font.height ≤ H) :
    (∀ k r j, k < s.length → r < font.height → j < font.width →
      pixel W (drawTextVertical_narrow byteArray W x y s font d).dev.mem
          (x + k * font.width + j) (y + r) =
        (font.byte ((s.getD k 0 - 32) * font.height + r)).testBit j) ∧
    (∀ x' y', x' < W → y' < H →
      ¬ (x ≤ x' ∧ x' < x + s.length * font.width ∧ y ≤ y' ∧ y' < y + font.height) →
      pixel W (drawTextVertical_narrow byteArray W x y s font d).dev.mem x' y' =
        pixel W d.dev.mem x' y') := by
  have hs' : ∀ c ∈ s, (32 ≤ c ∧ c < 128) ∧
      ∀ r < font.height, font.byte ((c - 32) * font.height + r) < 2 ^ font.width :=
    fun c hc => ⟨⟨(hs c hc).1, by have := (hs c hc).2.1; omega⟩, (hs c hc).2.2⟩
  have hfh : font.height ≤ 255 := by omega
  constructor
  · intro k r j hk hr hj
    have hkw : (k + 1) * font.width ≤ s.length * font.width :=
      Nat.mul_le_mul_right _ (by omega)
    have hkw2 : (k + 1) * font.width = k * font.width + font.width := by ring
    unfold drawTextVertical_narrow
    rw [narrowRows_pixel W x s font hW8 hW hw8 hfh hs' hx _ _ (by omega) font.height 0 y d
      (by omega) (by omega), if_pos (by omega)]
    obtain ⟨e1, e2⟩ := mul_add_div_mod k font.width j hj
    have e3 : x + k * font.width + j - x = k * font.width + j := by omega
    have e4 : 0 + (y + r - y) = r := by omega
    simp only [narrowRowBit, e3, e4, e1, e2]
  · intro x' y' hx' _ hout
    unfold drawTextVertical_narrow
    rw [narrowRows_pixel W x s font hW8 hW hw8 hfh hs' hx _ _ hx' font.height 0 y d
      (by omega) (by omega), if_neg (by omega)]

/-- The statement of `drawTextVertical_narrow_correct` for the string "Hi" in the sample
narrow font at `(3, 1)` on a 240 x 128 surface filled with `0x5A`. -/
theorem drawTextVertical_narrow_correct_witness :
    (240 % 8 = 0 ∧ 240 < 256 ∧ 128 < 256 ∧ 1 ≤ sampleNarrowFont.width ∧
      sampleNarrowFont.width ≤ 8 ∧
      (∀ c ∈ [72, 105], 32 ≤ c ∧ c ≤ 127 ∧ ∀ r < sampleNarrowFont.height,
        sampleNarrowFont.byte ((c - 32) * sampleNarrowFont.height + r) <
          2 ^ sampleNarrowFont.width) ∧
      3 + [72, 105].length * sampleNarrowFont.width ≤ 240 ∧
      1 + sampleNarrowFont.height ≤ 128) ∧
    ((∀ k r j, k < [72, 105].length → r < sampleNarrowFont.height →
        j < sampleNarrowFont.width →
      pixel 240 (drawTextVertical_narrow byteArray 240 3 1 [72, 105] sampleNarrowFont
          (onDevice false (fun _ => 0x5A) 0 0 false [])).dev.mem
          (3 + k * sampleNarrowFont.width + j) (1 + r) =
        (sampleNarrowFont.byte (([72, 105].getD k 0 - 32) * sampleNarrowFont.height + r)).testBit
          j) ∧
    (∀ x' y', x' < 240 → y' < 128 →
      ¬ (3 ≤ x' ∧ x' < 3 + [72, 105].length * sampleNarrowFont.width ∧ 1 ≤ y' ∧
          y' < 1 + sampleNarrowFont.height) →
      pixel 240 (drawTextVertical_narrow byteArray 240 3 1 [72, 105] sampleNarrowFont
          (onDevice false (fun _ => 0x5A) 0 0 false [])).dev.mem x' y' =
        pixel 240 (onDevice false (fun _ => 0x5A) 0 0 false []).dev.mem x' y')) :=
  ⟨by decide, drawTextVertical_narrow_correct 240 128 3 1 [72, 105] sampleNarrowFont
    (onDevice false (fun _ => 0x5A) 0 0 false []) (by decide) (by decide) (by decide)
    (by decide) (by decide) (by decide) (by decide) (by decide)⟩

theorem pushBits_eight (T : Transport σ) (data bp nb : Nat) (d : Display σ) (hbp : bp < 8) :
    pushBits T data 8 bp nb d =
      (bp, data >>> (8 - bp), writeNextByte T ((nb ||| (data <<< bp)) % 256) d) := by
  have h1 : (bp + 8) % 256 = bp + 8 := by omega
  have h2 : (bp + 8 + 256 - 8) % 256 = bp := by omega
  unfold pushBits
  rw [h1, if_pos (by omega), h2]

theorem testBit_byte (font : Font) (i j : Nat) (hj : ¬ j < 8) :
    (font.byte i).testBit j = false := testBit_ge_8 _ _ hj

theorem wideFullBytes_inv (font : Font) (f : Nat → Bool) (m0 : Nat → Nat) (A base bp : Nat)
    (hbase : base + 255 < 32768) :
    ∀ (fuel rem byteOff nb Lc : Nat) (d : Display Device),
      StreamInv f m0 A Lc bp nb d → rem ≤ fuel → 1 ≤ rem → byteOff + rem ≤ 255 →
      (∀ i j, j < 8 → 8 * i + j < rem →
        (font.byte (base + byteOff + i)).testBit j = f (Lc + 8 * i + j)) →
      ∃ q, (wideFullBytes byteArray font base bp fuel rem byteOff nb d).1 + 8 * q = rem ∧
        1 ≤ (wideFullBytes byteArray font base bp fuel rem byteOff nb d).1 ∧
        (wideFullBytes byteArray font base bp fuel rem byteOff nb d).1 ≤ 8 ∧
        (wideFullBytes byteArray font base bp fuel rem byteOff nb d).2.1 = byteOff + q ∧
        StreamInv f m0 A (Lc + 8 * q) bp
          (wideFullBytes byteArray font base bp fuel rem byteOff nb d).2.2.1
          (wideFullBytes byteArray font base bp fuel rem byteOff nb d).2.2.2 := by
  intro fuel
  induction fuel with
  | zero => intro rem byteOff nb Lc d _ h1 h2; omega
  | succ fuel ih =>
    intro rem byteOff nb Lc d hinv hf hrem hbo hbytes
    rw [wideFullBytes]
    by_cases h8 : rem > 8
    · rw [if_pos h8]
      have hbp : bp < 8 := by have := hinv.2.2.2.2.1; omega
      have hstep := pushBits_inv f m0 A Lc (font.byte (base + byteOff)) 8 bp nb d hinv
        (le_refl _) (by
          intro j
          by_cases hj : j < 8
          · have := hbytes 0 j hj (by omega)
            simp only [Nat.add_zero, Nat.mul_zero] at this
            simp [hj, this]
          · simp [hj, testBit_byte font _ j hj])
      rw [pushBits_eight _ _ _ _ _ hbp] at hstep
      have hr : (rem + 256 - 8) % 256 = rem - 8 := by omega
      have hb : (byteOff + 1) % 256 = byteOff + 1 := by omega
      have hrd : font.byteAt ((base : Int) + (byteOff : Int)) = font.byte (base + byteOff) := by
        rw [← Nat.cast_add, byteAt_natCast font _ (by omega)]
      simp only [hr, hb, hrd]
      obtain ⟨q, e1, e2, e3, e4, e5⟩ := ih (rem - 8) (byteOff + 1)
        (font.byte (base + byteOff) >>> (8 - bp)) (Lc + 8)
        (writeNextByte byteArray ((nb ||| (font.byte (base + byteOff) <<< bp)) % 256) d)
        hstep (by omega) (by omega) (by omega) (by
          intro i j hj hij
          have := hbytes (i + 1) j hj (by omega)
          have e6 : base + (byteOff + 1) + i = base + byteOff + (i + 1) := by omega
          have e7 : Lc + 8 + 8 * i + j = Lc + 8 * (i + 1) + j := by omega
          rw [e6, e7]; exact this)
      refine ⟨q + 1, by omega, e2, e3, by omega, ?_⟩
      have e8 : Lc + 8 * (q + 1) = Lc + 8 + 8 * q := by omega
      rw [e8]; exact e5
    · rw [if_neg h8]
      exact ⟨0, by simp, hrem, by simpa using h8, by simp, by simpa using hinv⟩

theorem wideLoop_cons (T : Transport σ) (font : Font) (r c : Nat) (cs : List Nat)
    (bp nb : Nat) (d : Display σ) (h32 : 32 ≤ c) (h128 : c < 128) :
    wideLoop T font r (c :: cs) bp nb d =
      wideLoop T font r cs (wideChar T font r c bp nb d).1 (wideChar T font r c bp nb d).2.1
        (wideChar T font r c bp nb d).2.2 := by
  have hidx : (c - 32) * ((font.width * font.height + 7) / 8 % 256) ≤ 95 * 255 :=
    Nat.mul_le_mul (by omega) (by omega)
  have hCA : (charValue c - 32) * (((font.width * font.height + 7) / 8 % 256 : Nat) : Int) +
      ((r * font.width / 8 % 256 : Nat) : Int) =
      (((c - 32) * ((font.width * font.height + 7) / 8 % 256) +
        r * font.width / 8 % 256 : Nat) : Int) := by
    rw [glyphOffset_cast c _ h32 h128, ← Nat.cast_add]
  have hrd : font.byteAt (((c - 32) * ((font.width * font.height + 7) / 8 % 256) +
      r * font.width / 8 % 256 : Nat) : Int) =
      font.byte ((c - 32) * ((font.width * font.height + 7) / 8 % 256) +
        r * font.width / 8 % 256) := byteAt_natCast font _ (by omega)
  rw [wideLoop, if_neg (by omega)]
  unfold wideChar
  by_cases h1 : r * font.width % 8 % 256 ≠ 0
  · by_cases h2 : (bp + (8 - r * font.width % 8 % 256)) % 256 ≥ 8
    · simp only [h1, h2, pushBits, if_true, ne_eq, not_false_eq_true, hCA, hrd]
    · simp only [h1, h2, pushBits, if_true, if_false, ne_eq, not_false_eq_true, hCA, hrd]
  · simp only [h1, pushBits, if_false, hCA]

theorem wideChar_inv (font : Font) (r c : Nat) (f : Nat → Bool) (m0 : Nat → Nat)
    (A Lc bp nb : Nat) (d : Display Device) (hinv : StreamInv f m0 A Lc bp nb d)
    (hw9 : 9 ≤ font.width) (hw : font.width < 256)
    (hfrb : (font.width * font.height + 7) / 8 ≤ 255) (hr : r < font.height)
    (h128 : c < 128)
    (hf : ∀ t, t < font.width → f (Lc + t) =
      font.packedBit ((c - 32) * ((font.width * font.height + 7) / 8))
        (r * font.width + t)) :
    StreamInv f m0 A (Lc + font.width) (wideChar byteArray font r c bp nb d).1
      (wideChar byteArray font r c bp nb d).2.1 (wideChar byteArray font r c bp nb d).2.2 := by
  have hrw : r * font.width + font.width ≤ font.width * font.height := by
    have : (r + 1) * font.width ≤ font.height * font.width :=
      Nat.mul_le_mul_right _ (by omega)
    rw [Nat.mul_comm font.width font.height]
    have e : (r + 1) * font.width = r * font.width + font.width := by ring
    omega
  unfold Font.packedBit at hf
  unfold wideChar
  have hcb : (c - 32) * ((font.width * font.height + 7) / 8) ≤ 95 * 255 :=
    Nat.mul_le_mul (by omega) hfrb
  generalize font.width * font.height = WH at *
  generalize r * font.width = RW at *
  generalize font.width = w at *
  have e1 : RW % 8 % 256 = RW % 8 := by omega
  have e2 : RW / 8 % 256 = RW / 8 := by omega
  have e3 : (WH + 7) / 8 % 256 = (WH + 7) / 8 := by omega
  simp only [e1, e2, e3]
  generalize (c - 32) * ((WH + 7) / 8) = cb at *
  -- the partial first byte
  have hp1 : ∃ t1 bo1, RW + t1 = 8 * (RW / 8 + bo1) ∧ t1 ≤ 7 ∧ bo1 ≤ 1 ∧
      (if RW % 8 ≠ 0 then (w + 256 - (8 - RW % 8)) % 256 else w) = w - t1 ∧
      (if RW % 8 ≠ 0 then 1 else 0) = bo1 ∧
      StreamInv f m0 A (Lc + t1)
        (if RW % 8 ≠ 0 then
          pushBits byteArray (font.byte (cb + RW / 8) >>> (RW % 8)) (8 - RW % 8) bp nb d
          else (bp, nb, d)).1
        (if RW % 8 ≠ 0 then
          pushBits byteArray (font.byte (cb + RW / 8) >>> (RW % 8)) (8 - RW % 8) bp nb d
          else (bp, nb, d)).2.1
        (if RW % 8 ≠ 0 then
          pushBits byteArray (font.byte (cb + RW / 8) >>> (RW % 8)) (8 - RW % 8) bp nb d
          else (bp, nb, d)).2.2 := by
    by_cases hrob : RW % 8 ≠ 0
    · refine ⟨8 - RW % 8, 1, by omega, by omega, by omega, ?_, ?_, ?_⟩
      · rw [if_pos hrob]; omega
      · rw [if_pos hrob]
      · rw [if_pos hrob]
        apply pushBits_inv f m0 A Lc _ _ bp nb d hinv (by omega)
        intro j
        rw [Nat.testBit_shiftRight]
        by_cases hj : j < 8 - RW % 8
        · have e4 : (RW + j) / 8 = RW / 8 := by omega
          have e5 : (RW + j) % 8 = RW % 8 + j := by omega
          rw [hf j (by omega), e4, e5]
          simp [hj]
        · rw [testBit_byte font _ _ (by omega)]
          simp [hj]
    · refine ⟨0, 0, by omega, by omega, by omega, ?_, ?_, ?_⟩
      · rw [if_neg hrob]; omega
      · rw [if_neg hrob]
      · rw [if_neg hrob]; exact hinv
  obtain ⟨t1, bo1, ht1, ht7, hbo1, hrem1, hbo, hinv1⟩ := hp1
  rw [hrem1, hbo]
  generalize (if RW % 8 ≠ 0 then
      pushBits byteArray (font.byte (cb + RW / 8) >>> (RW % 8)) (8 - RW % 8) bp nb d
      else (bp, nb, d)) = p1 at hinv1 ⊢
  -- the full bytes
  have hfull := wideFullBytes_inv font f m0 A (cb + RW / 8) p1.1 (by omega)
    (w - t1) (w - t1) bo1 p1.2.1 (Lc + t1) p1.2.2 hinv1 (le_refl _) (by omega) (by omega) (by
      intro i j hj hij
      have e4 : (RW + (t1 + 8 * i + j)) / 8 = RW / 8 + bo1 + i := by omega
      have e5 : (RW + (t1 + 8 * i + j)) % 8 = j := by omega
      have e6 : Lc + t1 + 8 * i + j = Lc + (t1 + 8 * i + j) := by omega
      have e7 : cb + RW / 8 + bo1 + i = cb + (RW / 8 + bo1 + i) := by omega
      rw [e6, hf _ (by omega), e4, e5, e7])
  generalize wideFullBytes byteArray font ((cb + RW / 8 : Nat) : Int) p1.1 (w - t1) (w - t1)
    bo1 p1.2.1 p1.2.2 = fb at hfull ⊢
  obtain ⟨q, g1, g2, g3, g4, g5⟩ := hfull
  -- the last bits
  have hlast := pushBits_inv f m0 A (Lc + t1 + 8 * q)
    (andNot (font.byte (cb + RW / 8 + fb.2.1)) (0b11111111 <<< fb.1)) fb.1 p1.1 fb.2.2.1
    fb.2.2.2 g5 g3 (by
    intro j
    rw [testBit_andNot, testBit_ff_shiftLeft, g4]
    by_cases hj : j < fb.1
    · have e4 : (RW + (t1 + 8 * q + j)) / 8 = RW / 8 + bo1 + q := by omega
      have e5 : (RW + (t1 + 8 * q + j)) % 8 = j := by omega
      have e6 : Lc + t1 + 8 * q + j = Lc + (t1 + 8 * q + j) := by omega
      have e7 : cb + RW / 8 + (bo1 + q) = cb + (RW / 8 + bo1 + q) := by omega
      rw [e6, hf _ (by omega), e4, e5, e7]
      simp only [hj, decide_True, Bool.true_and]
      rw [decide_eq_false (by omega)]
      simp
    · simp only [hj, decide_False, Bool.false_and]
      by_cases hj8 : j < 8
      · rw [decide_eq_true (by omega)]
        simp
      · rw [testBit_byte font _ _ hj8]
        simp)
  have e8 : Lc + t1 + 8 * q + fb.1 = Lc + w := by omega
  rw [e8] at hlast
  have hrd : font.byteAt (((cb + RW / 8 : Nat) : Int) + (fb.2.1 : Int)) =
      font.byte (cb + RW / 8 + fb.2.1) := by
    rw [← Nat.cast_add, byteAt_natCast font _ (by omega)]
  rw [hrd]
  exact hlast

theorem wideLoop_inv (font : Font) (r : Nat) (s : List Nat) (m0 : Nat → Nat)
    (A bo b0 : Nat) (hw9 : 9 ≤ font.width) (hw : font.width < 256)
    (hfrb : (font.width * font.height + 7) / 8 ≤ 255) (hr : r < font.height)
    (hs : ∀ c ∈ s, 32 ≤ c ∧ c < 128) :
    ∀ (cs : List Nat) (k bp nb : Nat) (d : Display Device), s.drop k = cs → k ≤ s.length →
      StreamInv (rowStream bo b0 (wideRowBit font s r)) m0 A (bo + k * font.width) bp nb d →
      (wideLoop byteArray font r cs bp nb d).1 = [] ∧
      StreamInv (rowStream bo b0 (wideRowBit font s r)) m0 A (bo + s.length * font.width)
        (wideLoop byteArray font r cs bp nb d).2.1
        (wideLoop byteArray font r cs bp nb d).2.2.1
        (wideLoop byteArray font r cs bp nb d).2.2.2 := by
  intro cs
  induction cs with
  | nil =>
    intro k bp nb d hdrop hk hinv
    have hk2 : k = s.length := by
      have := congrArg List.length hdrop
      simp at this
      omega
    subst hk2
    exact ⟨rfl, hinv⟩
  | cons c cs ih =>
    intro k bp nb d hdrop hk hinv
    obtain ⟨hget, hdrop', hklt⟩ := drop_cons_facts s k c cs hdrop
    have hcmem : c ∈ s := by
      have : c ∈ s.drop k := by rw [hdrop]; exact List.mem_cons_self _ _
      exact List.mem_of_mem_drop this
    rw [wideLoop_cons _ _ _ _ _ _ _ _ (hs c hcmem).1 (hs c hcmem).2]
    have hstep := wideChar_inv font r c (rowStream bo b0 (wideRowBit font s r)) m0 A
      (bo + k * font.width) bp nb d hinv hw9 hw hfrb hr (hs c hcmem).2 (by
        intro t ht
        obtain ⟨e1, e2⟩ := mul_add_div_mod k font.width t ht
        have e3 : ¬ bo + k * font.width + t < bo := by omega
        have e4 : bo + k * font.width + t - bo = k * font.width + t := by omega
        simp only [rowStream, e3, if_false, e4, wideRowBit, e1, e2, hget])
    have e5 : bo + k * font.width + font.width = bo + (k + 1) * font.width := by ring
    rw [e5] at hstep
    exact ih (k + 1) _ _ _ hdrop' (by omega) hstep

theorem wideRows_pixel (W x : Nat) (s : List Nat) (font : Font)
    (hW8 : W % 8 = 0) (hW : W < 256) (hw9 : 9 ≤ font.width) (hw : font.width < 256)
    (hfrb : (font.width * font.height + 7) / 8 ≤ 255) (hs : ∀ c ∈ s, 32 ≤ c ∧ c < 128)
    (hx : x + s.length * font.width ≤ W) (x' y' : Nat) (hx' : x' < W) :
    ∀ (rows r y : Nat) (d : Display Device), r + rows ≤ font.height → y + rows ≤ 255 →
      pixel W (wideRows byteArray W x s font rows r y d).dev.mem x' y' =
        if y ≤ y' ∧ y' < y + rows ∧ x ≤ x' ∧ x' < x + s.length * font.width
        then wideRowBit font s (r + (y' - y)) (x' - x) else pixel W d.dev.mem x' y' := by
  intro rows
  induction rows with
  | zero =>
    intro r y d _ _
    rw [if_neg (by omega)]
    rfl
  | succ rows ih =>
    intro r y d hr hy
    have hR : W / 8 * y ≤ 31 * 255 := Nat.mul_le_mul (by omega) (by omega)
    rw [wideRows_succ]
    have hy1 : (y + 1) % 256 = y + 1 := by omega
    rw [hy1, ih (r + 1) (y + 1) _ (by omega) (by omega)]
    have hbeg := textRowBegin_inv W x y (wideRowBit font s r) d (by omega)
    obtain ⟨hl1, hl2⟩ := wideLoop_inv font r s d.dev.mem (W / 8 * y + x / 8) (x % 8)
      (d.dev.mem (W / 8 * y + x / 8)) hw9 hw hfrb (by omega) hs s 0 _ _ _ (by simp)
      (by omega) (by simpa using hbeg)
    rw [hl1]
    simp only [List.length_nil, Nat.sub_zero]
    rw [textRow_pixel W x y s.length font.width (wideRowBit font s r) d _ _ _ hl2 hW8 hW
      (by omega) hx x' y' hx']
    by_cases h1 : y' = y ∧ x ≤ x' ∧ x' < x + s.length * font.width
    · obtain ⟨e1, e2, e3⟩ := h1
      subst e1
      rw [if_neg (by omega), if_pos ⟨rfl, e2, e3⟩, if_pos (by omega)]
      simp
    · rw [if_neg h1]
      by_cases h2 : y + 1 ≤ y' ∧ y' < y + 1 + rows ∧ x ≤ x' ∧ x' < x + s.length * font.width
      · rw [if_pos h2, if_pos (by omega)]
        congr 1
        omega
      · rw [if_neg h2, if_neg (by omega)]

/-- C5: on the byte-array device, for a wide font (width `w > 8`, height `h`, each glyph
bit-packed row-major into `ceil(w*h/8) ≤ 255` bytes), a string of `n` characters with codes
inside the glyph table (32 to 127: the code is a signed `char` and glyph `c - 32` starts the
table at the space) and an in-bounds position (`x + n*w ≤ W`, `y + h ≤ H`),
`drawTextVertical_wide` makes pixel
`(x + k*w + j, y + r)` equal to bit `r*w + j` of the packed glyph of character `k` (bit `b`
being bit `b mod 8` of byte `b / 8`), and leaves every pixel of the surface outside
`[x, x+n*w) × [y, y+h)` unchanged. -/
theorem drawTextVertical_wide_correct (W H x y : Nat) (s : List Nat) (font : Font)
    (d : Display Device) (hW8 : W % 8 = 0) (hW : W < 256) (hH : H < 256)
    (hw9 : 8 < font.width) (hfrb : (font.width * font.height + 7) / 8 ≤ 255)
    (hs : ∀ c ∈ s, 32 ≤ c ∧ c ≤ 127)
    (hx : x + s.length * font.width ≤ W) (hy : y + font.height ≤ H) :
    (∀ k r j, k < s.length → r < font.height → j < font.width →
      pixel W (drawTextVertical_wide byteArray W x y s font d).dev.mem
          (x + k * font.width + j) (y + r) =
        font.packedBit ((s.getD k 0 - 32) * ((font.width * font.height + 7) / 8))
          (r * font.width + j)) ∧
    (∀ x' y', x' < W → y' < H →
      ¬ (x ≤ x' ∧ x' < x + s.length * font.width ∧ y ≤ y' ∧ y' < y + font.height) →
      pixel W (drawTextVertical_wide byteArray W x y s font d).dev.mem x' y' =
        pixel W d.dev.mem x' y') := by
  have hs' : ∀ c ∈ s, 32 ≤ c ∧ c < 128 := fun c hc => by have := hs c hc; omega
  by_cases hn : s.length = 0
  · -- the empty string: no glyph pixel, and `font.width` is not bounded by the surface
    have hnil : s = [] := List.length_eq_zero.mp hn
    subst hnil
    constructor
    · intro k r j hk; simp at hk
    · intro x' y' hx' _ _
      unfold drawTextVertical_wide
      have key : ∀ (rows r y : Nat) (d : Display Device), y + rows ≤ 255 →
          pixel W (wideRows byteArray W x [] font rows r y d).dev.mem x' y' =
            pixel W d.dev.mem x' y' := by
        intro rows
        induction rows with
        | zero => intro r y d _; rfl
        | succ rows ih =>
          intro r y d hy
          have hR : W / 8 * y ≤ 31 * 255 := Nat.mul_le_mul (by omega) (by omega)
          rw [wideRows_succ]
          have hy1 : (y + 1) % 256 = y + 1 := by omega
          rw [hy1, ih (r + 1) (y + 1) _ (by omega)]
          have hbeg := textRowBegin_inv W x y (fun _ => false) d (by omega)
          have hl : wideLoop byteArray font r [] (textRowBegin byteArray W x y d).1
            (textRowBegin byteArray W x y d).2.1 (textRowBegin byteArray W x y d).2.2 =
            ([], (textRowBegin byteArray W x y d).1, (textRowBegin byteArray W x y d).2.1,
              (textRowBegin byteArray W x y d).2.2) := rfl
          rw [hl]
          simp only [List.length_nil, Nat.sub_zero]
          rw [textRow_pixel W x y 0 font.width (fun _ => false) d _ _ _
            (by simpa using hbeg) hW8 hW (by omega) (by omega) x' y' hx', if_neg (by omega)]
      exact key font.height 0 y d (by omega)
  · have hwW : font.width ≤ s.length * font.width := Nat.le_mul_of_pos_left _ (by omega)
    have hw : font.width < 256 := by omega
    constructor
    · intro k r j hk hr hj
      have hkw : (k + 1) * font.width ≤ s.length * font.width :=
        Nat.mul_le_mul_right _ (by omega)
      have hkw2 : (k + 1) * font.width = k * font.width + font.width := by ring
      unfold drawTextVertical_wide
      rw [wideRows_pixel W x s font hW8 hW (by omega) hw hfrb hs' hx _ _ (by omega)
        font.height 0 y d (by omega) (by omega), if_pos (by omega)]
      obtain ⟨e1, e2⟩ := mul_add_div_mod k font.width j hj
      have e3 : x + k * font.width + j - x = k * font.width + j := by omega
      have e4 : 0 + (y + r - y) = r := by omega
      simp only [wideRowBit, e3, e4, e1, e2]
    · intro x' y' hx' _ hout
      unfold drawTextVertical_wide
      rw [wideRows_pixel W x s font hW8 hW (by omega) hw hfrb hs' hx _ _ hx'
        font.height 0 y d (by omega) (by omega), if_neg (by omega)]

/-- The statement of `drawTextVertical_wide_correct` for the string "Hi" in the sample wide
font at `(3, 1)` on a 240 x 128 surface filled with `0x5A`. -/
theorem drawTextVertical_wide_correct_witness :
    (240 % 8 = 0 ∧ 240 < 256 ∧ 128 < 256 ∧ 8 < sampleWideFont.width ∧
      (sampleWideFont.width * sampleWideFont.height + 7) / 8 ≤ 255 ∧
      (∀ c ∈ [72, 105], 32 ≤ c ∧ c ≤ 127) ∧
      3 + [72, 105].length * sampleWideFont.width ≤ 240 ∧
      1 + sampleWideFont.height ≤ 128) ∧
    ((∀ k r j, k < [72, 105].length → r < sampleWideFont.height → j < sampleWideFont.width →
      pixel 240 (drawTextVertical_wide byteArray 240 3 1 [72, 105] sampleWideFont
          (onDevice false (fun _ => 0x5A) 0 0 false [])).dev.mem
          (3 + k * sampleWideFont.width + j) (1 + r) =
        sampleWideFont.packedBit (([72, 105].getD k 0 - 32) *
          ((sampleWideFont.width * sampleWideFont.height + 7) / 8))
          (r * sampleWideFont.width + j)) ∧
    (∀ x' y', x' < 240 → y' < 128 →
      ¬ (3 ≤ x' ∧ x' < 3 + [72, 105].length * sampleWideFont.width ∧ 1 ≤ y' ∧
          y' < 1 + sampleWideFont.height) →
      pixel 240 (drawTextVertical_wide byteArray 240 3 1 [72, 105] sampleWideFont
          (onDevice false (fun _ => 0x5A) 0 0 false [])).dev.mem x' y' =
        pixel 240 (onDevice false (fun _ => 0x5A) 0 0 false []).dev.mem x' y')) :=
  ⟨by decide, drawTextVertical_wide_correct 240 128 3 1 [72, 105] sampleWideFont
    (onDevice false (fun _ => 0x5A) 0 0 false []) (by decide) (by decide) (by decide)
    (by decide) (by decide) (by decide) (by decide) (by decide)⟩

/-! ### The hardcoded variant against the generic class -/

theorem hc_write (T : Transport σ) (reg : register_t) (v : Nat) (d : Display σ) :
    LC7981_240x128.write T reg v d = write T reg v d := rfl

theorem hc_read (T : Transport σ) (reg : register_t) (d : Display σ) :
    LC7981_240x128.read T reg d = read T reg d := rfl

theorem hc_setCursorAddress (T : Transport σ) (a : Nat) (d : Display σ) :
    LC7981_240x128.setCursorAddress T a d = setCursorAddress T a d := rfl

theorem hc_writeStart (T : Transport σ) (d : Display σ) :
    LC7981_240x128.writeStart T d = writeStart T d := rfl

theorem hc_writeNextByte (T : Transport σ) (v : Nat) (d : Display σ) :
    LC7981_240x128.writeNextByte T v d = writeNextByte T v d := rfl

theorem hc_writeSingleByte (T : Transport σ) (v : Nat) (d : Display σ) :
    LC7981_240x128.writeSingleByte T v d = writeSingleByte T v d := rfl

theorem hc_readStart (T : Transport σ) (d : Display σ) :
    LC7981_240x128.readStart T d = readStart T d := rfl

theorem hc_readNextByte (T : Transport σ) (d : Display σ) :
    LC7981_240x128.readNextByte T d = readNextByte T d := rfl

theorem hc_readSingleByte (T : Transport σ) (d : Display σ) :
    LC7981_240x128.readSingleByte T d = readSingleByte T d := rfl

theorem hc_setDataBit (T : Transport σ) (w : Nat) (d : Display σ) :
    LC7981_240x128.setDataBit T w d = setDataBit T w d := rfl

theorem hc_clearDataBit (T : Transport σ) (w : Nat) (d : Display σ) :
    LC7981_240x128.clearDataBit T w d = clearDataBit T w d := rfl

theorem hc_setDataBitColor (T : Transport σ) (w : Nat) (b : Bool) (d : Display σ) :
    LC7981_240x128.setDataBitColor T w b d = setDataBitColor T w b d := rfl

theorem hc_setDisplayDuty (T : Transport σ) (v : Nat) (d : Display σ) :
    LC7981_240x128.setDisplayDuty T v d = setDisplayDuty T v d := rfl

theorem hc_initGraphicMode (T : Transport σ) (d : Display σ) :
    LC7981_240x128.initGraphicMode T d = initGraphicMode T 240 d := rfl

theorem hc_setPixel (T : Transport σ) (x y : Nat) (d : Display σ) :
    LC7981_240x128.setPixel T x y d = setPixel T 240 x y d := rfl

theorem hc_clearPixel (T : Transport σ) (x y : Nat) (d : Display σ) :
    LC7981_240x128.clearPixel T x y d = clearPixel T 240 x y d := rfl

theorem hc_setPixelColor (T : Transport σ) (x y : Nat) (b : Bool) (d : Display σ) :
    LC7981_240x128.setPixelColor T x y b d = setPixelColor T 240 x y b d := rfl

theorem hc_maskLoop : ∀ (n m : Nat), LC7981_240x128.maskLoop n m = maskLoop n m := by
  intro n
  induction n with
  | zero => intro m; rfl
  | succ n ih => intro m; simp only [LC7981_240x128.maskLoop, maskLoop, ih]

theorem hc_writeFullBytes (T : Transport σ) (p : Nat) : ∀ (fuel rem : Nat) (d : Display σ),
    LC7981_240x128.writeFullBytes T p fuel rem d = writeFullBytes T p fuel rem d := by
  intro fuel
  induction fuel with
  | zero => intro rem d; rfl
  | succ f ih =>
    intro rem d
    simp only [LC7981_240x128.writeFullBytes, writeFullBytes, ih, hc_writeNextByte]

theorem hc_drawHorizontalLine (T : Transport σ) (x y len p : Nat) (d : Display σ) :
    LC7981_240x128.drawHorizontalLine T x y len p d = drawHorizontalLine T 240 x y len p d := by
  simp only [LC7981_240x128.drawHorizontalLine, drawHorizontalLine, hc_maskLoop,
    hc_writeFullBytes, hc_setCursorAddress, hc_readSingleByte, hc_writeStart,
    hc_writeNextByte, hc_writeSingleByte]

theorem hc_drawBlackHorizontalLine (T : Transport σ) (x y len : Nat) (d : Display σ) :
    LC7981_240x128.drawBlackHorizontalLine T x y len d =
      drawBlackHorizontalLine T 240 x y len d :=
  hc_drawHorizontalLine T x y len _ d

theorem hc_drawWhiteHorizontalLine (T : Transport σ) (x y len : Nat) (d : Display σ) :
    LC7981_240x128.drawWhiteHorizontalLine T x y len d =
      drawWhiteHorizontalLine T 240 x y len d :=
  hc_drawHorizontalLine T x y len _ d

theorem hc_clearRowLoop (T : Transport σ) (p : Nat) : ∀ (fuel x : Nat) (d : Display σ),
    LC7981_240x128.clearRowLoop T p fuel x d = clearRowLoop T 240 p fuel x d := by
  intro fuel
  induction fuel with
  | zero => intro x d; rfl
  | succ f ih =>
    intro x d
    simp only [LC7981_240x128.clearRowLoop, clearRowLoop, ih, hc_writeNextByte]

theorem hc_clearLoop (T : Transport σ) (p : Nat) : ∀ (fuel y : Nat) (d : Display σ),
    LC7981_240x128.clearLoop T p fuel y d = clearLoop T 240 128 p fuel y d := by
  intro fuel
  induction fuel with
  | zero => intro y d; rfl
  | succ f ih =>
    intro y d
    simp only [LC7981_240x128.clearLoop, clearLoop, ih, hc_clearRowLoop]

theorem hc_clear (T : Transport σ) (p fuel : Nat) (d : Display σ) :
    LC7981_240x128.clear T p fuel d = clear T 240 128 p fuel d := by
  simp only [LC7981_240x128.clear, clear, hc_clearLoop, hc_writeStart, hc_setCursorAddress]

theorem hc_clearGrayLoop (T : Transport σ) : ∀ (fuel y : Nat) (d : Display σ),
    LC7981_240x128.clearGrayLoop T fuel y d = clearGrayLoop T 240 128 fuel y d := by
  intro fuel
  induction fuel with
  | zero => intro y d; rfl
  | succ f ih =>
    intro y d
    simp only [LC7981_240x128.clearGrayLoop, clearGrayLoop, ih, hc_clearRowLoop]

theorem hc_clearGray (T : Transport σ) (fuel : Nat) (d : Display σ) :
    LC7981_240x128.clearGray T fuel d = clearGray T 240 128 fuel d := by
  simp only [LC7981_240x128.clearGray, clearGray, hc_clearGrayLoop, hc_writeStart,
    hc_setCursorAddress]

theorem hc_blackVerticalLoop (T : Transport σ) (x y len : Nat) :
    ∀ (fuel i : Nat) (d : Display σ),
      LC7981_240x128.blackVerticalLoop T x y len fuel i d =
        blackVerticalLoop T 240 x y len fuel i d := by
  intro fuel
  induction fuel with
  | zero => intro i d; rfl
  | succ f ih =>
    intro i d
    simp only [LC7981_240x128.blackVerticalLoop, blackVerticalLoop, ih, hc_setDataBit,
      hc_setCursorAddress]

theorem hc_whiteVerticalLoop (T : Transport σ) (x y len : Nat) :
    ∀ (fuel i : Nat) (d : Display σ),
      LC7981_240x128.whiteVerticalLoop T x y len fuel i d =
        whiteVerticalLoop T 240 x y len fuel i d := by
  intro fuel
  induction fuel with
  | zero => intro i d; rfl
  | succ f ih =>
    intro i d
    simp only [LC7981_240x128.whiteVerticalLoop, whiteVerticalLoop, ih, hc_clearDataBit,
      hc_setCursorAddress]

theorem hc_drawBlackVerticalLine (T : Transport σ) (x y len fuel : Nat) (d : Display σ) :
    LC7981_240x128.drawBlackVerticalLine T x y len fuel d =
      drawBlackVerticalLine T 240 x y len fuel d :=
  hc_blackVerticalLoop T x y len fuel y d

theorem hc_drawWhiteVerticalLine (T : Transport σ) (x y len fuel : Nat) (d : Display σ) :
    LC7981_240x128.drawWhiteVerticalLine T x y len fuel d =
      drawWhiteVerticalLine T 240 x y len fuel d :=
  hc_whiteVerticalLoop T x y len fuel y d

theorem hc_bresenhamUp (T : Transport σ) (x1 y1 dx dy : Nat) (b : Bool) :
    ∀ (fuel x0 y0 : Nat) (err : Int) (d : Display σ),
      LC7981_240x128.bresenhamUp T x1 y1 dx dy b fuel x0 y0 err d =
        bresenhamUp T 240 x1 y1 dx dy b fuel x0 y0 err d := by
  intro fuel
  induction fuel with
  | zero => intro x0 y0 err d; rfl
  | succ f ih =>
    intro x0 y0 err d
    simp only [LC7981_240x128.bresenhamUp, bresenhamUp, ih, hc_setPixelColor]

theorem hc_bresenhamDown (T : Transport σ) (x1 y1 dx dy : Nat) (b : Bool) :
    ∀ (fuel x0 y0 : Nat) (err : Int) (d : Display σ),
      LC7981_240x128.bresenhamDown T x1 y1 dx dy b fuel x0 y0 err d =
        bresenhamDown T 240 x1 y1 dx dy b fuel x0 y0 err d := by
  intro fuel
  induction fuel with
  | zero => intro x0 y0 err d; rfl
  | succ f ih =>
    intro x0 y0 err d
    simp only [LC7981_240x128.bresenhamDown, bresenhamDown, ih, hc_setPixelColor]

theorem hc_drawLine (T : Transport σ) (b : Bool) :
    ∀ (fuel x0 y0 x1 y1 : Nat) (d : Display σ),
      LC7981_240x128.drawLine T x0 y0 x1 y1 b fuel d = drawLine T 240 x0 y0 x1 y1 b fuel d := by
  intro fuel
  induction fuel with
  | zero => intro x0 y0 x1 y1 d; rfl
  | succ f ih =>
    intro x0 y0 x1 y1 d
    simp only [LC7981_240x128.drawLine, drawLine, ih, hc_drawHorizontalLine,
      hc_drawBlackVerticalLine, hc_drawWhiteVerticalLine, hc_bresenhamUp, hc_bresenhamDown]

theorem hc_drawBlackRectangle (T : Transport σ) (x y w h fuel : Nat) (d : Display σ) :
    LC7981_240x128.drawBlackRectangle T x y w h fuel d =
      drawBlackRectangle T 240 x y w h fuel d := by
  simp only [LC7981_240x128.drawBlackRectangle, drawBlackRectangle,
    hc_drawBlackHorizontalLine, hc_drawBlackVerticalLine]

theorem hc_drawWhiteRectangle (T : Transport σ) (x y w h fuel : Nat) (d : Display σ) :
    LC7981_240x128.drawWhiteRectangle T x y w h fuel d =
      drawWhiteRectangle T 240 x y w h fuel d := by
  simp only [LC7981_240x128.drawWhiteRectangle, drawWhiteRectangle,
    hc_drawWhiteHorizontalLine, hc_drawWhiteVerticalLine]

theorem hc_blackFillLoop (T : Transport σ) (x y w h : Nat) :
    ∀ (fuel i : Nat) (d : Display σ),
      LC7981_240x128.blackFillLoop T x y w h fuel i d =
        blackFillLoop T 240 x y w h fuel i d := by
  intro fuel
  induction fuel with
  | zero => intro i d; rfl
  | succ f ih =>
    intro i d
    simp only [LC7981_240x128.blackFillLoop, blackFillLoop, ih, hc_drawBlackHorizontalLine]

theorem hc_whiteFillLoop (T : Transport σ) (x y w h : Nat) :
    ∀ (fuel i : Nat) (d : Display σ),
      LC7981_240x128.whiteFillLoop T x y w h fuel i d =
        whiteFillLoop T 240 x y w h fuel i d := by
  intro fuel
  induction fuel with
  | zero => intro i d; rfl
  | succ f ih =>
    intro i d
    simp only [LC7981_240x128.whiteFillLoop, whiteFillLoop, ih, hc_drawWhiteHorizontalLine]

theorem hc_patternFillLoop (T : Transport σ) (x w : Nat) (pattern : List Nat)
    (mask limit : Nat) : ∀ (fuel i : Nat) (d : Display σ),
      LC7981_240x128.patternFillLoop T x w pattern mask limit fuel i d =
        patternFillLoop T 240 x w pattern mask limit fuel i d := by
  intro fuel
  induction fuel with
  | zero => intro i d; rfl
  | succ f ih =>
    intro i d
    simp only [LC7981_240x128.patternFillLoop, patternFillLoop, ih, hc_drawHorizontalLine]

theorem hc_drawPatternFill (T : Transport σ) (x y w h : Nat) (pattern : List Nat)
    (fuel : Nat) (d : Display σ) :
    LC7981_240x128.drawPatternFill T x y w h pattern fuel d =
      drawPatternFill T 240 x y w h pattern fuel d := by
  simp only [LC7981_240x128.drawPatternFill, drawPatternFill, hc_patternFillLoop]

/-- C20: every operation of the hardcoded `LC7981_240x128::DisplayBase` returns, for every
transport, every argument tuple, every initial display state and every amount of fuel, the
same result as the operation of the generic `LC7981::DisplayBase` with width 240 and
height 128: the same display object, hence the same transaction log, and `none` (no return)
exactly when the generic operation does not return. -/
theorem hardcoded_eq_generic (T : Transport σ) (d : Display σ) :
    LC7981_240x128.initGraphicMode T d = initGraphicMode T 240 d ∧
    (∀ a, LC7981_240x128.setCursorAddress T a d = setCursorAddress T a d) ∧
    LC7981_240x128.writeStart T d = writeStart T d ∧
    (∀ v, LC7981_240x128.writeNextByte T v d = writeNextByte T v d) ∧
    (∀ v, LC7981_240x128.writeSingleByte T v d = writeSingleByte T v d) ∧
    LC7981_240x128.readStart T d = readStart T d ∧
    LC7981_240x128.readNextByte T d = readNextByte T d ∧
    LC7981_240x128.readSingleByte T d = readSingleByte T d ∧
    (∀ w, LC7981_240x128.setDataBit T w d = setDataBit T w d) ∧
    (∀ w, LC7981_240x128.clearDataBit T w d = clearDataBit T w d) ∧
    (∀ w b, LC7981_240x128.setDataBitColor T w b d = setDataBitColor T w b d) ∧
    (∀ v, LC7981_240x128.setDisplayDuty T v d = setDisplayDuty T v d) ∧
    (∀ p fuel, LC7981_240x128.clear T p fuel d = clear T 240 128 p fuel d) ∧
    (∀ fuel, LC7981_240x128.clearWhite T fuel d = clearWhite T 240 128 fuel d) ∧
    (∀ fuel, LC7981_240x128.clearBlack T fuel d = clearBlack T 240 128 fuel d) ∧
    (∀ fuel, LC7981_240x128.clearGray T fuel d = clearGray T 240 128 fuel d) ∧
    (∀ x y, LC7981_240x128.setPixel T x y d = setPixel T 240 x y d) ∧
    (∀ x y, LC7981_240x128.clearPixel T x y d = clearPixel T 240 x y d) ∧
    (∀ x y b, LC7981_240x128.setPixelColor T x y b d = setPixelColor T 240 x y b d) ∧
    (∀ x y len p, LC7981_240x128.drawHorizontalLine T x y len p d =
      drawHorizontalLine T 240 x y len p d) ∧
    (∀ x y len, LC7981_240x128.drawBlackHorizontalLine T x y len d =
      drawBlackHorizontalLine T 240 x y len d) ∧
    (∀ x y len, LC7981_240x128.drawWhiteHorizontalLine T x y len d =
      drawWhiteHorizontalLine T 240 x y len d) ∧
    (∀ x y len fuel, LC7981_240x128.drawBlackVerticalLine T x y len fuel d =
      drawBlackVerticalLine T 240 x y len fuel d) ∧
    (∀ x y len fuel, LC7981_240x128.drawWhiteVerticalLine T x y len fuel d =
      drawWhiteVerticalLine T 240 x y len fuel d) ∧
    (∀ x0 y0 x1 y1 b fuel, LC7981_240x128.drawLine T x0 y0 x1 y1 b fuel d =
      drawLine T 240 x0 y0 x1 y1 b fuel d) ∧
    (∀ x0 y0 x1 y1 fuel, LC7981_240x128.drawBlackLine T x0 y0 x1 y1 fuel d =
      drawBlackLine T 240 x0 y0 x1 y1 fuel d) ∧
    (∀ x0 y0 x1 y1 fuel, LC7981_240x128.drawWhiteLine T x0 y0 x1 y1 fuel d =
      drawWhiteLine T 240 x0 y0 x1 y1 fuel d) ∧
    (∀ x y w h fuel, LC7981_240x128.drawBlackRectangle T x y w h fuel d =
      drawBlackRectangle T 240 x y w h fuel d) ∧
    (∀ x y w h fuel, LC7981_240x128.drawWhiteRectangle T x y w h fuel d =
      drawWhiteRectangle T 240 x y w h fuel d) ∧
    (∀ x y w h fuel, LC7981_240x128.drawBlackFill T x y w h fuel d =
      drawBlackFill T 240 x y w h fuel d) ∧
    (∀ x y w h fuel, LC7981_240x128.drawWhiteFill T x y w h fuel d =
      drawWhiteFill T 240 x y w h fuel d) ∧
    (∀ x y w h fuel, LC7981_240x128.drawGrayFill T x y w h fuel d =
      drawGrayFill T 240 x y w h fuel d) ∧
    (∀ x y w h pattern fuel, LC7981_240x128.drawPatternFill T x y w h pattern fuel d =
      drawPatternFill T 240 x y w h pattern fuel d) := by
  refine ⟨rfl, fun _ => rfl, rfl, fun _ => rfl, fun _ => rfl, rfl, rfl, rfl, fun _ => rfl,
    fun _ => rfl, fun _ _ => rfl, fun _ => rfl, ?_, ?_, ?_, ?_, fun _ _ => rfl,
    fun _ _ => rfl, fun _ _ _ => rfl, ?_, ?_, ?_, ?_, ?_, ?_, ?_, ?_, ?_, ?_, ?_, ?_, ?_, ?_⟩
  · intro p fuel; exact hc_clear T p fuel d
  · intro fuel; exact hc_clear T 0 fuel d
  · intro fuel; exact hc_clear T 0b11111111 fuel d
  · intro fuel; exact hc_clearGray T fuel d
  · intro x y len p; exact hc_drawHorizontalLine T x y len p d
  · intro x y len; exact hc_drawBlackHorizontalLine T x y len d
  · intro x y len; exact hc_drawWhiteHorizontalLine T x y len d
  · intro x y len fuel; exact hc_drawBlackVerticalLine T x y len fuel d
  · intro x y len fuel; exact hc_drawWhiteVerticalLine T x y len fuel d
  · intro x0 y0 x1 y1 b fuel; exact hc_drawLine T b fuel x0 y0 x1 y1 d
  · intro x0 y0 x1 y1 fuel; exact hc_drawLine T true fuel x0 y0 x1 y1 d
  · intro x0 y0 x1 y1 fuel; exact hc_drawLine T false fuel x0 y0 x1 y1 d
  · intro x y w h fuel; exact hc_drawBlackRectangle T x y w h fuel d
  · intro x y w h fuel; exact hc_drawWhiteRectangle T x y w h fuel d
  · intro x y w h fuel; exact hc_blackFillLoop T x y w h fuel y d
  · intro x y w h fuel; exact hc_whiteFillLoop T x y w h fuel y d
  · intro x y w h fuel; exact hc_drawPatternFill T x y w h _ fuel d
  · intro x y w h pattern fuel; exact hc_drawPatternFill T x y w h pattern fuel d

/-! ### Pixels -/

theorem setCursorAddress_trace_eq (T : Transport σ) (A : Nat) (d : Display σ)
    (hA : A < 65536) :
    (setCursorAddress T A d).trace = d.trace ++
        [Event.write register_t.Command 0b1010, Event.write register_t.Data (A % 256),
         Event.write register_t.Command 0b1011, Event.write register_t.Data (A / 256)] := by
  have h1 : A % 65536 = A := Nat.mod_eq_of_lt hA
  have h2 : A / 256 < 256 := by omega
  have h3 : (A >>> 8) % 256 = A / 256 := by
    rw [shiftRight_8]; exact Nat.mod_eq_of_lt h2
  have h4 : (A &&& 0xff) % 256 = A % 256 := by
    rw [and_255]; omega
  simp [setCursorAddress, write, h1, h3, h4]

/-- C11: for 8-bit `x`, `y` and width, the address `(W/8)*y + x/8` fits a signed 16-bit
`int`; `setPixel(x, y)` writes that address to the cursor registers and then issues the
set-bit command `0b1111` with bit index `x mod 8`, `clearPixel(x, y)` does the same with the
clear-bit command `0b1110`, and `setPixel(x, y, black)` is `setPixel(x, y)` for `black = true`
and `clearPixel(x, y)` for `black = false`. -/
theorem setPixel_clearPixel_trace (T : Transport σ) (W x y : Nat) (d : Display σ)
    (hW : W < 256) (hx : x < 256) (hy : y < 256) :
    W / 8 * y + x / 8 < 32768 ∧
    (setPixel T W x y d).trace = d.trace ++
        [Event.write register_t.Command 0b1010,
         Event.write register_t.Data ((W / 8 * y + x / 8) % 256),
         Event.write register_t.Command 0b1011,
         Event.write register_t.Data ((W / 8 * y + x / 8) / 256),
         Event.write register_t.Command 0b1111, Event.write register_t.Data (x % 8)] ∧
    (clearPixel T W x y d).trace = d.trace ++
        [Event.write register_t.Command 0b1010,
         Event.write register_t.Data ((W / 8 * y + x / 8) % 256),
         Event.write register_t.Command 0b1011,
         Event.write register_t.Data ((W / 8 * y + x / 8) / 256),
         Event.write register_t.Command 0b1110, Event.write register_t.Data (x % 8)] ∧
    setPixel T W x y d = setDataBit T (x % 8) (setCursorAddress T (W / 8 * y + x / 8) d) ∧
    clearPixel T W x y d = clearDataBit T (x % 8) (setCursorAddress T (W / 8 * y + x / 8) d) ∧
    setPixelColor T W x y true d = setPixel T W x y d ∧
    setPixelColor T W x y false d = clearPixel T W x y d := by
  have hR : W / 8 * y ≤ 31 * 255 := Nat.mul_le_mul (by omega) (by omega)
  have hA : W / 8 * y + x / 8 < 65536 := by omega
  have h8 : x % 8 % 256 = x % 8 := by omega
  refine ⟨by omega, ?_, ?_, rfl, rfl, rfl, rfl⟩
  · simp only [setPixel, setDataBit, write_trace, setCursorAddress_trace_eq T _ d hA, h8]
    simp
  · simp only [clearPixel, clearDataBit, write_trace, setCursorAddress_trace_eq T _ d hA, h8]
    simp

/-- The statement of `setPixel_clearPixel_trace` for the pixel `(13, 2)` of a width-240
display. -/
theorem setPixel_clearPixel_trace_witness :
    (240 < 256 ∧ 13 < 256 ∧ 2 < 256) ∧
    (240 / 8 * 2 + 13 / 8 < 32768 ∧
    (setPixel byteArray 240 13 2 (onDevice false (fun _ => 0) 0 0 false [])).trace =
      (onDevice false (fun _ => 0) 0 0 false []).trace ++
        [Event.write register_t.Command 0b1010,
         Event.write register_t.Data ((240 / 8 * 2 + 13 / 8) % 256),
         Event.write register_t.Command 0b1011,
         Event.write register_t.Data ((240 / 8 * 2 + 13 / 8) / 256),
         Event.write register_t.Command 0b1111, Event.write register_t.Data (13 % 8)] ∧
    (clearPixel byteArray 240 13 2 (onDevice false (fun _ => 0) 0 0 false [])).trace =
      (onDevice false (fun _ => 0) 0 0 false []).trace ++
        [Event.write register_t.Command 0b1010,
         Event.write register_t.Data ((240 / 8 * 2 + 13 / 8) % 256),
         Event.write register_t.Command 0b1011,
         Event.write register_t.Data ((240 / 8 * 2 + 13 / 8) / 256),
         Event.write register_t.Command 0b1110, Event.write register_t.Data (13 % 8)] ∧
    setPixel byteArray 240 13 2 (onDevice false (fun _ => 0) 0 0 false []) =
      setDataBit byteArray (13 % 8)
        (setCursorAddress byteArray (240 / 8 * 2 + 13 / 8)
          (onDevice false (fun _ => 0) 0 0 false [])) ∧
    clearPixel byteArray 240 13 2 (onDevice false (fun _ => 0) 0 0 false []) =
      clearDataBit byteArray (13 % 8)
        (setCursorAddress byteArray (240 / 8 * 2 + 13 / 8)
          (onDevice false (fun _ => 0) 0 0 false [])) ∧
    setPixelColor byteArray 240 13 2 true (onDevice false (fun _ => 0) 0 0 false []) =
      setPixel byteArray 240 13 2 (onDevice false (fun _ => 0) 0 0 false []) ∧
    setPixelColor byteArray 240 13 2 false (onDevice false (fun _ => 0) 0 0 false []) =
      clearPixel byteArray 240 13 2 (onDevice false (fun _ => 0) 0 0 false [])) :=
  ⟨by decide, setPixel_clearPixel_trace byteArray 240 13 2
    (onDevice false (fun _ => 0) 0 0 false []) (by decide) (by decide) (by decide)⟩

/-- C19: for a width that is a multiple of 8, a column `x` with `W ≤ x ≤ 255` and a row
`y < 255`, `setPixel(x, y)` is the same call as `setPixel(x - W, y + 1)`: the same address,
the same bit, so the same transactions and the same resulting display object. -/
theorem setPixel_beyond_right_edge (T : Transport σ) (W x y : Nat) (d : Display σ)
    (hW8 : W % 8 = 0) (hWx : W ≤ x) (_hx : x ≤ 255) (_hy : y < 255) :
    W / 8 * y + x / 8 = W / 8 * (y + 1) + (x - W) / 8 ∧ x % 8 = (x - W) % 8 ∧
    setPixel T W x y d = setPixel T W (x - W) (y + 1) d ∧
    (setPixel T W x y d).trace = (setPixel T W (x - W) (y + 1) d).trace := by
  have h1 : W / 8 * (y + 1) = W / 8 * y + W / 8 := Nat.mul_succ _ _
  have hA : W / 8 * y + x / 8 = W / 8 * (y + 1) + (x - W) / 8 := by rw [h1]; omega
  have hB : x % 8 = (x - W) % 8 := by omega
  have hE : setPixel T W x y d = setPixel T W (x - W) (y + 1) d := by
    simp only [setPixel, hA, hB]
  exact ⟨hA, hB, hE, by rw [hE]⟩

/-- The statement of `setPixel_beyond_right_edge` for column 243 of row 4 on a width-240
display. -/
theorem setPixel_beyond_right_edge_witness :
    (240 % 8 = 0 ∧ 240 ≤ 243 ∧ 243 ≤ 255 ∧ 4 < 255) ∧
    (240 / 8 * 4 + 243 / 8 = 240 / 8 * (4 + 1) + (243 - 240) / 8 ∧
      243 % 8 = (243 - 240) % 8 ∧
    setPixel byteArray 240 243 4 (onDevice false (fun _ => 0) 0 0 false []) =
      setPixel byteArray 240 (243 - 240) (4 + 1) (onDevice false (fun _ => 0) 0 0 false []) ∧
    (setPixel byteArray 240 243 4 (onDevice false (fun _ => 0) 0 0 false [])).trace =
      (setPixel byteArray 240 (243 - 240) (4 + 1)
        (onDevice false (fun _ => 0) 0 0 false [])).trace) :=
  ⟨by decide, setPixel_beyond_right_edge byteArray 240 243 4
    (onDevice false (fun _ => 0) 0 0 false []) (by decide) (by decide) (by decide)
    (by decide)⟩

/-! ### Counting loops -/

/-- A loop `for (uint8_t i = ...; i < bound; i++) body(i)` with an `int` bound of at most
255 runs the body for `i, i+1, ..., bound - 1` and exits. -/
theorem forLoop_run (loop : Nat → Nat → Display σ → Option (Display σ)) (bound : Nat)
    (body : Nat → Display σ → Display σ)
    (hloop : ∀ fuel i d, loop (fuel + 1) i d =
      if i < bound then loop fuel ((i + 1) % 256) (body i d) else some d)
    (hb : bound ≤ 255) :
    ∀ (n fuel i : Nat) (d : Display σ), i + n = bound → n < fuel →
      loop fuel i d = some ((List.range' i n).foldl (fun d j => body j d) d) := by
  intro n
  induction n with
  | zero =>
    intro fuel i d hi hf
    obtain ⟨f, rfl⟩ : ∃ f, fuel = f + 1 := ⟨fuel - 1, by omega⟩
    rw [hloop, if_neg (by omega)]
    rfl
  | succ n ih =>
    intro fuel i d hi hf
    obtain ⟨f, rfl⟩ : ∃ f, fuel = f + 1 := ⟨fuel - 1, by omega⟩
    have h1 : (i + 1) % 256 = i + 1 := by omega
    rw [hloop, if_pos (by omega), h1, ih f (i + 1) _ (by omega) (by omega)]
    rfl

/-- A loop `for (uint8_t i = ...; i < bound; i++) body(i)` whose `int` bound is 256 or more
never exits: the 8-bit counter stays below the bound. -/
theorem forLoop_diverges (loop : Nat → Nat → Display σ → Option (Display σ)) (bound : Nat)
    (body : Nat → Display σ → Display σ)
    (hloop0 : ∀ i d, loop 0 i d = none)
    (hloop : ∀ fuel i d, loop (fuel + 1) i d =
      if i < bound then loop fuel ((i + 1) % 256) (body i d) else some d)
    (hb : 256 ≤ bound) :
    ∀ (fuel i : Nat) (d : Display σ), i < 256 → loop fuel i d = none := by
  intro fuel
  induction fuel with
  | zero => intro i d _; exact hloop0 i d
  | succ f ih =>
    intro i d hi
    rw [hloop, if_pos (by omega)]
    exact ih _ _ (Nat.mod_lt _ (by omega))

theorem foldl_range'_eq (body : Nat → Display σ → Display σ) (y n : Nat) (d : Display σ) :
    (List.range' y n).foldl (fun d j => body j d) d =
      (List.range n).foldl (fun d i => body (y + i) d) d := by
  rw [List.range'_eq_map_range, List.foldl_map]

theorem drawBlackVerticalLine_run (T : Transport σ) (W x y len fuel : Nat) (d : Display σ)
    (hb : y + len ≤ 255) (hf : len < fuel) :
    drawBlackVerticalLine T W x y len fuel d =
      some ((List.range len).foldl (fun d i => setPixel T W x (y + i) d) d) := by
  rw [← foldl_range'_eq (fun j d => setPixel T W x j d)]
  exact forLoop_run (blackVerticalLoop T W x y len) (y + len)
    (fun j d => setPixel T W x j d) (fun _ _ _ => rfl) hb len fuel y d rfl hf

theorem drawWhiteVerticalLine_run (T : Transport σ) (W x y len fuel : Nat) (d : Display σ)
    (hb : y + len ≤ 255) (hf : len < fuel) :
    drawWhiteVerticalLine T W x y len fuel d =
      some ((List.range len).foldl (fun d i => clearPixel T W x (y + i) d) d) := by
  rw [← foldl_range'_eq (fun j d => clearPixel T W x j d)]
  exact forLoop_run (whiteVerticalLoop T W x y len) (y + len)
    (fun j d => clearPixel T W x j d) (fun _ _ _ => rfl) hb len fuel y d rfl hf

theorem drawBlackFill_run (T : Transport σ) (W x y w h fuel : Nat) (d : Display σ)
    (hb : y + h ≤ 255) (hf : h < fuel) :
    drawBlackFill T W x y w h fuel d =
      some ((List.range h).foldl (fun d i => drawBlackHorizontalLine T W x (y + i) w d) d) := by
  rw [← foldl_range'_eq (fun j d => drawBlackHorizontalLine T W x j w d)]
  exact forLoop_run (blackFillLoop T W x y w h) (y + h)
    (fun j d => drawBlackHorizontalLine T W x j w d) (fun _ _ _ => rfl) hb h fuel y d rfl hf

theorem drawWhiteFill_run (T : Transport σ) (W x y w h fuel : Nat) (d : Display σ)
    (hb : y + h ≤ 255) (hf : h < fuel) :
    drawWhiteFill T W x y w h fuel d =
      some ((List.range h).foldl (fun d i => drawWhiteHorizontalLine T W x (y + i) w d) d) := by
  rw [← foldl_range'_eq (fun j d => drawWhiteHorizontalLine T W x j w d)]
  exact forLoop_run (whiteFillLoop T W x y w h) (y + h)
    (fun j d => drawWhiteHorizontalLine T W x j w d) (fun _ _ _ => rfl) hb h fuel y d rfl hf

theorem vertical_and_fill_diverge (T : Transport σ) (W x y n w : Nat) (fuel : Nat)
    (d : Display σ) (hy : y < 256) (hb : 256 ≤ y + n) :
    drawBlackVerticalLine T W x y n fuel d = none ∧
    drawWhiteVerticalLine T W x y n fuel d = none ∧
    drawBlackFill T W x y w n fuel d = none ∧
    drawWhiteFill T W x y w n fuel d = none :=
  ⟨forLoop_diverges (blackVerticalLoop T W x y n) (y + n) (fun j d => setPixel T W x j d)
      (fun _ _ => rfl) (fun _ _ _ => rfl) hb fuel y d hy,
   forLoop_diverges (whiteVerticalLoop T W x y n) (y + n) (fun j d => clearPixel T W x j d)
      (fun _ _ => rfl) (fun _ _ _ => rfl) hb fuel y d hy,
   forLoop_diverges (blackFillLoop T W x y w n) (y + n)
      (fun j d => drawBlackHorizontalLine T W x j w d)
      (fun _ _ => rfl) (fun _ _ _ => rfl) hb fuel y d hy,
   forLoop_diverges (whiteFillLoop T W x y w n) (y + n)
      (fun j d => drawWhiteHorizontalLine T W x j w d)
      (fun _ _ => rfl) (fun _ _ _ => rfl) hb fuel y d hy⟩

/-- C18 at a failing input: with `y = 255` and a length (height) of 1, every 8-bit argument
in range of its type, none of `drawBlackVerticalLine`, `drawWhiteVerticalLine`,
`drawBlackFill`, `drawWhiteFill` returns, whatever the fuel: the loop test `i < y + length`
compares the 8-bit counter with the `int` 256 and never fails. -/
theorem vertical_line_and_fill_never_return (T : Transport σ) (fuel : Nat) (d : Display σ) :
    drawBlackVerticalLine T 240 0 255 1 fuel d = none ∧
    drawWhiteVerticalLine T 240 0 255 1 fuel d = none ∧
    drawBlackFill T 240 0 255 8 1 fuel d = none ∧
    drawWhiteFill T 240 0 255 8 1 fuel d = none :=
  vertical_and_fill_diverge T 240 0 255 1 8 fuel d (by decide) (by decide)

/-! ### Pixels of lines, fills and rectangles on the byte-array device -/

theorem drawHorizontalLine_pixel (W x y len pat : Nat) (d : Display Device)
    (hW8 : W % 8 = 0) (hW : W < 256) (hy : y < 256) (hxl : x + len ≤ W)
    (x' y' : Nat) (hx' : x' < W) :
    pixel W (drawHorizontalLine byteArray W x y len pat d).dev.mem x' y' =
      if y' = y ∧ x ≤ x' ∧ x' < x + len then pat.testBit (x' % 8)
      else pixel W d.dev.mem x' y' := by
  unfold pixel
  rw [drawHorizontalLine_mem W x y len pat d hW (by omega) hy (by omega) _ _
    (Nat.mod_lt _ (by omega))]
  by_cases hin : y' = y ∧ x ≤ x' ∧ x' < x + len
  · obtain ⟨e1, e2, e3⟩ := hin
    subst e1
    rw [if_pos (by omega), if_pos ⟨rfl, e2, e3⟩]
  · rw [if_neg hin, if_neg]
    rintro ⟨h1, h2, h3⟩
    apply hin
    have hinj := row_address_inj (W / 8) y' y (x' / 8)
      ((8 * (W / 8 * y' + x' / 8 - W / 8 * y) + x' % 8) / 8) (by omega) (by omega) (by omega)
    omega

theorem testBit_one_shiftLeft (k j : Nat) : (1 <<< k).testBit j = decide (k = j) := by
  rw [Nat.one_shiftLeft, Nat.testBit_two_pow]

theorem setDataBit_dev (k : Nat) (d : Display Device) :
    (setDataBit byteArray k d).dev =
      { mem := store d.dev.mem d.dev.cursor (d.dev.mem d.dev.cursor ||| (1 <<< (k % 256 % 8))),
        cursor := d.dev.cursor + 1, ir := 0b1111, stale := d.dev.stale } := by
  simp [setDataBit, Device.write]

theorem clearDataBit_dev (k : Nat) (d : Display Device) :
    (clearDataBit byteArray k d).dev =
      { mem := store d.dev.mem d.dev.cursor
          (andNot (d.dev.mem d.dev.cursor) (1 <<< (k % 256 % 8))),
        cursor := d.dev.cursor + 1, ir := 0b1110, stale := d.dev.stale } := by
  simp [clearDataBit, Device.write]

theorem setPixel_mem (W x y : Nat) (d : Display Device) (hW : W < 256) (hy : y < 256)
    (hx : x < 256) (a j : Nat) :
    ((setPixel byteArray W x y d).dev.mem a).testBit j =
      if a = W / 8 * y + x / 8 ∧ j = x % 8 then true else (d.dev.mem a).testBit j := by
  have hR : W / 8 * y ≤ 31 * 255 := Nat.mul_le_mul (by omega) (by omega)
  have hA : (W / 8 * y + x / 8) % 65536 = W / 8 * y + x / 8 := by omega
  have h8 : x % 8 % 256 % 8 = x % 8 := by omega
  simp only [setPixel, setDataBit_dev, setCursorAddress_dev, hA, store, h8]
  by_cases ha : a = W / 8 * y + x / 8
  · subst ha
    rw [if_pos rfl, Nat.testBit_or, testBit_one_shiftLeft]
    by_cases hj : j = x % 8
    · subst hj; simp
    · have : ¬ x % 8 = j := fun h => hj h.symm
      simp [hj, this]
  · rw [if_neg ha, if_neg (by intro h; exact ha h.1)]

theorem clearPixel_mem (W x y : Nat) (d : Display Device) (hW : W < 256) (hy : y < 256)
    (hx : x < 256) (a j : Nat) :
    ((clearPixel byteArray W x y d).dev.mem a).testBit j =
      if a = W / 8 * y + x / 8 ∧ j = x % 8 then false else (d.dev.mem a).testBit j := by
  have hR : W / 8 * y ≤ 31 * 255 := Nat.mul_le_mul (by omega) (by omega)
  have hA : (W / 8 * y + x / 8) % 65536 = W / 8 * y + x / 8 := by omega
  have h8 : x % 8 % 256 % 8 = x % 8 := by omega
  simp only [clearPixel, clearDataBit_dev, setCursorAddress_dev, hA, store, h8]
  by_cases ha : a = W / 8 * y + x / 8
  · subst ha
    rw [if_pos rfl, testBit_andNot, testBit_one_shiftLeft]
    by_cases hj : j = x % 8
    · subst hj; simp
    · have : ¬ x % 8 = j := fun h => hj h.symm
      simp [hj, this]
  · rw [if_neg ha, if_neg (by intro h; exact ha h.1)]

theorem setPixel_pixel (W x y : Nat) (d : Display Device) (hW8 : W % 8 = 0) (hW : W < 256)
    (hy : y < 256) (hx : x < W) (x' y' : Nat) (hx' : x' < W) :
    pixel W (setPixel byteArray W x y d).dev.mem x' y' =
      if y' = y ∧ x' = x then true else pixel W d.dev.mem x' y' := by
  unfold pixel
  rw [setPixel_mem W x y d hW hy (by omega)]
  by_cases hin : y' = y ∧ x' = x
  · rw [if_pos hin, if_pos (by rw [hin.1, hin.2]; exact ⟨rfl, rfl⟩)]
  · rw [if_neg hin, if_neg]
    rintro ⟨h1, h2⟩
    apply hin
    have hinj := row_address_inj (W / 8) y' y (x' / 8) (x / 8) (by omega) (by omega) h1
    omega

theorem clearPixel_pixel (W x y : Nat) (d : Display Device) (hW8 : W % 8 = 0) (hW : W < 256)
    (hy : y < 256) (hx : x < W) (x' y' : Nat) (hx' : x' < W) :
    pixel W (clearPixel byteArray W x y d).dev.mem x' y' =
      if y' = y ∧ x' = x then false else pixel W d.dev.mem x' y' := by
  unfold pixel
  rw [clearPixel_mem W x y d hW hy (by omega)]
  by_cases hin : y' = y ∧ x' = x
  · rw [if_pos hin, if_pos (by rw [hin.1, hin.2]; exact ⟨rfl, rfl⟩)]
  · rw [if_neg hin, if_neg]
    rintro ⟨h1, h2⟩
    apply hin
    have hinj := row_address_inj (W / 8) y' y (x' / 8) (x / 8) (by omega) (by omega) h1
    omega

/-- Pixels after a sequence of row operations `body (y + i)`, `i < n`, each of which sets the
pixels `P` of its own row to `val` and leaves the rest. -/
theorem rows_fold_pixel (W : Nat) (body : Nat → Display Device → Display Device)
    (P : Nat → Prop) [DecidablePred P] (val : Nat → Nat → Bool) (x' y' : Nat) (y n : Nat)
    (hbody : ∀ i d, y ≤ i → i < y + n →
      pixel W (body i d).dev.mem x' y' =
        if y' = i ∧ P x' then val x' i else pixel W d.dev.mem x' y') :
    ∀ (k : Nat) (d : Display Device), k ≤ n →
      pixel W ((List.range k).foldl (fun d i => body (y + i) d) d).dev.mem x' y' =
        if y ≤ y' ∧ y' < y + k ∧ P x' then val x' y' else pixel W d.dev.mem x' y' := by
  intro k
  induction k with
  | zero =>
    intro d _
    rw [if_neg (by omega)]
    rfl
  | succ k ih =>
    intro d hk
    rw [List.range_succ, List.foldl_append]
    simp only [List.foldl_cons, List.foldl_nil]
    rw [hbody _ _ (by omega) (by omega), ih d (by omega)]
    by_cases h1 : y' = y + k ∧ P x'
    · rw [if_pos h1, if_pos ⟨by omega, by omega, h1.2⟩, h1.1]
    · rw [if_neg h1]
      by_cases h2 : y ≤ y' ∧ y' < y + k ∧ P x'
      · rw [if_pos h2, if_pos ⟨h2.1, by omega, h2.2.2⟩]
      · rw [if_neg h2, if_neg]
        rintro ⟨h3, h4, h5⟩
        by_cases h6 : y' = y + k
        · exact h1 ⟨h6, h5⟩
        · exact h2 ⟨h3, by omega, h5⟩

/-! ### Vertical lines -/

/-- The log of a row-by-row fold is the concatenation of the logs of its bodies. -/
theorem rows_fold_trace (body : Nat → Display σ → Display σ) (ev : Nat → List Event)
    (hbody : ∀ i d, (body i d).trace = d.trace ++ ev i) :
    ∀ (k : Nat) (d : Display σ),
      ((List.range k).foldl (fun d i => body i d) d).trace =
        d.trace ++ (List.range k).flatMap ev := by
  intro k
  induction k with
  | zero => intro d; simp
  | succ k ih =>
    intro d
    rw [List.range_succ, List.foldl_append, List.flatMap_append]
    simp only [List.foldl_cons, List.foldl_nil, List.flatMap_cons, List.flatMap_nil,
      List.append_nil]
    rw [hbody, ih, List.append_assoc]

theorem drawBlackVerticalLine_pixel (W x y len fuel : Nat) (m : Display Device)
    (hW8 : W % 8 = 0) (hW : W < 256) (hx : x < W) (hyl : y + len ≤ 255) (hf : len < fuel) :
    ∃ r, drawBlackVerticalLine byteArray W x y len fuel m = some r ∧
      ∀ x' y', x' < W → pixel W r.dev.mem x' y' =
        if x' = x ∧ y ≤ y' ∧ y' < y + len then true else pixel W m.dev.mem x' y' := by
  refine ⟨_, drawBlackVerticalLine_run byteArray W x y len fuel m hyl hf, ?_⟩
  intro x' y' hx'
  rw [rows_fold_pixel W (fun i d => setPixel byteArray W x i d) (fun c => c = x)
    (fun _ _ => true) x' y' y len
    (fun i d h1 h2 => by
      rw [setPixel_pixel W x i d hW8 hW (by omega) hx x' y' hx']) len m (le_refl _)]
  by_cases h : x' = x ∧ y ≤ y' ∧ y' < y + len
  · rw [if_pos h, if_pos ⟨h.2.1, h.2.2, h.1⟩]
  · rw [if_neg h, if_neg (fun h' => h ⟨h'.2.2, h'.1, h'.2.1⟩)]

theorem drawWhiteVerticalLine_pixel (W x y len fuel : Nat) (m : Display Device)
    (hW8 : W % 8 = 0) (hW : W < 256) (hx : x < W) (hyl : y + len ≤ 255) (hf : len < fuel) :
    ∃ r, drawWhiteVerticalLine byteArray W x y len fuel m = some r ∧
      ∀ x' y', x' < W → pixel W r.dev.mem x' y' =
        if x' = x ∧ y ≤ y' ∧ y' < y + len then false else pixel W m.dev.mem x' y' := by
  refine ⟨_, drawWhiteVerticalLine_run byteArray W x y len fuel m hyl hf, ?_⟩
  intro x' y' hx'
  rw [rows_fold_pixel W (fun i d => clearPixel byteArray W x i d) (fun c => c = x)
    (fun _ _ => false) x' y' y len
    (fun i d h1 h2 => by
      rw [clearPixel_pixel W x i d hW8 hW (by omega) hx x' y' hx']) len m (le_refl _)]
  by_cases h : x' = x ∧ y ≤ y' ∧ y' < y + len
  · rw [if_pos h, if_pos ⟨h.2.1, h.2.2, h.1⟩]
  · rw [if_neg h, if_neg (fun h' => h ⟨h'.2.2, h'.1, h'.2.1⟩)]

/-- C16: for `x < W` and `y + length <= H` (8-bit surface sizes, `W` a multiple of 8),
`drawBlackVerticalLine(x, y, length)` returns, having performed for `i = 0, ..., length - 1`
in order `setCursorAddress((W/8)*(y+i) + x/8)` followed by the set-bit command with bit
`x mod 8`: its log grows by exactly `length` pixel transactions, and on the byte-array
device exactly the pixels `(x, y), ..., (x, y+length-1)` become set, every other pixel
keeping its value. `drawWhiteVerticalLine` does the same with the clear-bit command and
cleared pixels. -/
theorem verticalLine_correct (T : Transport σ) (W H x y len fuel : Nat) (d : Display σ)
    (m : Display Device) (hW8 : W % 8 = 0) (hW : W < 256) (hH : H < 256) (hx : x < W)
    (hyl : y + len ≤ H) (hf : len < fuel) :
    (drawBlackVerticalLine T W x y len fuel d =
      some ((List.range len).foldl (fun d i =>
        setDataBit T (x % 8) (setCursorAddress T (W / 8 * (y + i) + x / 8) d)) d)) ∧
    (drawWhiteVerticalLine T W x y len fuel d =
      some ((List.range len).foldl (fun d i =>
        clearDataBit T (x % 8) (setCursorAddress T (W / 8 * (y + i) + x / 8) d)) d)) ∧
    ((drawBlackVerticalLine T W x y len fuel d).map Display.trace =
      some (d.trace ++ (List.range len).flatMap (fun i =>
        [Event.write register_t.Command 0b1010,
         Event.write register_t.Data ((W / 8 * (y + i) + x / 8) % 256),
         Event.write register_t.Command 0b1011,
         Event.write register_t.Data ((W / 8 * (y + i) + x / 8) / 256),
         Event.write register_t.Command 0b1111,
         Event.write register_t.Data (x % 8)]))) ∧
    ((drawWhiteVerticalLine T W x y len fuel d).map Display.trace =
      some (d.trace ++ (List.range len).flatMap (fun i =>
        [Event.write register_t.Command 0b1010,
         Event.write register_t.Data ((W / 8 * (y + i) + x / 8) % 256),
         Event.write register_t.Command 0b1011,
         Event.write register_t.Data ((W / 8 * (y + i) + x / 8) / 256),
         Event.write register_t.Command 0b1110,
         Event.write register_t.Data (x % 8)]))) ∧
    (∃ r, drawBlackVerticalLine byteArray W x y len fuel m = some r ∧
      ∀ x' y', x' < W → pixel W r.dev.mem x' y' =
        if x' = x ∧ y ≤ y' ∧ y' < y + len then true else pixel W m.dev.mem x' y') ∧
    (∃ r, drawWhiteVerticalLine byteArray W x y len fuel m = some r ∧
      ∀ x' y', x' < W → pixel W r.dev.mem x' y' =
        if x' = x ∧ y ≤ y' ∧ y' < y + len then false else pixel W m.dev.mem x' y') := by
  have hev : ∀ (black : Bool) (i : Nat), i < len →
      setPixelEvents W black (x, y + i) =
        [Event.write register_t.Command 0b1010,
         Event.write register_t.Data ((W / 8 * (y + i) + x / 8) % 256),
         Event.write register_t.Command 0b1011,
         Event.write register_t.Data ((W / 8 * (y + i) + x / 8) / 256),
         Event.write register_t.Command (if black then 0b1111 else 0b1110),
         Event.write register_t.Data (x % 8)] := by
    intro black i hi
    have hR : W / 8 * (y + i) ≤ 31 * 255 := Nat.mul_le_mul (by omega) (by omega)
    have hA : (W / 8 * (y + i) + x / 8) % 65536 = W / 8 * (y + i) + x / 8 := by omega
    simp only [setPixelEvents, hA]
  have hflat : ∀ (black : Bool),
      (List.range len).flatMap (fun i => setPixelEvents W black (x, y + i)) =
        (List.range len).flatMap (fun i =>
          [Event.write register_t.Command 0b1010,
           Event.write register_t.Data ((W / 8 * (y + i) + x / 8) % 256),
           Event.write register_t.Command 0b1011,
           Event.write register_t.Data ((W / 8 * (y + i) + x / 8) / 256),
           Event.write register_t.Command (if black then 0b1111 else 0b1110),
           Event.write register_t.Data (x % 8)]) := by
    intro black
    unfold List.flatMap
    congr 1
    apply List.map_congr_left
    intro i hi
    exact hev black i (List.mem_range.mp hi)
  refine ⟨drawBlackVerticalLine_run T W x y len fuel d (by omega) hf,
    drawWhiteVerticalLine_run T W x y len fuel d (by omega) hf, ?_, ?_, ?_, ?_⟩
  · rw [drawBlackVerticalLine_run T W x y len fuel d (by omega) hf, Option.map_some']
    rw [rows_fold_trace (fun i d => setPixel T W x (y + i) d)
      (fun i => setPixelEvents W true (x, y + i))
      (fun i d => setPixelColor_trace T W x (y + i) true d), hflat true]
    rfl
  · rw [drawWhiteVerticalLine_run T W x y len fuel d (by omega) hf, Option.map_some']
    rw [rows_fold_trace (fun i d => clearPixel T W x (y + i) d)
      (fun i => setPixelEvents W false (x, y + i))
      (fun i d => setPixelColor_trace T W x (y + i) false d), hflat false]
    rfl
  · exact drawBlackVerticalLine_pixel W x y len fuel m hW8 hW hx (by omega) hf
  · exact drawWhiteVerticalLine_pixel W x y len fuel m hW8 hW hx (by omega) hf

theorem verticalLine_correct_witness :
    (240 % 8 = 0 ∧ 240 < 256 ∧ 128 < 256 ∧ 13 < 240 ∧ 2 + 3 ≤ 128 ∧ 3 < 4) ∧
    ∃ r, drawBlackVerticalLine byteArray 240 13 2 3 4
        (onDevice false (fun _ => 0) 0 0 false []) = some r ∧
      ∀ x' y', x' < 240 → pixel 240 r.dev.mem x' y' =
        if x' = 13 ∧ 2 ≤ y' ∧ y' < 2 + 3 then true
        else pixel 240 (onDevice false (fun _ => 0) 0 0 false []).dev.mem x' y' :=
  ⟨by decide, (verticalLine_correct byteArray 240 128 13 2 3 4
    (onDevice false (fun _ => 0) 0 0 false []) (onDevice false (fun _ => 0) 0 0 false [])
    (by decide) (by decide) (by decide) (by decide) (by decide) (by decide)).2.2.2.2.1⟩

/-! ### Filled rectangles -/

theorem testBit_ff (j : Nat) (hj : j < 8) : (0b11111111 : Nat).testBit j = true := by
  have h := Nat.testBit_two_pow_sub_one 8 j
  simpa [hj] using h

/-- C14: on the byte-array device, for `x + w <= W` and `y + h <= H` (8-bit surface
sizes, `W` a multiple of 8), `drawBlackFill(x, y, w, h)` returns, having made one
`drawBlackHorizontalLine(x, y + i, w)` call per row `i = 0, ..., h - 1` in order; afterwards
every pixel of `[x, x+w) x [y, y+h)` is black and every other pixel has its old value.
`drawWhiteFill` does the same with `drawWhiteHorizontalLine` and white. -/
theorem fill_correct (W H x y w h fuel : Nat) (d : Display Device)
    (hW8 : W % 8 = 0) (hW : W < 256) (hH : H < 256) (hxw : x + w ≤ W) (hyh : y + h ≤ H)
    (hf : h < fuel) :
    (∃ r, drawBlackFill byteArray W x y w h fuel d = some r ∧
      r = (List.range h).foldl
        (fun d i => drawBlackHorizontalLine byteArray W x (y + i) w d) d ∧
      ∀ x' y', x' < W → pixel W r.dev.mem x' y' =
        if x ≤ x' ∧ x' < x + w ∧ y ≤ y' ∧ y' < y + h then true
        else pixel W d.dev.mem x' y') ∧
    (∃ r, drawWhiteFill byteArray W x y w h fuel d = some r ∧
      r = (List.range h).foldl
        (fun d i => drawWhiteHorizontalLine byteArray W x (y + i) w d) d ∧
      ∀ x' y', x' < W → pixel W r.dev.mem x' y' =
        if x ≤ x' ∧ x' < x + w ∧ y ≤ y' ∧ y' < y + h then false
        else pixel W d.dev.mem x' y') := by
  constructor
  · refine ⟨_, drawBlackFill_run byteArray W x y w h fuel d (by omega) hf, rfl, ?_⟩
    intro x' y' hx'
    rw [rows_fold_pixel W (fun i d => drawBlackHorizontalLine byteArray W x i w d)
      (fun c => x ≤ c ∧ c < x + w) (fun _ _ => true) x' y' y h
      (fun i d h1 h2 => by
        unfold drawBlackHorizontalLine
        rw [drawHorizontalLine_pixel W x i w _ d hW8 hW (by omega) hxw x' y' hx',
          testBit_ff _ (Nat.mod_lt _ (by omega))]) h d (le_refl _)]
    by_cases hc : x ≤ x' ∧ x' < x + w ∧ y ≤ y' ∧ y' < y + h
    · rw [if_pos hc, if_pos ⟨hc.2.2.1, hc.2.2.2, hc.1, hc.2.1⟩]
    · rw [if_neg hc, if_neg (fun h' => hc ⟨h'.2.2.1, h'.2.2.2, h'.1, h'.2.1⟩)]
  · refine ⟨_, drawWhiteFill_run byteArray W x y w h fuel d (by omega) hf, rfl, ?_⟩
    intro x' y' hx'
    rw [rows_fold_pixel W (fun i d => drawWhiteHorizontalLine byteArray W x i w d)
      (fun c => x ≤ c ∧ c < x + w) (fun _ _ => false) x' y' y h
      (fun i d h1 h2 => by
        unfold drawWhiteHorizontalLine
        rw [drawHorizontalLine_pixel W x i w _ d hW8 hW (by omega) hxw x' y' hx',
          Nat.zero_testBit]) h d (le_refl _)]
    by_cases hc : x ≤ x' ∧ x' < x + w ∧ y ≤ y' ∧ y' < y + h
    · rw [if_pos hc, if_pos ⟨hc.2.2.1, hc.2.2.2, hc.1, hc.2.1⟩]
    · rw [if_neg hc, if_neg (fun h' => hc ⟨h'.2.2.1, h'.2.2.2, h'.1, h'.2.1⟩)]

theorem fill_correct_witness :
    (240 % 8 = 0 ∧ 240 < 256 ∧ 128 < 256 ∧ 3 + 10 ≤ 240 ∧ 5 + 4 ≤ 128 ∧ 4 < 5) ∧
    ∃ r, drawBlackFill byteArray 240 3 5 10 4 5
        (onDevice false (fun _ => 0) 0 0 false []) = some r ∧
      r = (List.range 4).foldl
        (fun d i => drawBlackHorizontalLine byteArray 240 3 (5 + i) 10 d)
        (onDevice false (fun _ => 0) 0 0 false []) ∧
      ∀ x' y', x' < 240 → pixel 240 r.dev.mem x' y' =
        if 3 ≤ x' ∧ x' < 3 + 10 ∧ 5 ≤ y' ∧ y' < 5 + 4 then true
        else pixel 240 (onDevice false (fun _ => 0) 0 0 false []).dev.mem x' y' :=
  ⟨by decide, (fill_correct 240 128 3 5 10 4 5 (onDevice false (fun _ => 0) 0 0 false [])
    (by decide) (by decide) (by decide) (by decide) (by decide) (by decide)).1⟩

/-! ### Rectangle outlines -/

/-- C15: for `w >= 1`, `h >= 2` and the rectangle inside the surface (8-bit surface sizes,
`W` a multiple of 8), `drawBlackRectangle(x, y, w, h)` returns and is exactly the four
line calls `drawBlackHorizontalLine(x, y, w)`, `drawBlackHorizontalLine(x, y+h-1, w)`,
`drawBlackVerticalLine(x, y+1, h-2)` and `drawBlackVerticalLine(x+w-1, y+1, h-2)` in that
order, on every transport; on the byte-array device it sets exactly the perimeter pixels
of `[x, x+w) x [y, y+h)` and leaves the interior and the exterior unchanged.
`drawWhiteRectangle` does the same with the white line calls and white pixels. -/
theorem rectangle_correct (T : Transport σ) (W H x y w h fuel : Nat) (d : Display σ)
    (m : Display Device) (hW8 : W % 8 = 0) (hW : W < 256) (hH : H < 256)
    (hw : 1 ≤ w) (hh : 2 ≤ h) (hxw : x + w ≤ W) (hyh : y + h ≤ H) (hf : h < fuel) :
    (∃ d3 r,
      drawBlackVerticalLine T W x (y + 1) (h - 2) fuel
        (drawBlackHorizontalLine T W x (y + h - 1) w
          (drawBlackHorizontalLine T W x y w d)) = some d3 ∧
      drawBlackVerticalLine T W (x + w - 1) (y + 1) (h - 2) fuel d3 = some r ∧
      drawBlackRectangle T W x y w h fuel d = some r) ∧
    (∃ d3 r,
      drawWhiteVerticalLine T W x (y + 1) (h - 2) fuel
        (drawWhiteHorizontalLine T W x (y + h - 1) w
          (drawWhiteHorizontalLine T W x y w d)) = some d3 ∧
      drawWhiteVerticalLine T W (x + w - 1) (y + 1) (h - 2) fuel d3 = some r ∧
      drawWhiteRectangle T W x y w h fuel d = some r) ∧
    (∃ r, drawBlackRectangle byteArray W x y w h fuel m = some r ∧
      ∀ x' y', x' < W → pixel W r.dev.mem x' y' =
        if (x ≤ x' ∧ x' < x + w ∧ y ≤ y' ∧ y' < y + h) ∧
            (x' = x ∨ x' = x + w - 1 ∨ y' = y ∨ y' = y + h - 1) then true
        else pixel W m.dev.mem x' y') ∧
    (∃ r, drawWhiteRectangle byteArray W x y w h fuel m = some r ∧
      ∀ x' y', x' < W → pixel W r.dev.mem x' y' =
        if (x ≤ x' ∧ x' < x + w ∧ y ≤ y' ∧ y' < y + h) ∧
            (x' = x ∨ x' = x + w - 1 ∨ y' = y ∨ y' = y + h - 1) then false
        else pixel W m.dev.mem x' y') := by
  have e1 : (y + h + 256 - 1) % 256 = y + h - 1 := by omega
  have e2 : (y + 1) % 256 = y + 1 := by omega
  have e3 : (h + 256 - 2) % 256 = h - 2 := by omega
  have e4 : (x + w + 256 - 1) % 256 = x + w - 1 := by omega
  have hbl : ∀ {τ : Type} (U : Transport τ) (c : Display τ), ∃ d3 r,
      drawBlackVerticalLine U W x (y + 1) (h - 2) fuel
        (drawBlackHorizontalLine U W x (y + h - 1) w
          (drawBlackHorizontalLine U W x y w c)) = some d3 ∧
      drawBlackVerticalLine U W (x + w - 1) (y + 1) (h - 2) fuel d3 = some r ∧
      drawBlackRectangle U W x y w h fuel c = some r := by
    intro τ U c
    have r1 := drawBlackVerticalLine_run U W x (y + 1) (h - 2) fuel
      (drawBlackHorizontalLine U W x (y + h - 1) w (drawBlackHorizontalLine U W x y w c))
      (by omega) (by omega)
    have r2 := fun c => drawBlackVerticalLine_run U W (x + w - 1) (y + 1) (h - 2) fuel c
      (by omega) (by omega)
    refine ⟨_, _, r1, r2 _, ?_⟩
    simp only [drawBlackRectangle, e1, e2, e3, e4, r1, r2]
  have hwh : ∀ {τ : Type} (U : Transport τ) (c : Display τ), ∃ d3 r,
      drawWhiteVerticalLine U W x (y + 1) (h - 2) fuel
        (drawWhiteHorizontalLine U W x (y + h - 1) w
          (drawWhiteHorizontalLine U W x y w c)) = some d3 ∧
      drawWhiteVerticalLine U W (x + w - 1) (y + 1) (h - 2) fuel d3 = some r ∧
      drawWhiteRectangle U W x y w h fuel c = some r := by
    intro τ U c
    have r1 := drawWhiteVerticalLine_run U W x (y + 1) (h - 2) fuel
      (drawWhiteHorizontalLine U W x (y + h - 1) w (drawWhiteHorizontalLine U W x y w c))
      (by omega) (by omega)
    have r2 := fun c => drawWhiteVerticalLine_run U W (x + w - 1) (y + 1) (h - 2) fuel c
      (by omega) (by omega)
    refine ⟨_, _, r1, r2 _, ?_⟩
    simp only [drawWhiteRectangle, e1, e2, e3, e4, r1, r2]
  refine ⟨hbl T d, hwh T d, ?_, ?_⟩
  · obtain ⟨d3, r, h3, h4, hr⟩ := hbl byteArray m
    refine ⟨r, hr, ?_⟩
    intro x' y' hx'
    obtain ⟨r3, h3', p3⟩ := drawBlackVerticalLine_pixel W x (y + 1) (h - 2) fuel
      (drawBlackHorizontalLine byteArray W x (y + h - 1) w
        (drawBlackHorizontalLine byteArray W x y w m)) hW8 hW (by omega) (by omega) (by omega)
    obtain ⟨r4, h4', p4⟩ := drawBlackVerticalLine_pixel W (x + w - 1) (y + 1) (h - 2) fuel
      d3 hW8 hW (by omega) (by omega) (by omega)
    have q3 : r3 = d3 := Option.some.inj (h3'.symm.trans h3)
    have q4 : r4 = r := Option.some.inj (h4'.symm.trans h4)
    subst q3 q4
    rw [p4 x' y' hx', p3 x' y' hx']
    unfold drawBlackHorizontalLine
    rw [drawHorizontalLine_pixel W x (y + h - 1) w _ _ hW8 hW (by omega) hxw x' y' hx',
      drawHorizontalLine_pixel W x y w _ _ hW8 hW (by omega) hxw x' y' hx',
      testBit_ff _ (Nat.mod_lt _ (by omega))]
    split_ifs <;> first | rfl | (exfalso; omega)
  · obtain ⟨d3, r, h3, h4, hr⟩ := hwh byteArray m
    refine ⟨r, hr, ?_⟩
    intro x' y' hx'
    obtain ⟨r3, h3', p3⟩ := drawWhiteVerticalLine_pixel W x (y + 1) (h - 2) fuel
      (drawWhiteHorizontalLine byteArray W x (y + h - 1) w
        (drawWhiteHorizontalLine byteArray W x y w m)) hW8 hW (by omega) (by omega) (by omega)
    obtain ⟨r4, h4', p4⟩ := drawWhiteVerticalLine_pixel W (x + w - 1) (y + 1) (h - 2) fuel
      d3 hW8 hW (by omega) (by omega) (by omega)
    have q3 : r3 = d3 := Option.some.inj (h3'.symm.trans h3)
    have q4 : r4 = r := Option.some.inj (h4'.symm.trans h4)
    subst q3 q4
    rw [p4 x' y' hx', p3 x' y' hx']
    unfold drawWhiteHorizontalLine
    rw [drawHorizontalLine_pixel W x (y + h - 1) w _ _ hW8 hW (by omega) hxw x' y' hx',
      drawHorizontalLine_pixel W x y w _ _ hW8 hW (by omega) hxw x' y' hx',
      Nat.zero_testBit]
    split_ifs <;> first | rfl | (exfalso; omega)

theorem rectangle_correct_witness :
    (240 % 8 = 0 ∧ 240 < 256 ∧ 128 < 256 ∧ 1 ≤ 10 ∧ 2 ≤ 4 ∧ 3 + 10 ≤ 240 ∧ 5 + 4 ≤ 128 ∧
      4 < 5) ∧
    ∃ r, drawBlackRectangle byteArray 240 3 5 10 4 5
        (onDevice false (fun _ => 0) 0 0 false []) = some r ∧
      ∀ x' y', x' < 240 → pixel 240 r.dev.mem x' y' =
        if (3 ≤ x' ∧ x' < 3 + 10 ∧ 5 ≤ y' ∧ y' < 5 + 4) ∧
            (x' = 3 ∨ x' = 3 + 10 - 1 ∨ y' = 5 ∨ y' = 5 + 4 - 1) then true
        else pixel 240 (onDevice false (fun _ => 0) 0 0 false []).dev.mem x' y' :=
  ⟨by decide, (rectangle_correct byteArray 240 128 3 5 10 4 5
    (onDevice false (fun _ => 0) 0 0 false []) (onDevice false (fun _ => 0) 0 0 false [])
    (by decide) (by decide) (by decide) (by decide) (by decide) (by decide) (by decide)
    (by decide)).2.2.1⟩

/-! ### Clearing the surface -/

theorem clearRowLoop_run (T : Transport σ) (W p : Nat) (hW : W ≤ 248) :
    ∀ (n fuel x : Nat) (d : Display σ), x + 8 * n = W → n < fuel →
      clearRowLoop T W p fuel x d = some ((writeNextByte T p)^[n] d) := by
  intro n
  induction n with
  | zero =>
    intro fuel x d hx hf
    obtain ⟨f, rfl⟩ : ∃ f, fuel = f + 1 := ⟨fuel - 1, by omega⟩
    rw [clearRowLoop, if_neg (by omega)]
    rfl
  | succ n ih =>
    intro fuel x d hx hf
    obtain ⟨f, rfl⟩ : ∃ f, fuel = f + 1 := ⟨fuel - 1, by omega⟩
    have h1 : (x + 8) % 256 = x + 8 := by omega
    rw [clearRowLoop, if_pos (by omega), h1, ih f (x + 8) _ (by omega) (by omega)]
    rfl

theorem clearLoop_run (T : Transport σ) (W H p : Nat) (hW8 : W % 8 = 0) (hW : W < 256)
    (hH : H < 256) :
    ∀ (n fuel y : Nat) (d : Display σ), y + n = H → n + W / 8 < fuel →
      clearLoop T W H p fuel y d = some ((writeNextByte T p)^[W / 8 * n] d) := by
  intro n
  induction n with
  | zero =>
    intro fuel y d hy hf
    obtain ⟨f, rfl⟩ : ∃ f, fuel = f + 1 := ⟨fuel - 1, by omega⟩
    rw [clearLoop, if_neg (by omega)]
    rfl
  | succ n ih =>
    intro fuel y d hy hf
    obtain ⟨f, rfl⟩ : ∃ f, fuel = f + 1 := ⟨fuel - 1, by omega⟩
    have h1 : (y + 1) % 256 = y + 1 := by omega
    rw [clearLoop, if_pos (by omega),
      clearRowLoop_run T W p (by omega) (W / 8) f 0 d (by omega) (by omega)]
    simp only []
    rw [h1, ih f (y + 1) _ (by omega) (by omega), Nat.mul_succ, Function.iterate_add_apply]

theorem iterate_writeNextByte_trace (T : Transport σ) (p : Nat) :
    ∀ (k : Nat) (d : Display σ),
      ((writeNextByte T p)^[k] d).trace =
        d.trace ++ List.replicate k (Event.write register_t.Data (p % 256)) := by
  intro k
  induction k with
  | zero => intro d; simp
  | succ k ih =>
    intro d
    rw [Function.iterate_succ_apply, ih, List.replicate_succ]
    simp [writeNextByte]

theorem iterate_writeNextByte_dev (p : Nat) :
    ∀ (k : Nat) (d : Display Device), d.dev.ir = 0b1100 →
      ((writeNextByte byteArray p)^[k] d).dev =
        { mem := fillRange d.dev.mem d.dev.cursor k (p % 256),
          cursor := d.dev.cursor + k, ir := 0b1100, stale := d.dev.stale } := by
  intro k
  induction k with
  | zero =>
    intro d hir
    rw [Function.iterate_zero_apply, fillRange_zero, ← hir]
    rfl
  | succ k ih =>
    intro d hir
    rw [Function.iterate_succ_apply, ih _ (by rw [writeNextByte_dev p d hir]; exact hir),
      writeNextByte_dev p d hir]
    simp only [Device.mk.injEq, and_true]
    refine ⟨?_, by omega⟩
    funext a
    simp only [fillRange, store]
    by_cases h1 : a = d.dev.cursor
    · subst h1
      rw [if_neg (by omega), if_pos rfl, if_pos (by omega)]
    · by_cases h2 : d.dev.cursor + 1 ≤ a ∧ a < d.dev.cursor + 1 + k
      · rw [if_pos h2, if_pos (by omega)]
      · rw [if_neg h2, if_neg h1, if_neg (by omega)]

/-- C17: for a width `W` that is a multiple of 8 and 8-bit `W`, `H`, `p`, `clear(p)`
returns and is `setCursorAddress(0)`, `writeStart()` and then `(W/8)*H` calls of
`writeNextByte(p)`: its log grows by the four cursor writes for address 0, the write-start
command `0b1100` and exactly `(W/8)*H` data writes of `p`, on every transport; on the
byte-array device every byte of the surface (addresses below `(W/8)*H`) equals `p`
afterwards and no other byte is touched. -/
theorem clear_correct (T : Transport σ) (W H p fuel : Nat) (d : Display σ)
    (m : Display Device) (hW8 : W % 8 = 0) (hW : W < 256) (hH : H < 256) (hp : p < 256)
    (hf : H + W / 8 < fuel) :
    clear T W H p fuel d =
      some ((writeNextByte T p)^[W / 8 * H] (writeStart T (setCursorAddress T 0 d))) ∧
    (clear T W H p fuel d).map Display.trace =
      some (d.trace ++
        [Event.write register_t.Command 0b1010, Event.write register_t.Data 0,
         Event.write register_t.Command 0b1011, Event.write register_t.Data 0,
         Event.write register_t.Command 0b1100] ++
        List.replicate (W / 8 * H) (Event.write register_t.Data p)) ∧
    ∃ r, clear byteArray W H p fuel m = some r ∧
      (∀ a, a < W / 8 * H → r.dev.mem a = p) ∧
      (∀ a, W / 8 * H ≤ a → r.dev.mem a = m.dev.mem a) := by
  have hrun : ∀ {τ : Type} (U : Transport τ) (c : Display τ), clear U W H p fuel c =
      some ((writeNextByte U p)^[W / 8 * H] (writeStart U (setCursorAddress U 0 c))) :=
    fun U c => clearLoop_run U W H p hW8 hW hH H fuel 0 _ (by omega) hf
  have hp' : p % 256 = p := Nat.mod_eq_of_lt hp
  refine ⟨hrun T d, ?_, _, hrun byteArray m, ?_, ?_⟩
  · rw [hrun T d, Option.map_some', iterate_writeNextByte_trace, hp']
    simp [writeStart, setCursorAddress_trace_eq T 0 d (by omega)]
  · intro a ha
    rw [iterate_writeNextByte_dev p _ _ rfl]
    simp only [fillRange, writeStart_dev, setCursorAddress_dev, hp']
    rw [if_pos (by omega)]
  · intro a ha
    rw [iterate_writeNextByte_dev p _ _ rfl]
    simp only [fillRange, writeStart_dev, setCursorAddress_dev, hp']
    rw [if_neg (by omega)]

theorem clear_correct_witness :
    (240 % 8 = 0 ∧ 240 < 256 ∧ 128 < 256 ∧ 0xA5 < 256 ∧ 128 + 240 / 8 < 200) ∧
    ∃ r, clear byteArray 240 128 0xA5 200 (onDevice false (fun _ => 0) 0 0 false []) =
        some r ∧
      (∀ a, a < 240 / 8 * 128 → r.dev.mem a = 0xA5) ∧
      (∀ a, 240 / 8 * 128 ≤ a →
        r.dev.mem a = (onDevice false (fun _ => 0) 0 0 false []).dev.mem a) :=
  ⟨by decide, (clear_correct byteArray 240 128 0xA5 200
    (onDevice false (fun _ => 0) 0 0 false []) (onDevice false (fun _ => 0) 0 0 false [])
    (by decide) (by decide) (by decide) (by decide) (by decide)).2.2⟩

/-! ### Pattern fills -/

theorem patternFillLoop_run (T : Transport σ) (W x w : Nat) (pattern : List Nat)
    (mask limit : Nat) (hl : limit ≤ 255) :
    ∀ (n fuel i : Nat) (d : Display σ), i + n + 1 = limit → n < fuel →
      patternFillLoop T W x w pattern mask limit fuel i d =
        some ((List.range' i (n + 1)).foldl (fun d j =>
          drawHorizontalLine T W x j w (pgm_read_byte pattern ((j &&& mask) + 1)) d) d) := by
  intro n
  induction n with
  | zero =>
    intro fuel i d hi hf
    obtain ⟨f, rfl⟩ : ∃ f, fuel = f + 1 := ⟨fuel - 1, by omega⟩
    have h1 : (i + 1) % 256 = i + 1 := by omega
    simp only [patternFillLoop, h1]
    rw [if_neg (by omega)]
    rfl
  | succ n ih =>
    intro fuel i d hi hf
    obtain ⟨f, rfl⟩ : ∃ f, fuel = f + 1 := ⟨fuel - 1, by omega⟩
    have h1 : (i + 1) % 256 = i + 1 := by omega
    simp only [patternFillLoop, h1]
    rw [if_pos (by omega), ih f (i + 1) _ (by omega) (by omega)]
    rfl

/-- For `h >= 1` and `y + h <= 255`, `drawPatternFill` returns and is one
`drawHorizontalLine(x, y + i, w, pattern[1 + ((y + i) & mask)])` per row, in order. -/
theorem drawPatternFill_run (T : Transport σ) (W x y w h fuel : Nat) (pattern : List Nat)
    (d : Display σ) (hh : 1 ≤ h) (hb : y + h ≤ 255) (hf : h ≤ fuel) :
    drawPatternFill T W x y w h pattern fuel d =
      some ((List.range h).foldl (fun d i =>
        drawHorizontalLine T W x (y + i) w
          (pgm_read_byte pattern (((y + i) &&& pgm_read_byte pattern 0) + 1)) d) d) := by
  have e : (y + h) % 256 = y + h := by omega
  obtain ⟨n, rfl⟩ : ∃ n, h = n + 1 := ⟨h - 1, by omega⟩
  rw [← foldl_range'_eq (fun j d => drawHorizontalLine T W x j w
    (pgm_read_byte pattern ((j &&& pgm_read_byte pattern 0) + 1)) d)]
  simp only [drawPatternFill, e]
  exact patternFillLoop_run T W x w pattern _ _ hb n fuel y d (by omega) (by omega)

/-- With `h = 0` (and `y < 255`) the do-while body of `drawPatternFill` still runs once. -/
theorem drawPatternFill_zero_height (T : Transport σ) (W x y w fuel : Nat)
    (pattern : List Nat) (d : Display σ) (hy : y < 255) :
    drawPatternFill T W x y w 0 pattern (fuel + 1) d =
      some (drawHorizontalLine T W x y w
        (pgm_read_byte pattern ((y &&& pgm_read_byte pattern 0) + 1)) d) := by
  have e : (y + 0) % 256 = y := by omega
  have h1 : (y + 1) % 256 = y + 1 := by omega
  simp only [drawPatternFill, patternFillLoop, e, h1]
  rw [if_neg (by omega)]

theorem drawPatternFill_pixel (W H x y w h fuel : Nat) (pattern : List Nat)
    (d : Display Device) (hW8 : W % 8 = 0) (hW : W < 256) (hH : H < 256)
    (hxw : x + w ≤ W) (hyh : y + h ≤ H) (hh : 1 ≤ h) (hf : h ≤ fuel) :
    ∃ r, drawPatternFill byteArray W x y w h pattern fuel d = some r ∧
      ∀ x' y', x' < W → pixel W r.dev.mem x' y' =
        if y ≤ y' ∧ y' < y + h ∧ (x ≤ x' ∧ x' < x + w) then
          (pgm_read_byte pattern ((y' &&& pgm_read_byte pattern 0) + 1)).testBit (x' % 8)
        else pixel W d.dev.mem x' y' := by
  refine ⟨_, drawPatternFill_run byteArray W x y w h fuel pattern d hh (by omega) hf, ?_⟩
  intro x' y' hx'
  exact rows_fold_pixel W (fun i d => drawHorizontalLine byteArray W x i w
      (pgm_read_byte pattern ((i &&& pgm_read_byte pattern 0) + 1)) d)
    (fun c => x ≤ c ∧ c < x + w)
    (fun c i => (pgm_read_byte pattern ((i &&& pgm_read_byte pattern 0) + 1)).testBit (c % 8))
    x' y' y h
    (fun i d h1 h2 => by
      rw [drawHorizontalLine_pixel W x i w _ d hW8 hW (by omega) hxw x' y' hx']) h d
    (le_refl _)

/-- C12 (failing input): on an all-white 240-wide device, `drawGrayFill(0, 0, 8, 0)`, that
is `drawPatternFill(0, 0, 8, 0, pattern)` with the gray pattern blob, returns exactly what
the single call `drawHorizontalLine(0, 0, 8, 0b01010101)` returns: row 0 is drawn although
`[y, y+h)` is empty, byte 0 becoming `0b01010101` with six writes logged, whereas
`drawBlackFill(0, 0, 8, 0)` leaves the display as it was. -/
theorem drawPatternFill_zero_height_draws_row :
    drawPatternFill byteArray 240 0 0 8 0 [0b1, 0b01010101, 0b10101010] 10
        (onDevice false (fun _ => 0) 0 0 false []) =
      some (drawHorizontalLine byteArray 240 0 0 8 0b01010101
        (onDevice false (fun _ => 0) 0 0 false [])) ∧
    drawGrayFill byteArray 240 0 0 8 0 10 (onDevice false (fun _ => 0) 0 0 false []) =
      some (drawHorizontalLine byteArray 240 0 0 8 0b01010101
        (onDevice false (fun _ => 0) 0 0 false [])) ∧
    (drawHorizontalLine byteArray 240 0 0 8 0b01010101
      (onDevice false (fun _ => 0) 0 0 false [])).dev.mem 0 = 0b01010101 ∧
    (drawHorizontalLine byteArray 240 0 0 8 0b01010101
      (onDevice false (fun _ => 0) 0 0 false [])).trace =
        [Event.write register_t.Command 0b1010, Event.write register_t.Data 0,
         Event.write register_t.Command 0b1011, Event.write register_t.Data 0,
         Event.write register_t.Command 0b1100, Event.write register_t.Data 0b01010101] ∧
    drawBlackFill byteArray 240 0 0 8 0 10 (onDevice false (fun _ => 0) 0 0 false []) =
      some (onDevice false (fun _ => 0) 0 0 false []) :=
  ⟨rfl, rfl, by decide, by decide, rfl⟩

/-- C13: for a pattern blob whose row count `m + 1` (`m` its mask byte) is a power of two,
and rows `i` and `i + (m + 1)` both inside the region of a `drawPatternFill(x, y, w, h)`
that lies inside the surface, the pattern byte the fill passes to `drawHorizontalLine` for
row `i + (m + 1)` is the byte it passes for row `i`, and on the byte-array device, after
the fill has returned (as one `drawHorizontalLine` per row), the pixels of the two rows
agree in every column of `[x, x+w)`. -/
theorem patternFill_tiling (W H x y w h fuel : Nat) (pattern : List Nat) (k : Nat)
    (d : Display Device) (hW8 : W % 8 = 0) (hW : W < 256) (hH : H < 256)
    (hxw : x + w ≤ W) (hyh : y + h ≤ H) (hf : h ≤ fuel)
    (hpow : pgm_read_byte pattern 0 + 1 = 2 ^ k) (i : Nat) (hi : y ≤ i)
    (hi2 : i + (pgm_read_byte pattern 0 + 1) < y + h) :
    pgm_read_byte pattern (((i + (pgm_read_byte pattern 0 + 1)) &&& pgm_read_byte pattern 0) + 1)
      = pgm_read_byte pattern ((i &&& pgm_read_byte pattern 0) + 1) ∧
    ∃ r, drawPatternFill byteArray W x y w h pattern fuel d = some r ∧
      r = (List.range h).foldl (fun d j =>
        drawHorizontalLine byteArray W x (y + j) w
          (pgm_read_byte pattern (((y + j) &&& pgm_read_byte pattern 0) + 1)) d) d ∧
      ∀ c, x ≤ c → c < x + w →
        pixel W r.dev.mem c (i + (pgm_read_byte pattern 0 + 1)) = pixel W r.dev.mem c i := by
  have hm : pgm_read_byte pattern 0 = 2 ^ k - 1 := by omega
  have hand : (i + (pgm_read_byte pattern 0 + 1)) &&& pgm_read_byte pattern 0 =
      i &&& pgm_read_byte pattern 0 := by
    rw [hpow, hm, Nat.and_pow_two_sub_one_eq_mod, Nat.and_pow_two_sub_one_eq_mod,
      Nat.add_mod_right]
  refine ⟨by rw [hand], ?_⟩
  obtain ⟨r, hr, hp⟩ := drawPatternFill_pixel W H x y w h fuel pattern d hW8 hW hH hxw hyh
    (by omega) hf
  refine ⟨r, hr, ?_, ?_⟩
  · have := drawPatternFill_run byteArray W x y w h fuel pattern d (by omega) (by omega) hf
    exact Option.some.inj (hr.symm.trans this)
  · intro c hc1 hc2
    rw [hp c _ (by omega), hp c _ (by omega), if_pos (by omega), if_pos (by omega), hand]

theorem patternFill_tiling_witness :
    (240 % 8 = 0 ∧ 240 < 256 ∧ 128 < 256 ∧ 3 + 10 ≤ 240 ∧ 5 + 6 ≤ 128 ∧ 6 ≤ 6 ∧
      pgm_read_byte [0b1, 0b01010101, 0b10101010] 0 + 1 = 2 ^ 1 ∧ 5 ≤ 7 ∧
      7 + (pgm_read_byte [0b1, 0b01010101, 0b10101010] 0 + 1) < 5 + 6) ∧
    ∃ r, drawPatternFill byteArray 240 3 5 10 6 [0b1, 0b01010101, 0b10101010] 6
        (onDevice false (fun _ => 0) 0 0 false []) = some r ∧
      r = (List.range 6).foldl (fun d j =>
        drawHorizontalLine byteArray 240 3 (5 + j) 10
          (pgm_read_byte [0b1, 0b01010101, 0b10101010]
            (((5 + j) &&& pgm_read_byte [0b1, 0b01010101, 0b10101010] 0) + 1)) d)
        (onDevice false (fun _ => 0) 0 0 false []) ∧
      ∀ c, 3 ≤ c → c < 3 + 10 →
        pixel 240 r.dev.mem c (7 + (pgm_read_byte [0b1, 0b01010101, 0b10101010] 0 + 1)) =
          pixel 240 r.dev.mem c 7 :=
  ⟨by decide, (patternFill_tiling 240 128 3 5 10 6 6 [0b1, 0b01010101, 0b10101010] 1
    (onDevice false (fun _ => 0) 0 0 false []) (by decide) (by decide) (by decide)
    (by decide) (by decide) (by decide) (by decide) 7 (by decide) (by decide)).2⟩

/-! ### Rectangles of height 1 -/

/-- With `h = 1` the length `h - 2` of the two vertical lines wraps to 255, and from a row
`y + 1 <= 255` their loop bound `y + 1 + 255` is at least 256: the call never returns. -/
theorem rectangle_height_one_diverges (T : Transport σ) (W x y w fuel : Nat) (d : Display σ)
    (hy : y < 255) :
    drawBlackRectangle T W x y w 1 fuel d = none ∧
    drawWhiteRectangle T W x y w 1 fuel d = none := by
  have e2 : (y + 1) % 256 = y + 1 := by omega
  constructor
  · simp only [drawBlackRectangle, e2]
    rw [(vertical_and_fill_diverge T W x (y + 1) 255 0 fuel _ (by omega) (by omega)).1]
  · simp only [drawWhiteRectangle, e2]
    rw [(vertical_and_fill_diverge T W x (y + 1) 255 0 fuel _ (by omega) (by omega)).2.1]

/-- C21 at a failing input: on a 240-wide display `drawBlackRectangle(3, 5, 10, 1)` and
`drawWhiteRectangle(3, 5, 10, 1)`, rectangles of height 1 inside the surface, never return,
whatever the fuel, the transport and the display state: after the two horizontal lines the
vertical line is called with the length `h - 2 = 255` (8-bit wrap) from row 6, and its loop
test `i < 6 + 255` never fails for an 8-bit counter. -/
theorem drawRectangle_height_one_never_returns (T : Transport σ) (fuel : Nat)
    (d : Display σ) :
    drawBlackRectangle T 240 3 5 10 1 fuel d = none ∧
    drawWhiteRectangle T 240 3 5 10 1 fuel d = none ∧
    drawBlackRectangle T 240 3 5 10 1 fuel d =
      drawBlackVerticalLine T 240 3 6 255 fuel
        (drawBlackHorizontalLine T 240 3 5 10 (drawBlackHorizontalLine T 240 3 5 10 d)) :=
  ⟨(rectangle_height_one_diverges T 240 3 5 10 fuel d (by decide)).1,
   (rectangle_height_one_diverges T 240 3 5 10 fuel d (by decide)).2,
   by
    rw [(rectangle_height_one_diverges T 240 3 5 10 fuel d (by decide)).1,
      (vertical_and_fill_diverge T 240 3 6 255 0 fuel _ (by decide) (by decide)).1]⟩

/-! ### Byte-aligned horizontal lines -/

theorem writeFullBytes_iterate (T : Transport σ) (pat : Nat) :
    ∀ (fuel rem : Nat) (d : Display σ), rem / 8 ≤ fuel →
      writeFullBytes T pat fuel rem d = (rem % 8, (writeNextByte T pat)^[rem / 8] d) := by
  intro fuel
  induction fuel with
  | zero =>
    intro rem d hf
    have h0 : rem / 8 = 0 := by omega
    have h1 : rem % 8 = rem := by omega
    rw [writeFullBytes, h0, h1]
    rfl
  | succ f ih =>
    intro rem d hf
    rw [writeFullBytes]
    by_cases hr : rem ≥ 8
    · rw [if_pos hr, ih (rem - 8) _ (by omega)]
      have e1 : (rem - 8) % 8 = rem % 8 := by omega
      have e2 : rem / 8 = (rem - 8) / 8 + 1 := by omega
      rw [e1, e2, Function.iterate_succ_apply]
    · rw [if_neg hr]
      have h0 : rem / 8 = 0 := by omega
      have h1 : rem % 8 = rem := by omega
      rw [h0, h1]
      rfl

/-- C27: for `x` and `length` both multiples of 8 (8-bit arguments and width),
`drawHorizontalLine(x, y, length, pattern)` is `setCursorAddress((W/8)*y + x/8)`,
`writeStart()` and `length / 8` calls of `writeNextByte(pattern)`: on every transport its
log grows by exactly the four cursor writes, the command `0b1100` and `length / 8` data
writes of `pattern`, with no read transaction among them. -/
theorem drawHorizontalLine_aligned (T : Transport σ) (W x y len pat : Nat) (d : Display σ)
    (hW : W < 256) (hx : x < 256) (hy : y < 256) (hlen : len < 256) (hpat : pat < 256)
    (hx8 : x % 8 = 0) (hl8 : len % 8 = 0) :
    drawHorizontalLine T W x y len pat d =
      (writeNextByte T pat)^[len / 8] (writeStart T (setCursorAddress T (W / 8 * y + x / 8) d)) ∧
    (drawHorizontalLine T W x y len pat d).trace = d.trace ++
      [Event.write register_t.Command 0b1010,
       Event.write register_t.Data ((W / 8 * y + x / 8) % 256),
       Event.write register_t.Command 0b1011,
       Event.write register_t.Data ((W / 8 * y + x / 8) / 256),
       Event.write register_t.Command 0b1100] ++
      List.replicate (len / 8) (Event.write register_t.Data pat) ∧
    ∀ e ∈ (drawHorizontalLine T W x y len pat d).trace.drop d.trace.length,
      ∃ reg v, e = Event.write reg v := by
  have hR : W / 8 * y ≤ 31 * 255 := Nat.mul_le_mul (by omega) (by omega)
  have hrun : drawHorizontalLine T W x y len pat d =
      (writeNextByte T pat)^[len / 8]
        (writeStart T (setCursorAddress T (W / 8 * y + x / 8) d)) := by
    simp only [drawHorizontalLine, hx8, ne_eq, not_true_eq_false, if_false,
      writeFullBytes_iterate T pat len len _ (by omega), hl8, gt_iff_lt, lt_self_iff_false]
  have htr : (drawHorizontalLine T W x y len pat d).trace = d.trace ++
      [Event.write register_t.Command 0b1010,
       Event.write register_t.Data ((W / 8 * y + x / 8) % 256),
       Event.write register_t.Command 0b1011,
       Event.write register_t.Data ((W / 8 * y + x / 8) / 256),
       Event.write register_t.Command 0b1100] ++
      List.replicate (len / 8) (Event.write register_t.Data pat) := by
    rw [hrun, iterate_writeNextByte_trace, Nat.mod_eq_of_lt hpat]
    simp [writeStart, setCursorAddress_trace_eq T (W / 8 * y + x / 8) d (by omega)]
  refine ⟨hrun, htr, ?_⟩
  intro e he
  rw [htr, List.append_assoc, List.drop_left] at he
  rcases List.mem_append.mp he with h | h
  · simp only [List.mem_cons, List.mem_singleton, List.not_mem_nil, or_false] at h
    rcases h with h | h | h | h | h <;> exact ⟨_, _, h⟩
  · exact ⟨_, _, List.eq_of_mem_replicate h⟩

theorem drawHorizontalLine_aligned_witness :
    (240 < 256 ∧ 16 < 256 ∧ 3 < 256 ∧ 24 < 256 ∧ 0xA5 < 256 ∧ 16 % 8 = 0 ∧ 24 % 8 = 0) ∧
    (drawHorizontalLine byteArray 240 16 3 24 0xA5
        (onDevice false (fun _ => 0) 0 0 false [])).trace =
      (onDevice false (fun _ => 0) 0 0 false []).trace ++
      [Event.write register_t.Command 0b1010,
       Event.write register_t.Data ((240 / 8 * 3 + 16 / 8) % 256),
       Event.write register_t.Command 0b1011,
       Event.write register_t.Data ((240 / 8 * 3 + 16 / 8) / 256),
       Event.write register_t.Command 0b1100] ++
      List.replicate (24 / 8) (Event.write register_t.Data 0xA5) :=
  ⟨by decide, (drawHorizontalLine_aligned byteArray 240 16 3 24 0xA5
    (onDevice false (fun _ => 0) 0 0 false []) (by decide) (by decide) (by decide)
    (by decide) (by decide) (by decide) (by decide)).2.1⟩

/-! ### Solid and gray fills as pattern fills -/

/-- C25: for a non-empty rectangle inside the surface (8-bit height), `drawWhiteFill`
returns the same display, hence emits the same transaction trace, as `drawPatternFill`
with the blob `grayscale_0`, `drawGrayFill` the same as with `grayscale_8`, and
`drawBlackFill` the same as with `grayscale_16`, on every transport; all six calls return. -/
theorem fills_eq_pattern_fills (T : Transport σ) (W H x y w h fuel : Nat) (d : Display σ)
    (hH : H < 256) (_hw : 1 ≤ w) (hh : 1 ≤ h) (_hxw : x + w ≤ W) (hyh : y + h ≤ H)
    (hf : h < fuel) :
    (∃ r, drawWhiteFill T W x y w h fuel d = some r ∧
      drawPatternFill T W x y w h grayscale_0 fuel d = some r) ∧
    (∃ r, drawGrayFill T W x y w h fuel d = some r ∧
      drawPatternFill T W x y w h grayscale_8 fuel d = some r) ∧
    (∃ r, drawBlackFill T W x y w h fuel d = some r ∧
      drawPatternFill T W x y w h grayscale_16 fuel d = some r) ∧
    (drawWhiteFill T W x y w h fuel d).map Display.trace =
      (drawPatternFill T W x y w h grayscale_0 fuel d).map Display.trace ∧
    (drawGrayFill T W x y w h fuel d).map Display.trace =
      (drawPatternFill T W x y w h grayscale_8 fuel d).map Display.trace ∧
    (drawBlackFill T W x y w h fuel d).map Display.trace =
      (drawPatternFill T W x y w h grayscale_16 fuel d).map Display.trace := by
  have hwhite : drawWhiteFill T W x y w h fuel d =
      drawPatternFill T W x y w h grayscale_0 fuel d := by
    rw [drawWhiteFill_run T W x y w h fuel d (by omega) hf,
      drawPatternFill_run T W x y w h fuel grayscale_0 d hh (by omega) (by omega)]
    have hb : ∀ j, pgm_read_byte grayscale_0 ((j &&& pgm_read_byte grayscale_0 0) + 1) = 0 := by
      intro j
      have h0 : pgm_read_byte grayscale_0 0 = 0 := rfl
      rw [h0, Nat.and_zero]
      rfl
    simp only [hb, drawWhiteHorizontalLine]
  have hblack : drawBlackFill T W x y w h fuel d =
      drawPatternFill T W x y w h grayscale_16 fuel d := by
    rw [drawBlackFill_run T W x y w h fuel d (by omega) hf,
      drawPatternFill_run T W x y w h fuel grayscale_16 d hh (by omega) (by omega)]
    have hb : ∀ j, pgm_read_byte grayscale_16 ((j &&& pgm_read_byte grayscale_16 0) + 1) =
        0b11111111 := by
      intro j
      have h0 : pgm_read_byte grayscale_16 0 = 0 := rfl
      rw [h0, Nat.and_zero]
      rfl
    simp only [hb, drawBlackHorizontalLine]
  have hgray : drawGrayFill T W x y w h fuel d =
      drawPatternFill T W x y w h grayscale_8 fuel d := rfl
  refine ⟨⟨_, drawWhiteFill_run T W x y w h fuel d (by omega) hf, ?_⟩,
    ⟨_, drawPatternFill_run T W x y w h fuel grayscale_8 d hh (by omega) (by omega),
      drawPatternFill_run T W x y w h fuel grayscale_8 d hh (by omega) (by omega)⟩,
    ⟨_, drawBlackFill_run T W x y w h fuel d (by omega) hf, ?_⟩,
    by rw [hwhite], by rw [hgray], by rw [hblack]⟩
  · rw [← hwhite]; exact drawWhiteFill_run T W x y w h fuel d (by omega) hf
  · rw [← hblack]; exact drawBlackFill_run T W x y w h fuel d (by omega) hf

theorem fills_eq_pattern_fills_witness :
    (128 < 256 ∧ 1 ≤ 10 ∧ 1 ≤ 4 ∧ 3 + 10 ≤ 240 ∧ 5 + 4 ≤ 128 ∧ 4 < 5) ∧
    (drawWhiteFill byteArray 240 3 5 10 4 5
        (onDevice false (fun _ => 0xFF) 0 0 false [])).map Display.trace =
      (drawPatternFill byteArray 240 3 5 10 4 grayscale_0 5
        (onDevice false (fun _ => 0xFF) 0 0 false [])).map Display.trace :=
  ⟨by decide, (fills_eq_pattern_fills byteArray 240 128 3 5 10 4 5
    (onDevice false (fun _ => 0xFF) 0 0 false []) (by decide) (by decide) (by decide)
    (by decide) (by decide) (by decide)).2.2.2.1⟩

/-! ### The pixel addressing map -/

/-- C29: for a width that is a multiple of 8 and 8-bit `W`, `H`, the map
`(x, y) -> ((W/8)*y + x/8, x mod 8)`, which is the address `setPixel`/`clearPixel` hand to
`setCursorAddress` and the bit they hand to the bit command (and the map `pixel` reads),
has its address below `(W/8)*H` on `[0, W) x [0, H)` and is injective there; on the
byte-array device `setPixel(x, y)` therefore sets pixel `(x, y)` and changes no other
in-bounds pixel. -/
theorem pixel_address_injective (T : Transport σ) (W H x y x' y' : Nat) (d : Display σ)
    (m : Display Device) (hW8 : W % 8 = 0) (hW : W < 256) (hH : H < 256)
    (hx : x < W) (hy : y < H) (hx' : x' < W) (_hy' : y' < H) :
    setPixel T W x y d = setDataBit T (x % 8) (setCursorAddress T (W / 8 * y + x / 8) d) ∧
    clearPixel T W x y d =
      clearDataBit T (x % 8) (setCursorAddress T (W / 8 * y + x / 8) d) ∧
    W / 8 * y + x / 8 < W / 8 * H ∧
    (W / 8 * y + x / 8 = W / 8 * y' + x' / 8 ∧ x % 8 = x' % 8 → x = x' ∧ y = y') ∧
    ((x, y) ≠ (x', y') →
      (W / 8 * y + x / 8, x % 8) ≠ (W / 8 * y' + x' / 8, x' % 8)) ∧
    pixel W (setPixel byteArray W x y m).dev.mem x' y' =
      if y' = y ∧ x' = x then true else pixel W m.dev.mem x' y' := by
  have hinj : W / 8 * y + x / 8 = W / 8 * y' + x' / 8 ∧ x % 8 = x' % 8 →
      x = x' ∧ y = y' := by
    rintro ⟨h1, h2⟩
    have h := row_address_inj (W / 8) y y' (x / 8) (x' / 8) (by omega) (by omega) h1
    exact ⟨by omega, h.1⟩
  have hle : W / 8 * (y + 1) ≤ W / 8 * H := Nat.mul_le_mul_left _ (by omega)
  rw [Nat.mul_succ] at hle
  refine ⟨rfl, rfl, by omega, hinj, ?_, setPixel_pixel W x y m hW8 hW (by omega) hx x' y' hx'⟩
  intro hne heq
  apply hne
  have h := hinj ⟨congrArg Prod.fst heq, congrArg Prod.snd heq⟩
  rw [h.1, h.2]

theorem pixel_address_injective_witness :
    (240 % 8 = 0 ∧ 240 < 256 ∧ 128 < 256 ∧ 13 < 240 ∧ 2 < 128 ∧ 5 < 240 ∧ 3 < 128) ∧
    240 / 8 * 2 + 13 / 8 < 240 / 8 * 128 ∧
    ((13, 2) ≠ (5, 3) →
      (240 / 8 * 2 + 13 / 8, 13 % 8) ≠ (240 / 8 * 3 + 5 / 8, 5 % 8)) :=
  ⟨by decide, (pixel_address_injective byteArray 240 128 13 2 5 3
      (onDevice false (fun _ => 0) 0 0 false []) (onDevice false (fun _ => 0) 0 0 false [])
      (by decide) (by decide) (by decide) (by decide) (by decide) (by decide)
      (by decide)).2.2.1,
    (pixel_address_injective byteArray 240 128 13 2 5 3
      (onDevice false (fun _ => 0) 0 0 false []) (onDevice false (fun _ => 0) 0 0 false [])
      (by decide) (by decide) (by decide) (by decide) (by decide) (by decide)
      (by decide)).2.2.2.2.1⟩

/-! ### The gray clear and the gray fill -/

theorem clearGrayLoop_run (T : Transport σ) (W H : Nat) (hW8 : W % 8 = 0) (hW : W < 256)
    (hH : H ≤ 254) :
    ∀ (n fuel y : Nat) (d : Display σ), y + 2 * n = H → n + W / 8 < fuel →
      clearGrayLoop T W H fuel y d =
        some ((fun d => (writeNextByte T 0b01010101)^[W / 8]
          ((writeNextByte T 0b10101010)^[W / 8] d))^[n] d) := by
  intro n
  induction n with
  | zero =>
    intro fuel y d hy hf
    obtain ⟨f, rfl⟩ : ∃ f, fuel = f + 1 := ⟨fuel - 1, by omega⟩
    rw [clearGrayLoop, if_neg (by omega)]
    rfl
  | succ n ih =>
    intro fuel y d hy hf
    obtain ⟨f, rfl⟩ : ∃ f, fuel = f + 1 := ⟨fuel - 1, by omega⟩
    have h1 : (y + 2) % 256 = y + 2 := by omega
    rw [clearGrayLoop, if_pos (by omega),
      clearRowLoop_run T W _ (by omega) (W / 8) f 0 d (by omega) (by omega)]
    simp only []
    rw [clearRowLoop_run T W _ (by omega) (W / 8) f 0 _ (by omega) (by omega)]
    simp only []
    rw [h1, ih f (y + 2) _ (by omega) (by omega), Function.iterate_succ_apply]

theorem row_mem_iff (B y0 y k : Nat) (hk : k < B) :
    (B * y0 ≤ B * y + k ∧ B * y + k < B * y0 + B) ↔ y = y0 := by
  constructor
  · rintro ⟨h1, h2⟩
    by_contra hne
    rcases Nat.lt_or_gt_of_ne hne with h | h
    · have := Nat.mul_le_mul_left B (Nat.succ_le_of_lt h)
      rw [Nat.mul_succ] at this
      omega
    · have := Nat.mul_le_mul_left B (Nat.succ_le_of_lt h)
      rw [Nat.mul_succ] at this
      omega
  · rintro rfl
    omega

/-- The bytes of `n` pairs of gray rows written from the start of row `y0`. -/
theorem grayRows_dev (B : Nat) :
    ∀ (n y0 : Nat) (d : Display Device), d.dev.ir = 0b1100 → d.dev.cursor = B * y0 →
      ((fun d => (writeNextByte byteArray 0b01010101)^[B]
          ((writeNextByte byteArray 0b10101010)^[B] d))^[n] d).dev.ir = 0b1100 ∧
      ∀ y k, k < B →
        ((fun d => (writeNextByte byteArray 0b01010101)^[B]
          ((writeNextByte byteArray 0b10101010)^[B] d))^[n] d).dev.mem (B * y + k) =
          if y0 ≤ y ∧ y < y0 + 2 * n then
            (if (y - y0) % 2 = 0 then 0b10101010 else 0b01010101)
          else d.dev.mem (B * y + k) := by
  intro n
  induction n with
  | zero =>
    intro y0 d hir hc
    refine ⟨hir, ?_⟩
    intro y k hk
    rw [if_neg (by omega)]
    rfl
  | succ n ih =>
    intro y0 d hir hc
    have hA := iterate_writeNextByte_dev 0b10101010 B d hir
    have hB := iterate_writeNextByte_dev 0b01010101 B
      ((writeNextByte byteArray 0b10101010)^[B] d) (by rw [hA])
    rw [hA] at hB
    simp only [] at hB
    obtain ⟨i1, i2⟩ := ih (y0 + 2) ((writeNextByte byteArray 0b01010101)^[B]
      ((writeNextByte byteArray 0b10101010)^[B] d)) (by rw [hB])
      (by rw [hB]; simp only []; rw [hc, Nat.mul_add]; omega)
    rw [Function.iterate_succ_apply]
    refine ⟨i1, ?_⟩
    intro y k hk
    rw [i2 y k hk, hB]
    have q0 := row_mem_iff B y0 y k hk
    have q1 := row_mem_iff B (y0 + 1) y k hk
    rw [Nat.mul_succ] at q1
    simp only [fillRange, hc, q0, q1]
    split_ifs <;> first | rfl | omega

theorem testBit_gray (k : Nat) (hk : k < 8) :
    (0b10101010 : Nat).testBit k = decide (k % 2 = 1) ∧
    (0b01010101 : Nat).testBit k = decide (k % 2 = 0) := by
  interval_cases k <;> exact ⟨rfl, rfl⟩

/-- C30: on the byte-array device, for a width that is a multiple of 8 and an even height
(8-bit `W`, `H`), `clearGray()` and `drawGrayFill(0, 0, W, H)` both return; after
`clearGray` the pixel `(x, y)` of the surface is black exactly when `x + y` is odd, after
`drawGrayFill` exactly when `x + y` is even, so the two displays are bitwise
complementary on the surface. -/
theorem gray_complementary (W H fuel : Nat) (d : Display Device) (hW8 : W % 8 = 0)
    (hW : W < 256) (hH : H < 256) (hHe : H % 2 = 0) (hf : H + W / 8 < fuel) :
    ∃ r1 r2, clearGray byteArray W H fuel d = some r1 ∧
      drawGrayFill byteArray W 0 0 W H fuel d = some r2 ∧
      ∀ x y, x < W → y < H →
        pixel W r1.dev.mem x y = decide ((x + y) % 2 = 1) ∧
        pixel W r2.dev.mem x y = decide ((x + y) % 2 = 0) ∧
        pixel W r1.dev.mem x y = !pixel W r2.dev.mem x y := by
  have h1 := clearGrayLoop_run byteArray W H hW8 hW (by omega) (H / 2) fuel 0
    (writeStart byteArray (setCursorAddress byteArray 0 d)) (by omega) (by omega)
  have hg : ∃ r2, drawGrayFill byteArray W 0 0 W H fuel d = some r2 ∧
      ∀ x y, x < W → y < H → pixel W r2.dev.mem x y = decide ((x + y) % 2 = 0) := by
    by_cases hH0 : H = 0
    · subst hH0
      obtain ⟨f, rfl⟩ : ∃ f, fuel = f + 1 := ⟨fuel - 1, by omega⟩
      exact ⟨_, drawPatternFill_zero_height byteArray W 0 0 W f _ d (by omega),
        fun x y _ hy => absurd hy (by omega)⟩
    · obtain ⟨r2, e2, p2⟩ := drawPatternFill_pixel W H 0 0 W H fuel
        [0b1, 0b01010101, 0b10101010] d hW8 hW hH (by omega) (by omega) (by omega) (by omega)
      refine ⟨r2, e2, ?_⟩
      intro x y hx hy
      rw [p2 x y hx, if_pos (by omega)]
      have hm : pgm_read_byte [0b1, 0b01010101, 0b10101010] 0 = 1 := rfl
      rw [hm, Nat.and_one_is_mod]
      have hb := testBit_gray (x % 8) (Nat.mod_lt _ (by omega))
      rcases Nat.mod_two_eq_zero_or_one y with hy2 | hy2
      · rw [hy2]
        have hv : pgm_read_byte [0b1, 0b01010101, 0b10101010] (0 + 1) = 0b01010101 := rfl
        rw [hv, hb.2]
        have : (x % 8 % 2 = 0) ↔ ((x + y) % 2 = 0) := by omega
        simp only [this]
      · rw [hy2]
        have hv : pgm_read_byte [0b1, 0b01010101, 0b10101010] (1 + 1) = 0b10101010 := rfl
        rw [hv, hb.1]
        have : (x % 8 % 2 = 1) ↔ ((x + y) % 2 = 0) := by omega
        simp only [this]
  obtain ⟨r2, e2, p2⟩ := hg
  refine ⟨_, r2, h1, e2, ?_⟩
  intro x y hx hy
  have hp1 : pixel W ((fun d => (writeNextByte byteArray 0b01010101)^[W / 8]
      ((writeNextByte byteArray 0b10101010)^[W / 8] d))^[H / 2]
        (writeStart byteArray (setCursorAddress byteArray 0 d))).dev.mem x y =
      decide ((x + y) % 2 = 1) := by
    unfold pixel
    rw [(grayRows_dev (W / 8) (H / 2) 0 (writeStart byteArray (setCursorAddress byteArray 0 d))
      rfl (by simp)).2 y (x / 8) (by omega), if_pos (by omega)]
    have hb := testBit_gray (x % 8) (Nat.mod_lt _ (by omega))
    rcases Nat.mod_two_eq_zero_or_one y with hy2 | hy2
    · rw [if_pos (by omega), hb.1]
      have : (x % 8 % 2 = 1) ↔ ((x + y) % 2 = 1) := by omega
      simp only [this]
    · rw [if_neg (by omega), hb.2]
      have : (x % 8 % 2 = 0) ↔ ((x + y) % 2 = 1) := by omega
      simp only [this]
  refine ⟨hp1, p2 x y hx hy, ?_⟩
  rw [hp1, p2 x y hx hy]
  rcases Nat.mod_two_eq_zero_or_one (x + y) with h | h <;> simp [h]

theorem gray_complementary_witness :
    (240 % 8 = 0 ∧ 240 < 256 ∧ 128 < 256 ∧ 128 % 2 = 0 ∧ 128 + 240 / 8 < 200) ∧
    ∃ r1 r2, clearGray byteArray 240 128 200 (onDevice false (fun _ => 0) 0 0 false []) =
        some r1 ∧
      drawGrayFill byteArray 240 0 0 240 128 200 (onDevice false (fun _ => 0) 0 0 false []) =
        some r2 ∧
      ∀ x y, x < 240 → y < 128 →
        pixel 240 r1.dev.mem x y = decide ((x + y) % 2 = 1) ∧
        pixel 240 r2.dev.mem x y = decide ((x + y) % 2 = 0) ∧
        pixel 240 r1.dev.mem x y = !pixel 240 r2.dev.mem x y :=
  ⟨by decide, gray_complementary 240 128 200 (onDevice false (fun _ => 0) 0 0 false [])
    (by decide) (by decide) (by decide) (by decide) (by decide)⟩

/-! ### The dummy-read flag -/

theorem readStart_needDummyRead (T : Transport σ) (d : Display σ) :
    (readStart T d).needDummyRead = false := by
  cases h : d.needDummyRead <;> simp [readStart, h]

theorem readStart_trace (T : Transport σ) (d : Display σ) :
    (d.needDummyRead = true → ∃ v, (readStart T d).trace = d.trace ++
      [Event.write register_t.Command 0b1101, Event.read register_t.Data v,
       Event.write register_t.Command 0b1101]) ∧
    (d.needDummyRead = false →
      (readStart T d).trace = d.trace ++ [Event.write register_t.Command 0b1101]) := by
  constructor
  · intro h
    exact ⟨(T.read register_t.Data (T.write register_t.Command (0b1101 % 256) d.dev)).1 % 256,
      by simp [readStart, h, write, read]⟩
  · intro h
    simp [readStart, h, write]

theorem run_setCursorAddress_flag (T : Transport σ) (a : Nat) (d : Display σ) :
    ((BasicOp.setCursorAddress a).run T d).needDummyRead = true := rfl

theorem run_startsRead_flag (T : Transport σ) (op : BasicOp) (d : Display σ)
    (h : op.startsRead = true) : (op.run T d).needDummyRead = false := by
  cases op <;> simp [BasicOp.startsRead] at h
  · exact readStart_needDummyRead T d
  · exact readStart_needDummyRead T d

theorem run_other_flag (T : Transport σ) (op : BasicOp) (d : Display σ)
    (h : op.startsRead = false) (hne : ∀ a, op ≠ BasicOp.setCursorAddress a) :
    (op.run T d).needDummyRead = d.needDummyRead := by
  cases op <;> first
    | rfl
    | exact absurd rfl (hne _)
    | (simp [BasicOp.startsRead] at h)

theorem runOps_cons (T : Transport σ) (op : BasicOp) (ops : List BasicOp) (d : Display σ) :
    runOps T (op :: ops) d = runOps T ops (op.run T d) := rfl

theorem runOps_append (T : Transport σ) (ops1 ops2 : List BasicOp) (d : Display σ) :
    runOps T (ops1 ++ ops2) d = runOps T ops2 (runOps T ops1 d) := by
  simp [runOps, List.foldl_append]

/-- After a sequence of basic methods the flag is set exactly when the sequence has a
`setCursorAddress` with no read start after it, or has no read start at all and the flag
was set before the sequence. -/
theorem runOps_flag_iff (T : Transport σ) :
    ∀ (ops : List BasicOp) (d : Display σ),
      (runOps T ops d).needDummyRead = true ↔
        (∃ pre a post, ops = pre ++ BasicOp.setCursorAddress a :: post ∧
          ∀ op ∈ post, op.startsRead = false) ∨
        (d.needDummyRead = true ∧ ∀ op ∈ ops, op.startsRead = false) := by
  intro ops
  induction ops with
  | nil =>
    intro d
    constructor
    · intro h; exact Or.inr ⟨h, fun _ hm => absurd hm (List.not_mem_nil _)⟩
    · rintro (⟨pre, a, post, h, _⟩ | ⟨h, _⟩)
      · exact absurd h (by simp)
      · exact h
  | cons op rest ih =>
    intro d
    rw [runOps_cons, ih]
    constructor
    · rintro (⟨pre, a, post, h, hp⟩ | ⟨hf, hr⟩)
      · exact Or.inl ⟨op :: pre, a, post, by rw [h]; rfl, hp⟩
      · by_cases hsc : ∃ a, op = BasicOp.setCursorAddress a
        · obtain ⟨a, rfl⟩ := hsc
          exact Or.inl ⟨[], a, rest, rfl, hr⟩
        · have hne : ∀ a, op ≠ BasicOp.setCursorAddress a := fun a h => hsc ⟨a, h⟩
          cases hs : op.startsRead with
          | true => rw [run_startsRead_flag T op d hs] at hf; exact absurd hf (by simp)
          | false =>
            rw [run_other_flag T op d hs hne] at hf
            refine Or.inr ⟨hf, ?_⟩
            intro o ho
            rcases List.mem_cons.mp ho with h | h
            · rw [h]; exact hs
            · exact hr o h
    · rintro (⟨pre, a, post, h, hp⟩ | ⟨hf, hr⟩)
      · cases pre with
        | nil =>
          simp only [List.nil_append, List.cons.injEq] at h
          obtain ⟨h1, h2⟩ := h
          subst h1; subst h2
          exact Or.inr ⟨rfl, hp⟩
        | cons p pre' =>
          simp only [List.cons_append, List.cons.injEq] at h
          exact Or.inl ⟨pre', a, post, h.2, hp⟩
      · have hs : op.startsRead = false := hr op (List.mem_cons_self _ _)
        have hr' : ∀ o ∈ rest, o.startsRead = false :=
          fun o ho => hr o (List.mem_cons_of_mem _ ho)
        by_cases hsc : ∃ a, op = BasicOp.setCursorAddress a
        · obtain ⟨a, rfl⟩ := hsc
          exact Or.inr ⟨rfl, hr'⟩
        · have hne : ∀ a, op ≠ BasicOp.setCursorAddress a := fun a h => hsc ⟨a, h⟩
          exact Or.inr ⟨by rw [run_other_flag T op d hs hne]; exact hf, hr'⟩

/-- C24: `needDummyRead` is true right after every `setCursorAddress`, false right after
every `readStart` and `readSingleByte`, and left as it was by `writeStart`,
`writeNextByte`, `writeSingleByte`, `readNextByte`, both `setDataBit`, `clearDataBit` and
`setDisplayDuty`. A `readStart` logs the extra command and discarded read exactly when the
flag is set. Hence, in any sequence of these calls from any state, when `mid` are the calls
since the previous read start `r`, the flag is set before the next `readStart` exactly when
`mid` has a `setCursorAddress`; and in general the flag after a sequence is set exactly
when a `setCursorAddress` occurs with no read start after it, or no read start occurs at
all and the flag was set at the start. -/
theorem needDummyRead_last_cursor_operation (T : Transport σ) :
    (∀ a d, (setCursorAddress T a d).needDummyRead = true) ∧
    (∀ d, (readStart T d).needDummyRead = false) ∧
    (∀ d, (readSingleByte T d).2.needDummyRead = false) ∧
    (∀ d, (writeStart T d).needDummyRead = d.needDummyRead) ∧
    (∀ v d, (writeNextByte T v d).needDummyRead = d.needDummyRead) ∧
    (∀ v d, (writeSingleByte T v d).needDummyRead = d.needDummyRead) ∧
    (∀ d, (readNextByte T d).2.needDummyRead = d.needDummyRead) ∧
    (∀ k d, (setDataBit T k d).needDummyRead = d.needDummyRead) ∧
    (∀ k d, (clearDataBit T k d).needDummyRead = d.needDummyRead) ∧
    (∀ k b d, (setDataBitColor T k b d).needDummyRead = d.needDummyRead) ∧
    (∀ v d, (setDisplayDuty T v d).needDummyRead = d.needDummyRead) ∧
    (∀ d, (d.needDummyRead = true → ∃ v, (readStart T d).trace = d.trace ++
        [Event.write register_t.Command 0b1101, Event.read register_t.Data v,
         Event.write register_t.Command 0b1101]) ∧
      (d.needDummyRead = false →
        (readStart T d).trace = d.trace ++ [Event.write register_t.Command 0b1101])) ∧
    (∀ (pre mid : List BasicOp) (r : BasicOp) (d : Display σ), r.startsRead = true →
      (∀ op ∈ mid, op.startsRead = false) →
      ((runOps T (pre ++ r :: mid) d).needDummyRead = true ↔
        ∃ a, BasicOp.setCursorAddress a ∈ mid)) ∧
    (∀ (ops : List BasicOp) (d : Display σ),
      (runOps T ops d).needDummyRead = true ↔
        (∃ pre a post, ops = pre ++ BasicOp.setCursorAddress a :: post ∧
          ∀ op ∈ post, op.startsRead = false) ∨
        (d.needDummyRead = true ∧ ∀ op ∈ ops, op.startsRead = false)) := by
  refine ⟨fun _ _ => rfl, readStart_needDummyRead T, fun d => readStart_needDummyRead T d,
    fun _ => rfl, fun _ _ => rfl, fun _ _ => rfl, fun _ => rfl, fun _ _ => rfl,
    fun _ _ => rfl, fun _ _ _ => rfl, fun _ _ => rfl, readStart_trace T, ?_,
    runOps_flag_iff T⟩
  intro pre mid r d hr hmid
  rw [runOps_append, runOps_cons, runOps_flag_iff, run_startsRead_flag T r _ hr]
  constructor
  · rintro (⟨p, a, post, h, _⟩ | ⟨h, _⟩)
    · exact ⟨a, by rw [h]; simp⟩
    · exact absurd h (by simp)
  · rintro ⟨a, ha⟩
    obtain ⟨s, t, hst⟩ := List.append_of_mem ha
    refine Or.inl ⟨s, a, t, hst, ?_⟩
    intro op hop
    exact hmid op (by rw [hst]; simp [hop])

/-! ### Drawing does not depend on the dummy-read flag -/

theorem setCursorAddress_flag (T : Transport σ) (a : Nat) (b : Bool) (d : Display σ) :
    setCursorAddress T a { d with needDummyRead := b } = setCursorAddress T a d := rfl

theorem drawHorizontalLine_flag (T : Transport σ) (W x y len pat : Nat) (b : Bool)
    (d : Display σ) :
    drawHorizontalLine T W x y len pat { d with needDummyRead := b } =
      drawHorizontalLine T W x y len pat d := by
  unfold drawHorizontalLine
  rw [setCursorAddress_flag]

theorem forLoop_flag (loop : Nat → Nat → Display σ → Option (Display σ)) (bound : Nat)
    (body : Nat → Display σ → Display σ)
    (hloop0 : ∀ i d, loop 0 i d = none)
    (hloop : ∀ fuel i d, loop (fuel + 1) i d =
      if i < bound then loop fuel ((i + 1) % 256) (body i d) else some d)
    (hbody : ∀ i b d, body i { d with needDummyRead := b } = body i d)
    (fuel i : Nat) (b : Bool) (d : Display σ) :
    (loop fuel i { d with needDummyRead := b }).map Display.outcome =
      (loop fuel i d).map Display.outcome := by
  cases fuel with
  | zero => rw [hloop0, hloop0]
  | succ f =>
    rw [hloop, hloop]
    by_cases h : i < bound
    · rw [if_pos h, if_pos h, hbody]
    · rw [if_neg h, if_neg h]
      rfl

theorem bresenham_flag (T : Transport σ) (W x1 y1 dx dy : Nat) (black : Bool)
    (fuel x0 y0 : Nat) (err : Int) (b : Bool) (d : Display σ) :
    bresenhamUp T W x1 y1 dx dy black fuel x0 y0 err { d with needDummyRead := b } =
      bresenhamUp T W x1 y1 dx dy black fuel x0 y0 err d ∧
    bresenhamDown T W x1 y1 dx dy black fuel x0 y0 err { d with needDummyRead := b } =
      bresenhamDown T W x1 y1 dx dy black fuel x0 y0 err d := by
  cases fuel with
  | zero => exact ⟨rfl, rfl⟩
  | succ f => exact ⟨rfl, rfl⟩

theorem drawLine_flag (T : Transport σ) (W : Nat) (black : Bool) (b : Bool) :
    ∀ (fuel x0 y0 x1 y1 : Nat) (d : Display σ),
      (drawLine T W x0 y0 x1 y1 black fuel { d with needDummyRead := b }).map
          Display.outcome =
        (drawLine T W x0 y0 x1 y1 black fuel d).map Display.outcome := by
  intro fuel
  induction fuel with
  | zero => intro x0 y0 x1 y1 d; rfl
  | succ f ih =>
    intro x0 y0 x1 y1 d
    have hv1 := fun x y len => forLoop_flag (whiteVerticalLoop T W x y len) (y + len)
      (fun j d => clearPixel T W x j d) (fun _ _ => rfl) (fun _ _ _ => rfl)
      (fun _ _ _ => rfl) f y b d
    have hv2 := fun x y len => forLoop_flag (blackVerticalLoop T W x y len) (y + len)
      (fun j d => setPixel T W x j d) (fun _ _ => rfl) (fun _ _ _ => rfl)
      (fun _ _ _ => rfl) f y b d
    simp only [drawLine]
    split_ifs <;> first
      | exact ih _ _ _ _ _
      | rw [drawHorizontalLine_flag]
      | exact hv1 _ _ _
      | exact hv2 _ _ _
      | rw [(bresenham_flag T W _ _ _ _ black f _ _ _ b d).1]
      | rw [(bresenham_flag T W _ _ _ _ black f _ _ _ b d).2]

theorem textRowBegin_flag (T : Transport σ) (W x y : Nat) (b : Bool) (d : Display σ) :
    textRowBegin T W x y { d with needDummyRead := b } = textRowBegin T W x y d := by
  unfold textRowBegin
  by_cases h : x % 8 ≠ 0
  · simp only [h, if_true, setCursorAddress_flag, ne_eq, not_false_eq_true]
  · simp only [h, if_false, setCursorAddress_flag]

/-- C28: for every drawing operation (`clear`, `clearGray`, `setPixel`, `clearPixel`,
`setPixel` with a colour, `drawHorizontalLine` and its black/white forms, the vertical
lines, `drawLine` and its black/white forms, the rectangles, the fills, `drawGrayFill`,
`drawPatternFill`, `drawTextVertical_narrow`, `drawTextVertical_wide`), every argument
tuple, fuel, transport and display state, the run from the state with `needDummyRead`
replaced by an arbitrary `b` returns exactly when the run from the state itself does, and
leaves the same device state and the same transaction log. -/
theorem drawing_ignores_needDummyRead (T : Transport σ) (b : Bool) (d : Display σ) :
    (∀ W H p fuel, (clear T W H p fuel { d with needDummyRead := b }).map Display.outcome =
      (clear T W H p fuel d).map Display.outcome) ∧
    (∀ W H fuel, (clearGray T W H fuel { d with needDummyRead := b }).map Display.outcome =
      (clearGray T W H fuel d).map Display.outcome) ∧
    (∀ W x y, (setPixel T W x y { d with needDummyRead := b }).outcome =
      (setPixel T W x y d).outcome) ∧
    (∀ W x y, (clearPixel T W x y { d with needDummyRead := b }).outcome =
      (clearPixel T W x y d).outcome) ∧
    (∀ W x y c, (setPixelColor T W x y c { d with needDummyRead := b }).outcome =
      (setPixelColor T W x y c d).outcome) ∧
    (∀ W x y len pat,
      (drawHorizontalLine T W x y len pat { d with needDummyRead := b }).outcome =
        (drawHorizontalLine T W x y len pat d).outcome) ∧
    (∀ W x y len, (drawBlackHorizontalLine T W x y len { d with needDummyRead := b }).outcome =
      (drawBlackHorizontalLine T W x y len d).outcome) ∧
    (∀ W x y len, (drawWhiteHorizontalLine T W x y len { d with needDummyRead := b }).outcome =
      (drawWhiteHorizontalLine T W x y len d).outcome) ∧
    (∀ W x y len fuel,
      (drawBlackVerticalLine T W x y len fuel { d with needDummyRead := b }).map
          Display.outcome =
        (drawBlackVerticalLine T W x y len fuel d).map Display.outcome) ∧
    (∀ W x y len fuel,
      (drawWhiteVerticalLine T W x y len fuel { d with needDummyRead := b }).map
          Display.outcome =
        (drawWhiteVerticalLine T W x y len fuel d).map Display.outcome) ∧
    (∀ W x0 y0 x1 y1 c fuel,
      (drawLine T W x0 y0 x1 y1 c fuel { d with needDummyRead := b }).map Display.outcome =
        (drawLine T W x0 y0 x1 y1 c fuel d).map Display.outcome) ∧
    (∀ W x0 y0 x1 y1 fuel,
      (drawBlackLine T W x0 y0 x1 y1 fuel { d with needDummyRead := b }).map Display.outcome =
        (drawBlackLine T W x0 y0 x1 y1 fuel d).map Display.outcome) ∧
    (∀ W x0 y0 x1 y1 fuel,
      (drawWhiteLine T W x0 y0 x1 y1 fuel { d with needDummyRead := b }).map Display.outcome =
        (drawWhiteLine T W x0 y0 x1 y1 fuel d).map Display.outcome) ∧
    (∀ W x y w h fuel,
      (drawBlackRectangle T W x y w h fuel { d with needDummyRead := b }).map Display.outcome =
        (drawBlackRectangle T W x y w h fuel d).map Display.outcome) ∧
    (∀ W x y w h fuel,
      (drawWhiteRectangle T W x y w h fuel { d with needDummyRead := b }).map Display.outcome =
        (drawWhiteRectangle T W x y w h fuel d).map Display.outcome) ∧
    (∀ W x y w h fuel,
      (drawBlackFill T W x y w h fuel { d with needDummyRead := b }).map Display.outcome =
        (drawBlackFill T W x y w h fuel d).map Display.outcome) ∧
    (∀ W x y w h fuel,
      (drawWhiteFill T W x y w h fuel { d with needDummyRead := b }).map Display.outcome =
        (drawWhiteFill T W x y w h fuel d).map Display.outcome) ∧
    (∀ W x y w h fuel,
      (drawGrayFill T W x y w h fuel { d with needDummyRead := b }).map Display.outcome =
        (drawGrayFill T W x y w h fuel d).map Display.outcome) ∧
    (∀ W x y w h pattern fuel,
      (drawPatternFill T W x y w h pattern fuel { d with needDummyRead := b }).map
          Display.outcome =
        (drawPatternFill T W x y w h pattern fuel d).map Display.outcome) ∧
    (∀ W x y string font,
      (drawTextVertical_narrow T W x y string font { d with needDummyRead := b }).outcome =
        (drawTextVertical_narrow T W x y string font d).outcome) ∧
    (∀ W x y string font,
      (drawTextVertical_wide T W x y string font { d with needDummyRead := b }).outcome =
        (drawTextVertical_wide T W x y string font d).outcome) := by
  have hpat : ∀ W x y w h pattern fuel,
      drawPatternFill T W x y w h pattern fuel { d with needDummyRead := b } =
        drawPatternFill T W x y w h pattern fuel d := by
    intro W x y w h pattern fuel
    cases fuel with
    | zero => rfl
    | succ f => simp only [drawPatternFill, patternFillLoop, drawHorizontalLine_flag]
  refine ⟨fun _ _ _ _ => rfl, fun _ _ _ => rfl, fun _ _ _ => rfl, fun _ _ _ => rfl,
    fun _ _ _ _ => rfl, ?_, ?_, ?_, ?_, ?_, ?_, ?_, ?_, ?_, ?_, ?_, ?_, ?_, ?_, ?_, ?_⟩
  · intro W x y len pat
    rw [drawHorizontalLine_flag]
  · intro W x y len
    unfold drawBlackHorizontalLine
    rw [drawHorizontalLine_flag]
  · intro W x y len
    unfold drawWhiteHorizontalLine
    rw [drawHorizontalLine_flag]
  · intro W x y len fuel
    exact forLoop_flag (blackVerticalLoop T W x y len) (y + len)
      (fun j d => setPixel T W x j d) (fun _ _ => rfl) (fun _ _ _ => rfl)
      (fun _ _ _ => rfl) fuel y b d
  · intro W x y len fuel
    exact forLoop_flag (whiteVerticalLoop T W x y len) (y + len)
      (fun j d => clearPixel T W x j d) (fun _ _ => rfl) (fun _ _ _ => rfl)
      (fun _ _ _ => rfl) fuel y b d
  · intro W x0 y0 x1 y1 c fuel
    exact drawLine_flag T W c b fuel x0 y0 x1 y1 d
  · intro W x0 y0 x1 y1 fuel
    exact drawLine_flag T W true b fuel x0 y0 x1 y1 d
  · intro W x0 y0 x1 y1 fuel
    exact drawLine_flag T W false b fuel x0 y0 x1 y1 d
  · intro W x y w h fuel
    simp only [drawBlackRectangle, drawBlackHorizontalLine, drawHorizontalLine_flag]
  · intro W x y w h fuel
    simp only [drawWhiteRectangle, drawWhiteHorizontalLine, drawHorizontalLine_flag]
  · intro W x y w h fuel
    exact forLoop_flag (blackFillLoop T W x y w h) (y + h)
      (fun j d => drawBlackHorizontalLine T W x j w d) (fun _ _ => rfl) (fun _ _ _ => rfl)
      (fun _ _ _ => drawHorizontalLine_flag T W x _ w _ _ _) fuel y b d
  · intro W x y w h fuel
    exact forLoop_flag (whiteFillLoop T W x y w h) (y + h)
      (fun j d => drawWhiteHorizontalLine T W x j w d) (fun _ _ => rfl) (fun _ _ _ => rfl)
      (fun _ _ _ => drawHorizontalLine_flag T W x _ w _ _ _) fuel y b d
  · intro W x y w h fuel
    unfold drawGrayFill
    rw [hpat]
  · intro W x y w h pattern fuel
    rw [hpat]
  · intro W x y string font
    unfold drawTextVertical_narrow
    cases font.height with
    | zero => rfl
    | succ n => rw [narrowRows_succ, narrowRows_succ, textRowBegin_flag]
  · intro W x y string font
    unfold drawTextVertical_wide
    cases font.height with
    | zero => rfl
    | succ n => rw [wideRows_succ, wideRows_succ, textRowBegin_flag]

/-! ### The byte-aligned text fast path against the narrow blitter -/

theorem writeNextByte_congr (T : Transport σ) (v v' : Nat) (d : Display σ)
    (h : v % 256 = v' % 256) : writeNextByte T v d = writeNextByte T v' d := by
  simp only [writeNextByte, write, h]

theorem eq_mod_256_of_testBit (a b : Nat)
    (h : ∀ j, j < 8 → a.testBit j = b.testBit j) : a % 256 = b % 256 := by
  apply Nat.eq_of_testBit_eq
  intro j
  have e : (256 : Nat) = 2 ^ 8 := by norm_num
  rw [e, Nat.testBit_mod_two_pow, Nat.testBit_mod_two_pow]
  by_cases hj : j < 8
  · simp [hj, h j hj]
  · simp [hj]

/-- With an 8-wide font and no pending bits `narrowLoop` writes one glyph byte per
character, as the aligned loop of the fast path does. -/
theorem narrowLoop_aligned (T : Transport σ) (font : Font) (r : Nat) (hw : font.width = 8)
    (hh : font.height = 16) :
    ∀ (s : List Nat) (d : Display σ), (∀ c ∈ s, c ≠ 0) →
      narrowLoop T font r s 0 0 d = ([], 0, 0, alignedLoop_8x16 T font r s d) := by
  intro s
  induction s with
  | nil => intro d _; rfl
  | cons c cs ih =>
    intro d hc
    have hc0 : c ≠ 0 := hc c (List.mem_cons_self _ _)
    have hb := byteAt_lt font ((charValue c - 32) * 16 + (r : Int))
    have e1 : font.byteAt ((charValue c - 32) * 16 + (r : Int)) >>> (8 - 0) = 0 := by
      rw [Nat.shiftRight_eq_div_pow]
      exact Nat.div_eq_of_lt (by simpa using hb)
    rw [narrowLoop_cons_signed T font r c cs 0 0 d hc0, hw, hh, Nat.cast_ofNat,
      pushBits_eight T _ 0 0 d (by omega)]
    simp only []
    rw [e1, ih _ (fun c' h' => hc c' (List.mem_cons_of_mem _ h'))]
    rw [alignedLoop_8x16, if_neg hc0]
    rw [writeNextByte_congr T _ (font.byteAt ((charValue c - 32) * 16 + (r : Int))) d
      (by simp)]

/-- With an 8-wide font and `p` pending bits `narrowLoop` writes, per character, the byte
the "Middle blocks" loop of the fast path writes. -/
theorem narrowLoop_unaligned (T : Transport σ) (font : Font) (r p : Nat)
    (hw : font.width = 8) (hh : font.height = 16) (hp : p < 8) :
    ∀ (s : List Nat) (prev : Nat) (d : Display σ), (∀ c ∈ s, c ≠ 0) →
      (middleLoop_8x16 T font r p s prev d).1 = [] ∧
      narrowLoop T font r s p (prev >>> (8 - p)) d =
        ([], p, (middleLoop_8x16 T font r p s prev d).2.1 >>> (8 - p),
          (middleLoop_8x16 T font r p s prev d).2.2) := by
  intro s
  induction s with
  | nil => intro prev d _; exact ⟨rfl, rfl⟩
  | cons c cs ih =>
    intro prev d hc
    have hc0 : c ≠ 0 := hc c (List.mem_cons_self _ _)
    rw [narrowLoop_cons_signed T font r c cs p _ d hc0, hw, hh, Nat.cast_ofNat,
      pushBits_eight T _ p _ d hp]
    simp only []
    rw [middleLoop_8x16, if_neg hc0]
    simp only []
    obtain ⟨i1, i2⟩ := ih (font.byteAt ((charValue c - 32) * 16 + (r : Int)))
      (writeNextByte T
        ((prev >>> (8 - p)) ||| (font.byteAt ((charValue c - 32) * 16 + (r : Int)) <<< p)) d)
      (fun c' h' => hc c' (List.mem_cons_of_mem _ h'))
    refine ⟨i1, ?_⟩
    rw [writeNextByte_congr T _
      ((prev >>> (8 - p)) ||| (font.byteAt ((charValue c - 32) * 16 + (r : Int)) <<< p))
      d (by simp), i2]

theorem narrowRows_eq_alignedRows (T : Transport σ) (W x : Nat) (s : List Nat)
    (font : Font) (hw : font.width = 8) (hh : font.height = 16) (hx : x % 8 = 0)
    (hs : ∀ c ∈ s, c ≠ 0) :
    ∀ (rows r y : Nat) (d : Display σ),
      narrowRows T W x s font rows r y d = alignedRows_8x16 T W x s font rows r y d := by
  intro rows
  induction rows with
  | zero => intro r y d; rfl
  | succ n ih =>
    intro r y d
    have hb : textRowBegin T W x y d =
        (0, 0, writeStart T (setCursorAddress T (W / 8 * y + x / 8) d)) := by
      simp [textRowBegin, hx]
    rw [narrowRows_succ, hb]
    simp only []
    rw [narrowLoop_aligned T font r hw hh s _ hs]
    simp only [textRowEnd, gt_iff_lt, lt_self_iff_false, if_false]
    rw [alignedRows_8x16]
    exact ih _ _ _

theorem narrowRows_eq_unalignedRows (T : Transport σ) (W x : Nat) (c0 : Nat) (cs : List Nat)
    (font : Font) (hw : font.width = 8) (hh : font.height = 16) (hx : x % 8 ≠ 0)
    (hs : ∀ c ∈ c0 :: cs, c ≠ 0) (hlen : 8 * (c0 :: cs).length + x % 8 < 256) :
    ∀ (rows r y : Nat) (d : Display σ),
      narrowRows T W x (c0 :: cs) font rows r y d =
        unalignedRows_8x16 T W x (c0 :: cs) font rows r y d := by
  intro rows
  induction rows with
  | zero => intro r y d; rfl
  | succ n ih =>
    intro r y d
    have hp : x % 8 < 8 := Nat.mod_lt _ (by norm_num)
    have hc0 : c0 ≠ 0 := hs c0 (List.mem_cons_self _ _)
    have hcs : ∀ c ∈ cs, c ≠ 0 := fun c h => hs c (List.mem_cons_of_mem _ h)
    have hb : textRowBegin T W x y d =
        (x % 8,
          (andNot (readSingleByte T (setCursorAddress T (W / 8 * y + x / 8) d)).1
            (0b11111111 <<< (x % 8))) % 256,
          writeStart T (setCursorAddress T (W / 8 * y + x / 8)
            (readSingleByte T (setCursorAddress T (W / 8 * y + x / 8) d)).2)) := by
      simp [textRowBegin, hx]
    obtain ⟨m1, m2⟩ := narrowLoop_unaligned T font r (x % 8) hw hh hp cs
      (font.byteAt ((charValue c0 - 32) * 16 + (r : Int)))
      (writeNextByte T
        ((andNot (readSingleByte T (setCursorAddress T (W / 8 * y + x / 8) d)).1
            ((0b11111111 <<< (x % 8)) % 256)) |||
          (font.byteAt ((charValue c0 - 32) * 16 + (r : Int)) <<< (x % 8)))
        (writeStart T (setCursorAddress T (W / 8 * y + x / 8)
          (readSingleByte T (setCursorAddress T (W / 8 * y + x / 8) d)).2))) hcs
    have hv1 : ∀ (c data : Nat),
        ((andNot c (0b11111111 <<< (x % 8)) % 256 ||| data <<< (x % 8)) % 256) % 256 =
          (andNot c ((0b11111111 <<< (x % 8)) % 256) ||| data <<< (x % 8)) % 256 := by
      intro c data
      rw [Nat.mod_mod]
      apply eq_mod_256_of_testBit
      intro j hj
      simp only [Nat.testBit_or, testBit_andNot, testBit_mod_256 _ _ hj]
    have hv2 : ∀ (nb c : Nat),
        ((nb ||| (c &&& (0b11111111 <<< (x % 8)))) % 256) % 256 =
          (nb ||| (c &&& ((0b11111111 <<< (x % 8)) % 256))) % 256 := by
      intro nb c
      rw [Nat.mod_mod]
      apply eq_mod_256_of_testBit
      intro j hj
      simp only [Nat.testBit_or, Nat.testBit_and, testBit_mod_256 _ _ hj]
    have hA : (((c0 :: cs).length - 0) * 8 + x % 8) % 256 / 8 = (c0 :: cs).length := by
      omega
    rw [narrowRows_succ, hb]
    simp only []
    rw [narrowLoop_cons_signed T font r c0 cs _ _ _ hc0, hw, hh, Nat.cast_ofNat,
      pushBits_eight T _ _ _ _ hp]
    simp only []
    rw [writeNextByte_congr T _ _ _ (hv1 _ _), m2]
    simp only [List.length_nil]
    rw [unalignedRows_8x16]
    simp only [List.headD_cons, List.tail_cons, m1, List.length_nil]
    rw [← ih]
    congr 1
    unfold textRowEnd
    rw [if_pos (by omega), hA, writeNextByte_congr T _ _ _ (hv2 _ _)]
    simp only [Nat.sub_zero]

/-- C26: for a font whose header is 8 x 16, a non-empty string `s` of `n` characters
(none of them NUL) and `x + 8*n <= W` (8-bit width), `y + 16 <= H`,
`drawTextVertical_8x16(x, y, s, font)` returns the same display, hence emits exactly the
same transaction trace, as `drawTextVertical_narrow(x, y, s, font)`, for aligned and
unaligned `x`, on every transport; so `drawTextVertical` behaves the same with and without
the fast path compiled in. -/
theorem drawTextVertical_8x16_eq_narrow (T : Transport σ) (W H x y : Nat) (s : List Nat)
    (font : Font) (d : Display σ) (hw : font.width = 8) (hh : font.height = 16)
    (hne : s ≠ []) (hs : ∀ c ∈ s, c ≠ 0) (hW : W < 256) (hxw : x + 8 * s.length ≤ W)
    (_hyh : y + 16 ≤ H) :
    drawTextVertical_8x16 T W x y s font d = drawTextVertical_narrow T W x y s font d ∧
    (drawTextVertical_8x16 T W x y s font d).trace =
      (drawTextVertical_narrow T W x y s font d).trace ∧
    drawTextVertical T true W x y s font d = drawTextVertical T false W x y s font d := by
  have key : drawTextVertical_8x16 T W x y s font d =
      drawTextVertical_narrow T W x y s font d := by
    cases s with
    | nil => exact absurd rfl hne
    | cons c0 cs =>
      have hc0 : c0 ≠ 0 := hs c0 (List.mem_cons_self _ _)
      unfold drawTextVertical_8x16 drawTextVertical_narrow
      rw [List.headD_cons, if_neg hc0, hh]
      by_cases hx : x % 8 ≠ 0
      · rw [if_pos hx]
        exact (narrowRows_eq_unalignedRows T W x c0 cs font hw hh hx hs
          (by have := Nat.mod_le x 8; omega) 16 0 y d).symm
      · rw [if_neg hx]
        exact (narrowRows_eq_alignedRows T W x (c0 :: cs) font hw hh (by omega) hs
          16 0 y d).symm
  refine ⟨key, by rw [key], ?_⟩
  simp only [drawTextVertical, hw, hh, and_self, if_true, true_and, Bool.false_eq_true,
    false_and, if_false, le_refl, key]

theorem drawTextVertical_8x16_eq_narrow_witness :
    (sampleFont_8x16.width = 8 ∧ sampleFont_8x16.height = 16 ∧ [72, 105] ≠ [] ∧
      (∀ c ∈ [72, 105], c ≠ 0) ∧ 240 < 256 ∧ 3 + 8 * [72, 105].length ≤ 240 ∧
      5 + 16 ≤ 128) ∧
    (drawTextVertical_8x16 byteArray 240 3 5 [72, 105] sampleFont_8x16
        (onDevice false (fun _ => 0x5A) 0 0 false [])).trace =
      (drawTextVertical_narrow byteArray 240 3 5 [72, 105] sampleFont_8x16
        (onDevice false (fun _ => 0x5A) 0 0 false [])).trace :=
  ⟨by decide, (drawTextVertical_8x16_eq_narrow byteArray 240 128 3 5 [72, 105]
    sampleFont_8x16 (onDevice false (fun _ => 0x5A) 0 0 false []) (by decide) (by decide)
    (by decide) (by decide) (by decide) (by decide) (by decide)).2.1⟩

/-! ### The pixels of the Bresenham loops -/

/-- The steps of a Bresenham loop of `drawLine`, counted in steps left: with `a` horizontal
and `b` vertical steps left the loop plots, for each of a list `ab` of pairs of steps left,
the pixel `(x1 - a', ypos b')`. The list runs from `(a, b)` to `(0, 0)`, each entry taking
off at most one step per axis and at least one step; it has `a + 1` entries when
`dy <= dx` and `b + 1` when `dx < dy`. The same list serves every loop that differs only
in the direction of `y` (`ynext`, `ypos`). -/
theorem bresenham_steps (x1 dx dy : Nat)
    (hx1 : x1 < 256) (hdx : 1 ≤ dx) (hdy : 1 ≤ dy) (hdx2 : dx < 256) (hdy2 : dy < 256) :
    ∀ (n fuel a b : Nat) (err : Int),
      a + b ≤ n → n < fuel → a ≤ x1 → b ≤ dy →
      err = (dx : Int) - dy + (a : Int) * dy - (b : Int) * dx →
      -3 * (dy : Int) ≤ 2 * err → 2 * err ≤ 3 * (dx : Int) →
      (dy ≤ dx → -(dy : Int) ≤ 2 * err) → (dx < dy → 2 * err ≤ (dx : Int)) →
      ∃ ab : List (Nat × Nat),
        ab.head? = some (a, b) ∧ ab.getLast? = some (0, 0) ∧
        (dy ≤ dx → ab.length = a + 1) ∧ (dx < dy → ab.length = b + 1) ∧
        List.Chain' (fun p q : Nat × Nat => (q.1 = p.1 ∨ q.1 + 1 = p.1) ∧
          (q.2 = p.2 ∨ q.2 + 1 = p.2) ∧ (q.1 + 1 = p.1 ∨ q.2 + 1 = p.2)) ab ∧
        (∀ q ∈ ab, q.1 ≤ a ∧ q.2 ≤ b) ∧
        ∀ (T : Transport σ) (W y1 : Nat) (black : Bool)
          (loop : Nat → Nat → Nat → Int → Display σ → Option (Display σ))
          (ynext ypos : Nat → Nat),
          (∀ fuel x0 y0 err d, loop (fuel + 1) x0 y0 err d =
            if x0 = x1 ∧ y0 = y1 then some (setPixelColor T W x0 y0 black d)
            else loop fuel
              (if wrap16 (-(wrap16 (2 * err))) ≤ dy then (wrap16 (err - dy), (x0 + 1) % 256)
                else (err, x0)).2
              (if wrap16 (2 * err) ≤ dx then
                (wrap16 ((if wrap16 (-(wrap16 (2 * err))) ≤ dy then
                  (wrap16 (err - dy), (x0 + 1) % 256) else (err, x0)).1 + dx), ynext y0)
                else ((if wrap16 (-(wrap16 (2 * err))) ≤ dy then
                  (wrap16 (err - dy), (x0 + 1) % 256) else (err, x0)).1, y0)).2
              (if wrap16 (2 * err) ≤ dx then
                (wrap16 ((if wrap16 (-(wrap16 (2 * err))) ≤ dy then
                  (wrap16 (err - dy), (x0 + 1) % 256) else (err, x0)).1 + dx), ynext y0)
                else ((if wrap16 (-(wrap16 (2 * err))) ≤ dy then
                  (wrap16 (err - dy), (x0 + 1) % 256) else (err, x0)).1, y0)).1
              (setPixelColor T W x0 y0 black d)) →
          ypos 0 = y1 →
          (∀ b, 1 ≤ b → b ≤ dy → ynext (ypos b) = ypos (b - 1)) →
          (∀ b, 1 ≤ b → b ≤ dy → ypos b ≠ y1) →
          ∀ d : Display σ, loop fuel (x1 - a) (ypos b) err d =
            some ((ab.map (fun q => (x1 - q.1, ypos q.2))).foldl
              (fun d p => setPixelColor T W p.1 p.2 black d) d) := by
  intro n
  induction n with
  | zero =>
    intro fuel a b err hab hf ha hb herr hlo hhi hJ1 hJ2
    have ha0 : a = 0 := by omega
    have hb0 : b = 0 := by omega
    subst ha0; subst hb0
    obtain ⟨f, rfl⟩ : ∃ f, fuel = f + 1 := ⟨fuel - 1, by omega⟩
    refine ⟨[(0, 0)], rfl, rfl, fun _ => rfl, fun _ => rfl, List.chain'_singleton _, ?_, ?_⟩
    · intro q hq
      rw [List.mem_singleton] at hq
      subst hq
      exact ⟨le_refl _, le_refl _⟩
    · intro T W y1 black loop ynext ypos hloop hy0 hynext hyne d
      rw [hloop, if_pos ⟨by omega, hy0⟩]
      rfl
  | succ n ih =>
    intro fuel a b err hab hf ha hb herr hlo hhi hJ1 hJ2
    obtain ⟨f, rfl⟩ : ∃ f, fuel = f + 1 := ⟨fuel - 1, by omega⟩
    by_cases hfin : a = 0 ∧ b = 0
    · obtain ⟨ha0, hb0⟩ := hfin
      subst ha0; subst hb0
      refine ⟨[(0, 0)], rfl, rfl, fun _ => rfl, fun _ => rfl, List.chain'_singleton _, ?_, ?_⟩
      · intro q hq
        rw [List.mem_singleton] at hq
        subst hq
        exact ⟨le_refl _, le_refl _⟩
      · intro T W y1 black loop ynext ypos hloop hy0 hynext hyne d
        rw [hloop, if_pos ⟨by omega, hy0⟩]
        rfl
    · have hw1 : wrap16 (2 * err) = 2 * err := wrap16_id _ (by omega) (by omega)
      have hw2 : wrap16 (-(2 * err)) = -(2 * err) := wrap16_id _ (by omega) (by omega)
      have hw3 : wrap16 (err - dy) = err - dy := wrap16_id _ (by omega) (by omega)
      have hw4 : wrap16 (err - dy + dx) = err - dy + dx := wrap16_id _ (by omega) (by omega)
      have hw5 : wrap16 (err + dx) = err + dx := wrap16_id _ (by omega) (by omega)
      -- the products, as atoms
      have hP : (0 : Int) ≤ (a : Int) * dy := by positivity
      have hQ : (0 : Int) ≤ (b : Int) * dx := by positivity
      have hPa : 1 ≤ a → (dy : Int) ≤ (a : Int) * dy := by
        intro h; nlinarith
      have hQb : 1 ≤ b → (dx : Int) ≤ (b : Int) * dx := by
        intro h; nlinarith
      have hP0 : a = 0 → (a : Int) * dy = 0 := by intro h; simp [h]
      have hQ0 : b = 0 → (b : Int) * dx = 0 := by intro h; simp [h]
      have hPs : 1 ≤ a → ((a - 1 : Nat) : Int) * dy = (a : Int) * dy - dy := by
        intro h; rw [Nat.cast_sub h]; push_cast; ring
      have hQs : 1 ≤ b → ((b - 1 : Nat) : Int) * dx = (b : Int) * dx - dx := by
        intro h; rw [Nat.cast_sub h]; push_cast; ring
      generalize hPdef : (a : Int) * dy = P at *
      generalize hQdef : (b : Int) * dx = Q at *
      by_cases hxs : -(2 * err) ≤ (dy : Int)
      · -- a horizontal step
        have ha1 : 1 ≤ a := by
          by_contra h
          have ha0 : a = 0 := by omega
          have hb1 : 1 ≤ b := by
            by_contra hb'
            exact hfin ⟨ha0, by omega⟩
          have := hP0 ha0
          have := hQb hb1
          omega
        have hxn : (x1 - a + 1) % 256 = x1 - (a - 1) := by omega
        by_cases hys : 2 * err ≤ (dx : Int)
        · -- and a vertical step
          have hb1 : 1 ≤ b := by
            by_contra h
            have hb0 : b = 0 := by omega
            have := hQ0 hb0
            have := hPa ha1
            omega
          obtain ⟨ab, e1, e2, e3, e4, e5, e6, e7⟩ := ih f (a - 1) (b - 1) (err - dy + dx)
            (by omega) (by omega) (by omega) (by omega)
            (by rw [hPs ha1, hQs hb1]; omega) (by omega) (by omega) (by omega) (by omega)
          refine ⟨(a, b) :: ab, rfl, ?_, ?_, ?_, ?_, ?_, ?_⟩
          · cases ab with
            | nil => simp at e1
            | cons p ps => simpa using e2
          · intro h; rw [List.length_cons, e3 h]; omega
          · intro h; rw [List.length_cons, e4 h]; omega
          · rw [List.chain'_cons']
            refine ⟨?_, e5⟩
            intro q hq
            rw [e1] at hq
            cases hq
            exact ⟨Or.inr (by show a - 1 + 1 = a; omega),
              Or.inr (by show b - 1 + 1 = b; omega), Or.inl (by show a - 1 + 1 = a; omega)⟩
          · intro q hq
            rcases List.mem_cons.mp hq with h | h
            · subst h; exact ⟨le_refl _, le_refl _⟩
            · have := e6 q h; omega
          · intro T W y1 black loop ynext ypos hloop hy0 hynext hyne d
            have hne : ¬ (x1 - a = x1 ∧ ypos b = y1) := fun h => hyne b hb1 hb h.2
            rw [hloop, if_neg hne, hw1, hw2]
            simp only [hxs, hys, if_true, hw3, hw4, hxn, hynext b hb1 hb]
            rw [e7 T W y1 black loop ynext ypos hloop hy0 hynext hyne]
            rfl
        · obtain ⟨ab, e1, e2, e3, e4, e5, e6, e7⟩ := ih f (a - 1) b (err - dy)
            (by omega) (by omega) (by omega) (by omega)
            (by rw [hPs ha1]; omega) (by omega) (by omega) (by omega) (by omega)
          refine ⟨(a, b) :: ab, rfl, ?_, ?_, ?_, ?_, ?_, ?_⟩
          · cases ab with
            | nil => simp at e1
            | cons p ps => simpa using e2
          · intro h; rw [List.length_cons, e3 h]; omega
          · intro h; exact absurd (hJ2 h) hys
          · rw [List.chain'_cons']
            refine ⟨?_, e5⟩
            intro q hq
            rw [e1] at hq
            cases hq
            exact ⟨Or.inr (by show a - 1 + 1 = a; omega), Or.inl rfl,
              Or.inl (by show a - 1 + 1 = a; omega)⟩
          · intro q hq
            rcases List.mem_cons.mp hq with h | h
            · subst h; exact ⟨le_refl _, le_refl _⟩
            · have := e6 q h; omega
          · intro T W y1 black loop ynext ypos hloop hy0 hynext hyne d
            have hne : ¬ (x1 - a = x1 ∧ ypos b = y1) := fun h => by omega
            rw [hloop, if_neg hne, hw1, hw2]
            simp only [hxs, hys, if_true, if_false, hw3, hxn]
            rw [e7 T W y1 black loop ynext ypos hloop hy0 hynext hyne]
            rfl
      · -- no horizontal step: a vertical step
        have hys : 2 * err ≤ (dx : Int) := by omega
        have hb1 : 1 ≤ b := by
          by_contra h
          have hb0 : b = 0 := by omega
          have ha1 : 1 ≤ a := by
            by_contra ha'
            exact hfin ⟨by omega, hb0⟩
          have := hQ0 hb0
          have := hPa ha1
          omega
        obtain ⟨ab, e1, e2, e3, e4, e5, e6, e7⟩ := ih f a (b - 1) (err + dx)
          (by omega) (by omega) (by omega) (by omega)
          (by rw [hQs hb1]; omega) (by omega) (by omega) (by omega) (by omega)
        refine ⟨(a, b) :: ab, rfl, ?_, ?_, ?_, ?_, ?_, ?_⟩
        · cases ab with
          | nil => simp at e1
          | cons p ps => simpa using e2
        · intro h; have := hJ1 h; omega
        · intro h; rw [List.length_cons, e4 h]; omega
        · rw [List.chain'_cons']
          refine ⟨?_, e5⟩
          intro q hq
          rw [e1] at hq
          cases hq
          exact ⟨Or.inl rfl, Or.inr (by show b - 1 + 1 = b; omega),
            Or.inr (by show b - 1 + 1 = b; omega)⟩
        · intro q hq
          rcases List.mem_cons.mp hq with h | h
          · subst h; exact ⟨le_refl _, le_refl _⟩
          · have := e6 q h; omega
        · intro T W y1 black loop ynext ypos hloop hy0 hynext hyne d
          have hne : ¬ (x1 - a = x1 ∧ ypos b = y1) := fun h => hyne b hb1 hb h.2
          rw [hloop, if_neg hne, hw1, hw2]
          simp only [hxs, hys, if_true, if_false, hw5, hynext b hb1 hb]
          rw [e7 T W y1 black loop ynext ypos hloop hy0 hynext hyne]
          rfl

/-- The Bresenham branch of `drawLine` for `x0 < x1` and `dy >= 1` vertical steps, in
either direction: one list of steps left serves the line up to `y0 + dy` and the line down
to `y0 - dy`. -/
theorem drawLine_bresenham_steps (x0 x1 dy fuel : Nat) (hx : x0 < x1) (hx1 : x1 < 256)
    (hdy : 1 ≤ dy) (hdy2 : dy < 256) (hf : 512 ≤ fuel) :
    ∃ ab : List (Nat × Nat),
      ab.head? = some (x1 - x0, dy) ∧ ab.getLast? = some (0, 0) ∧
      ab.length = max (x1 - x0) dy + 1 ∧
      List.Chain' (fun p q : Nat × Nat => (q.1 = p.1 ∨ q.1 + 1 = p.1) ∧
        (q.2 = p.2 ∨ q.2 + 1 = p.2) ∧ (q.1 + 1 = p.1 ∨ q.2 + 1 = p.2)) ab ∧
      (∀ q ∈ ab, q.1 ≤ x1 - x0 ∧ q.2 ≤ dy) ∧
      (∀ (T : Transport σ) (W : Nat) (black : Bool) (d : Display σ) (y0 y1 : Nat),
        y0 + dy = y1 → y1 < 256 →
        drawLine T W x0 y0 x1 y1 black fuel d =
          some ((ab.map (fun q => (x1 - q.1, y1 - q.2))).foldl
            (fun d p => setPixelColor T W p.1 p.2 black d) d)) ∧
      (∀ (T : Transport σ) (W : Nat) (black : Bool) (d : Display σ) (y0 y1 : Nat),
        y1 + dy = y0 → y0 < 256 →
        drawLine T W x0 y0 x1 y1 black fuel d =
          some ((ab.map (fun q => (x1 - q.1, y1 + q.2))).foldl
            (fun d p => setPixelColor T W p.1 p.2 black d) d)) := by
  obtain ⟨f, rfl⟩ : ∃ f, fuel = f + 1 := ⟨fuel - 1, by omega⟩
  have hw : wrap16 (((x1 - x0 : Nat) : Int) - (dy : Int)) = ((x1 - x0 : Nat) : Int) - (dy : Int) :=
    wrap16_id _ (by omega) (by omega)
  obtain ⟨ab, e1, e2, e3, e4, e5, e6, e7⟩ := bresenham_steps x1 (x1 - x0) dy hx1 (by omega)
    hdy (by omega) hdy2 (x1 - x0 + dy) f (x1 - x0) dy (((x1 - x0 : Nat) : Int) - (dy : Int))
    (le_refl _) (by omega) (by omega) (le_refl _) (by ring) (by omega) (by omega)
    (by omega) (by omega)
  have hdx : (x1 + 256 - x0) % 256 = x1 - x0 := by omega
  have hxx : x1 - (x1 - x0) = x0 := by omega
  refine ⟨ab, e1, e2, ?_, e5, e6, ?_, ?_⟩
  · by_cases h : dy ≤ x1 - x0
    · rw [e3 h, max_eq_left h]
    · rw [e4 (by omega), max_eq_right (by omega)]
  · intro T W black d y0 y1 hy hy1
    have hne : y0 ≠ y1 := by omega
    have hu : y1 > y0 := by omega
    have hdyy : (y1 + 256 - y0) % 256 = dy := by omega
    have hyy : y1 - dy = y0 := by omega
    rw [drawLine, if_neg (by omega)]
    simp only [hdx, hne, if_false, hu, if_true, hdyy]
    rw [if_neg (by omega), hw]
    have := e7 T W y1 black (bresenhamUp T W x1 y1 (x1 - x0) dy black)
      (fun y => (y + 1) % 256) (fun b => y1 - b) (fun _ _ _ _ _ => rfl) rfl
      (by intro b h1 h2; show (y1 - b + 1) % 256 = y1 - (b - 1); omega)
      (by intro b h1 h2; show y1 - b ≠ y1; omega) d
    simpa only [hxx, hyy] using this
  · intro T W black d y0 y1 hy hy0
    have hne : y0 ≠ y1 := by omega
    have hu : ¬ y1 > y0 := by omega
    have hdyy : (y0 + 256 - y1) % 256 = dy := by omega
    have hyy : y1 + dy = y0 := by omega
    rw [drawLine, if_neg (by omega)]
    simp only [hdx, hne, if_false, hu, hdyy]
    rw [if_neg (by omega), hw]
    have := e7 T W y1 black (bresenhamDown T W x1 y1 (x1 - x0) dy black)
      (fun y => (y + 256 - 1) % 256) (fun b => y1 + b) (fun _ _ _ _ _ => rfl) rfl
      (by intro b h1 h2; show (y1 + b + 256 - 1) % 256 = y1 + (b - 1); omega)
      (by intro b h1 h2; show y1 + b ≠ y1; omega) d
    simpa only [hxx, hyy] using this

theorem foldl_setPixelColor_trace (T : Transport σ) (W : Nat) (black : Bool) :
    ∀ (pts : List (Nat × Nat)) (d : Display σ),
      (pts.foldl (fun d p => setPixelColor T W p.1 p.2 black d) d).trace =
        d.trace ++ pts.flatMap (setPixelEvents W black) := by
  intro pts
  induction pts with
  | nil => intro d; simp
  | cons p ps ih =>
    intro d
    rw [List.foldl_cons, ih, setPixelColor_trace, List.flatMap_cons, List.append_assoc]

/-- C22: for `x0 < x1`, `d >= 1`, `y0 - d >= 0` and `y0 + d <= 255`, the two Bresenham
direction cases are mirror images: there is a list `pts` of pixels, from `(x0, y0)` to
`(x1, y0 + d)` and with rows in `[y0, y0 + d]`, such that `drawLine(x0, y0, x1, y0 + d, c)`
returns and is the sequence of `setPixel(x, y, c)` calls over `pts`, and
`drawLine(x0, y0, x1, y0 - d, c)` returns and is the same sequence with every `y` replaced
by `2*y0 - y`; the transaction logs are the corresponding pixel transactions. -/
theorem drawLine_mirror (T : Transport σ) (W x0 y0 x1 dd : Nat) (c : Bool) (fuel : Nat)
    (d : Display σ) (hx : x0 < x1) (hx1 : x1 < 256) (hd : 1 ≤ dd) (hlo : dd ≤ y0)
    (hhi : y0 + dd ≤ 255) (hf : 512 ≤ fuel) :
    ∃ pts : List (Nat × Nat),
      drawLine T W x0 y0 x1 (y0 + dd) c fuel d =
        some (pts.foldl (fun d p => setPixelColor T W p.1 p.2 c d) d) ∧
      drawLine T W x0 y0 x1 (y0 - dd) c fuel d =
        some ((pts.map (fun p => (p.1, 2 * y0 - p.2))).foldl
          (fun d p => setPixelColor T W p.1 p.2 c d) d) ∧
      (drawLine T W x0 y0 x1 (y0 + dd) c fuel d).map Display.trace =
        some (d.trace ++ pts.flatMap (setPixelEvents W c)) ∧
      (drawLine T W x0 y0 x1 (y0 - dd) c fuel d).map Display.trace =
        some (d.trace ++
          (pts.map (fun p => (p.1, 2 * y0 - p.2))).flatMap (setPixelEvents W c)) ∧
      pts.head? = some (x0, y0) ∧ pts.getLast? = some (x1, y0 + dd) ∧
      ∀ p ∈ pts, y0 ≤ p.2 ∧ p.2 ≤ y0 + dd := by
  obtain ⟨ab, e1, e2, _, _, e6, hU, hD⟩ :=
    @drawLine_bresenham_steps σ x0 x1 dd fuel hx hx1 hd (by omega) hf
  have hup := hU T W c d y0 (y0 + dd) rfl (by omega)
  have hdown := hD T W c d y0 (y0 - dd) (by omega) (by omega)
  have hmap : (ab.map (fun q => (x1 - q.1, y0 + dd - q.2))).map
      (fun p => (p.1, 2 * y0 - p.2)) = ab.map (fun q => (x1 - q.1, y0 - dd + q.2)) := by
    rw [List.map_map]
    apply List.map_congr_left
    intro q hq
    have := e6 q hq
    show (x1 - q.1, 2 * y0 - (y0 + dd - q.2)) = (x1 - q.1, y0 - dd + q.2)
    congr 1
    omega
  refine ⟨ab.map (fun q => (x1 - q.1, y0 + dd - q.2)), hup, ?_, ?_, ?_, ?_, ?_, ?_⟩
  · rw [hmap]; exact hdown
  · rw [hup, Option.map_some', foldl_setPixelColor_trace]
  · rw [hmap, hdown, Option.map_some', foldl_setPixelColor_trace]
  · rw [List.head?_map, e1]
    show some (x1 - (x1 - x0), y0 + dd - dd) = some (x0, y0)
    congr 2 <;> omega
  · rw [List.getLast?_map, e2]
    rfl
  · intro p hp
    obtain ⟨q, hq, rfl⟩ := List.mem_map.mp hp
    have := e6 q hq
    show y0 ≤ y0 + dd - q.2 ∧ y0 + dd - q.2 ≤ y0 + dd
    omega

theorem drawLine_mirror_witness :
    (2 < 9 ∧ 9 < 256 ∧ 1 ≤ 3 ∧ 3 ≤ 5 ∧ 5 + 3 ≤ 255 ∧ 512 ≤ 512) ∧
    ∃ pts : List (Nat × Nat),
      drawLine byteArray 240 2 5 9 (5 + 3) true 512
          (onDevice false (fun _ => 0) 0 0 false []) =
        some (pts.foldl (fun d p => setPixelColor byteArray 240 p.1 p.2 true d)
          (onDevice false (fun _ => 0) 0 0 false [])) ∧
      drawLine byteArray 240 2 5 9 (5 - 3) true 512
          (onDevice false (fun _ => 0) 0 0 false []) =
        some ((pts.map (fun p => (p.1, 2 * 5 - p.2))).foldl
          (fun d p => setPixelColor byteArray 240 p.1 p.2 true d)
          (onDevice false (fun _ => 0) 0 0 false [])) :=
  ⟨by decide,
    (drawLine_mirror byteArray 240 2 5 9 3 true 512 (onDevice false (fun _ => 0) 0 0 false [])
      (by decide) (by decide) (by decide) (by decide) (by decide) (by decide)).imp
      (fun _ h => ⟨h.1, h.2.1⟩)⟩

/-- C23: for `x0 < x1` and `y0 != y1` (8-bit coordinates), with `dx = x1 - x0` and
`dy = |y1 - y0|`, the Bresenham loop of `drawLine` returns and is the sequence of
`setPixel` calls over a list of exactly `max(dx, dy) + 1` pixels from `(x0, y0)` to
`(x1, y1)`; between consecutive pixels `x` changes by 0 or +1 and `y` by 0 or one step
toward `y1`, never both by 0; every plotted `x` lies in `[x0, x1]` and every plotted `y`
between `y0` and `y1`. -/
theorem drawLine_bresenham_pixels (T : Transport σ) (W x0 y0 x1 y1 : Nat) (black : Bool)
    (fuel : Nat) (d : Display σ) (hx : x0 < x1) (hy : y0 ≠ y1) (hx1 : x1 < 256)
    (hy0 : y0 < 256) (hy1 : y1 < 256) (hf : 512 ≤ fuel) :
    ∃ pts : List (Nat × Nat),
      drawLine T W x0 y0 x1 y1 black fuel d =
        some (pts.foldl (fun d p => setPixelColor T W p.1 p.2 black d) d) ∧
      (drawLine T W x0 y0 x1 y1 black fuel d).map Display.trace =
        some (d.trace ++ pts.flatMap (setPixelEvents W black)) ∧
      pts.length = max (x1 - x0) ((y1 - y0) + (y0 - y1)) + 1 ∧
      pts.head? = some (x0, y0) ∧ pts.getLast? = some (x1, y1) ∧
      List.Chain' (fun p q : Nat × Nat => (q.1 = p.1 ∨ q.1 = p.1 + 1) ∧
        (q.2 = p.2 ∨ (y0 < y1 ∧ q.2 = p.2 + 1) ∨ (y1 < y0 ∧ q.2 + 1 = p.2)) ∧
        q ≠ p) pts ∧
      ∀ p ∈ pts, x0 ≤ p.1 ∧ p.1 ≤ x1 ∧ min y0 y1 ≤ p.2 ∧ p.2 ≤ max y0 y1 := by
  obtain ⟨ab, e1, e2, e3, e5, e6, hU, hD⟩ :=
    @drawLine_bresenham_steps σ x0 x1 ((y1 - y0) + (y0 - y1)) fuel hx hx1 (by omega)
      (by omega) hf
  have e5' := List.Chain'.iff_mem.mp e5
  by_cases hu : y0 < y1
  · have hrun := hU T W black d y0 y1 (by omega) hy1
    refine ⟨ab.map (fun q => (x1 - q.1, y1 - q.2)), hrun, ?_, ?_, ?_, ?_, ?_, ?_⟩
    · rw [hrun, Option.map_some', foldl_setPixelColor_trace]
    · rw [List.length_map, e3]
    · rw [List.head?_map, e1]
      show some (x1 - (x1 - x0), y1 - (y1 - y0 + (y0 - y1))) = some (x0, y0)
      congr 2 <;> omega
    · rw [List.getLast?_map, e2]
      rfl
    · rw [List.chain'_map]
      refine e5'.imp ?_
      rintro p q ⟨hp, hq, h1, h2, h3⟩
      have bp := e6 p hp
      have bq := e6 q hq
      refine ⟨?_, ?_, ?_⟩
      · show x1 - q.1 = x1 - p.1 ∨ x1 - q.1 = x1 - p.1 + 1
        omega
      · show y1 - q.2 = y1 - p.2 ∨ (y0 < y1 ∧ y1 - q.2 = y1 - p.2 + 1) ∨
          (y1 < y0 ∧ y1 - q.2 + 1 = y1 - p.2)
        omega
      · intro h
        have ha : x1 - q.1 = x1 - p.1 := congrArg Prod.fst h
        have hb : y1 - q.2 = y1 - p.2 := congrArg Prod.snd h
        omega
    · intro p hp
      obtain ⟨q, hq, rfl⟩ := List.mem_map.mp hp
      have := e6 q hq
      show x0 ≤ x1 - q.1 ∧ x1 - q.1 ≤ x1 ∧ min y0 y1 ≤ y1 - q.2 ∧ y1 - q.2 ≤ max y0 y1
      rw [min_eq_left (by omega), max_eq_right (by omega)]
      omega
  · have hrun := hD T W black d y0 y1 (by omega) hy0
    refine ⟨ab.map (fun q => (x1 - q.1, y1 + q.2)), hrun, ?_, ?_, ?_, ?_, ?_, ?_⟩
    · rw [hrun, Option.map_some', foldl_setPixelColor_trace]
    · rw [List.length_map, e3]
    · rw [List.head?_map, e1]
      show some (x1 - (x1 - x0), y1 + (y1 - y0 + (y0 - y1))) = some (x0, y0)
      congr 2 <;> omega
    · rw [List.getLast?_map, e2]
      rfl
    · rw [List.chain'_map]
      refine e5'.imp ?_
      rintro p q ⟨hp, hq, h1, h2, h3⟩
      have bp := e6 p hp
      have bq := e6 q hq
      refine ⟨?_, ?_, ?_⟩
      · show x1 - q.1 = x1 - p.1 ∨ x1 - q.1 = x1 - p.1 + 1
        omega
      · show y1 + q.2 = y1 + p.2 ∨ (y0 < y1 ∧ y1 + q.2 = y1 + p.2 + 1) ∨
          (y1 < y0 ∧ y1 + q.2 + 1 = y1 + p.2)
        omega
      · intro h
        have ha : x1 - q.1 = x1 - p.1 := congrArg Prod.fst h
        have hb : y1 + q.2 = y1 + p.2 := congrArg Prod.snd h
        omega
    · intro p hp
      obtain ⟨q, hq, rfl⟩ := List.mem_map.mp hp
      have := e6 q hq
      show x0 ≤ x1 - q.1 ∧ x1 - q.1 ≤ x1 ∧ min y0 y1 ≤ y1 + q.2 ∧ y1 + q.2 ≤ max y0 y1
      rw [min_eq_right (by omega), max_eq_left (by omega)]
      omega

theorem drawLine_bresenham_pixels_witness :
    (2 < 9 ∧ 5 ≠ 8 ∧ 9 < 256 ∧ 5 < 256 ∧ 8 < 256 ∧ 512 ≤ 512) ∧
    ∃ pts : List (Nat × Nat),
      drawLine byteArray 240 2 5 9 8 true 512 (onDevice false (fun _ => 0) 0 0 false []) =
        some (pts.foldl (fun d p => setPixelColor byteArray 240 p.1 p.2 true d)
          (onDevice false (fun _ => 0) 0 0 false [])) ∧
      pts.length = max (9 - 2) ((8 - 5) + (5 - 8)) + 1 :=
  ⟨by decide,
    (drawLine_bresenham_pixels byteArray 240 2 5 9 8 true 512
      (onDevice false (fun _ => 0) 0 0 false [])
      (by decide) (by decide) (by decide) (by decide) (by decide) (by decide)).imp
      (fun _ h => ⟨h.1, h.2.2.1⟩)⟩

/-! ### The pattern blobs -/

/-- On a blob with bytes below 256, `pgm_read_byte` at an index inside the blob returns the
byte stored there. -/
theorem pattern_reads_in_bounds (p : List Nat)
    (hb : ∀ b ∈ p, b < 256) (idx : Nat) (hidx : idx < p.length) :
    p[idx]? = some (pgm_read_byte p idx) := by
  have h1 : p[idx]? = some p[idx] := List.getElem?_eq_getElem hidx
  have h2 : p[idx] < 256 := hb _ (List.getElem_mem _)
  rw [h1]
  unfold pgm_read_byte
  rw [List.getD_eq_getElem?_getD, h1, Option.getD_some, Nat.mod_eq_of_lt h2]

/-- C31: every pattern blob defined in `NiceCustomFillPatterns`, and the built-in pattern
of `drawGrayFill`, has the pattern blob format: its first byte `m` makes `rowCount = m + 1`
a power of two, the blob has exactly `rowCount + 1` bytes (each below 256), and so both
reads of `drawPatternFill`, the mask `pattern[0]` and the row byte `pattern[(i & m) + 1]`
for any row `i`, stay inside the blob and return its bytes. -/
theorem pattern_blobs_well_formed (p : List Nat)
    (hp : p ∈ NiceCustomFillPatterns ++ [[0b1, 0b01010101, 0b10101010]]) :
    (∃ k, pgm_read_byte p 0 + 1 = 2 ^ k) ∧
    p.length = (pgm_read_byte p 0 + 1) + 1 ∧
    (∀ b ∈ p, b < 256) ∧
    p[0]? = some (pgm_read_byte p 0) ∧
    (∀ i, (i &&& pgm_read_byte p 0) + 1 < p.length ∧
      p[(i &&& pgm_read_byte p 0) + 1]? =
        some (pgm_read_byte p ((i &&& pgm_read_byte p 0) + 1))) ∧
    (∀ (T : Transport σ) (W x y w h fuel : Nat) (d : Display σ),
      drawGrayFill T W x y w h fuel d =
        drawPatternFill T W x y w h [0b1, 0b01010101, 0b10101010] fuel d) := by
  have core : ∀ q ∈ NiceCustomFillPatterns ++ [[0b1, 0b01010101, 0b10101010]],
      (∃ k, k < 9 ∧ pgm_read_byte q 0 + 1 = 2 ^ k) ∧
      q.length = pgm_read_byte q 0 + 2 ∧ (∀ b ∈ q, b < 256) := by decide
  obtain ⟨⟨k, _, hk⟩, hlen, hb⟩ := core p hp
  refine ⟨⟨k, hk⟩, by omega, hb, pattern_reads_in_bounds p hb 0 (by omega), ?_,
    fun _ _ _ _ _ _ _ _ => rfl⟩
  intro i
  have hle : i &&& pgm_read_byte p 0 ≤ pgm_read_byte p 0 := Nat.and_le_right
  exact ⟨by omega, pattern_reads_in_bounds p hb _ (by omega)⟩

theorem pattern_blobs_well_formed_witness :
    waves_left_dense ∈ NiceCustomFillPatterns ++ [[0b1, 0b01010101, 0b10101010]] ∧
    (∃ k, pgm_read_byte waves_left_dense 0 + 1 = 2 ^ k) ∧
    waves_left_dense.length = (pgm_read_byte waves_left_dense 0 + 1) + 1 :=
  ⟨by decide,
    (@pattern_blobs_well_formed Device waves_left_dense (by decide)).1,
    (@pattern_blobs_well_formed Device waves_left_dense (by decide)).2.1⟩

/-! ### The gray ratios -/

/-- C32: for every `N` in `0..16` the blob `grayscale_N` (entry `N` of `grayscale`) has
the stated ratio of `N` black pixels per 16: the number of set bits in its row bytes is
`N * (8 * rowCount) / 16`, the division being exact, and that is also the number of black
pixels in one tile of the rows `drawPatternFill` reads from it. -/
theorem grayscale_ratio (N : Nat) (hN : N ≤ 16) :
    setBits (grayscale.getD N []) =
      N * (8 * (pgm_read_byte (grayscale.getD N []) 0 + 1)) / 16 ∧
    16 * setBits (grayscale.getD N []) =
      N * (8 * (pgm_read_byte (grayscale.getD N []) 0 + 1)) ∧
    (grayscale.getD N []).length = (pgm_read_byte (grayscale.getD N []) 0 + 1) + 1 ∧
    tileBlackPixels (grayscale.getD N []) = setBits (grayscale.getD N []) := by
  interval_cases N <;> exact ⟨rfl, rfl, rfl, rfl⟩

theorem grayscale_ratio_witness :
    5 ≤ 16 ∧ grayscale.getD 5 [] = grayscale_5 ∧
    setBits (grayscale.getD 5 []) =
      5 * (8 * (pgm_read_byte (grayscale.getD 5 []) 0 + 1)) / 16 :=
  ⟨by decide, rfl, (grayscale_ratio 5 (by decide)).1⟩

/-! ### Initialisation -/

/-- C33: `initGraphicMode()` calls the transport hook `init()` once, before any register
write, and then writes exactly six Command/Data pairs in the order `(0b0000, 0b00110010)`,
`(0b0001, 0b00000111)`, `(0b0010, W/8 - 1)`, `(0b0011, 127)`, `(0b1000, 0)`, `(0b1001, 0)`,
with no read and the flag untouched; the width byte is the `int` value `W/8 - 1` narrowed
to 8 bits, which is `W/8 - 1` itself for every 8-bit width from 8 on. The hardcoded
variant does the same with the byte 29. -/
theorem initGraphicMode_trace (T : Transport σ) (W : Nat) (d : Display σ) :
    (initGraphicMode T W d).trace = d.trace ++
      [Event.init,
       Event.write register_t.Command 0b0000, Event.write register_t.Data 0b00110010,
       Event.write register_t.Command 0b0001, Event.write register_t.Data 0b00000111,
       Event.write register_t.Command 0b0010,
       Event.write register_t.Data ((W / 8 + 256 - 1) % 256),
       Event.write register_t.Command 0b0011, Event.write register_t.Data 127,
       Event.write register_t.Command 0b1000, Event.write register_t.Data 0,
       Event.write register_t.Command 0b1001, Event.write register_t.Data 0] ∧
    (8 ≤ W → W < 256 → (W / 8 + 256 - 1) % 256 = W / 8 - 1) ∧
    ((initGraphicMode T W d).trace.drop d.trace.length).head? = some Event.init ∧
    ((initGraphicMode T W d).trace.drop d.trace.length).count Event.init = 1 ∧
    (∀ e ∈ ((initGraphicMode T W d).trace.drop d.trace.length).tail,
      ∃ reg v, e = Event.write reg v) ∧
    (initGraphicMode T W d).dev =
      T.write register_t.Data 0 (T.write register_t.Command 0b1001
        (T.write register_t.Data 0 (T.write register_t.Command 0b1000
          (T.write register_t.Data 127 (T.write register_t.Command 0b0011
            (T.write register_t.Data ((W / 8 + 256 - 1) % 256)
              (T.write register_t.Command 0b0010
                (T.write register_t.Data 0b00000111 (T.write register_t.Command 0b0001
                  (T.write register_t.Data 0b00110010 (T.write register_t.Command 0b0000
                    (T.init d.dev)))))))))))) ∧
    (initGraphicMode T W d).needDummyRead = d.needDummyRead ∧
    (LC7981_240x128.initGraphicMode T d).trace = d.trace ++
      [Event.init,
       Event.write register_t.Command 0b0000, Event.write register_t.Data 0b00110010,
       Event.write register_t.Command 0b0001, Event.write register_t.Data 0b00000111,
       Event.write register_t.Command 0b0010, Event.write register_t.Data 29,
       Event.write register_t.Command 0b0011, Event.write register_t.Data 127,
       Event.write register_t.Command 0b1000, Event.write register_t.Data 0,
       Event.write register_t.Command 0b1001, Event.write register_t.Data 0] := by
  have htr : (initGraphicMode T W d).trace = d.trace ++
      [Event.init,
       Event.write register_t.Command 0b0000, Event.write register_t.Data 0b00110010,
       Event.write register_t.Command 0b0001, Event.write register_t.Data 0b00000111,
       Event.write register_t.Command 0b0010,
       Event.write register_t.Data ((W / 8 + 256 - 1) % 256),
       Event.write register_t.Command 0b0011, Event.write register_t.Data 127,
       Event.write register_t.Command 0b1000, Event.write register_t.Data 0,
       Event.write register_t.Command 0b1001, Event.write register_t.Data 0] := by
    simp [initGraphicMode, init, write]
  refine ⟨htr, fun _ _ => by omega, ?_, ?_, ?_, rfl, rfl, ?_⟩
  · rw [htr, List.drop_left]; rfl
  · rw [htr, List.drop_left]; simp
  · rw [htr, List.drop_left]
    intro e he
    simp only [List.tail_cons, List.mem_cons, List.mem_singleton, List.not_mem_nil,
      or_false] at he
    rcases he with h | h | h | h | h | h | h | h | h | h | h | h <;> exact ⟨_, _, h⟩
  · simp [LC7981_240x128.initGraphicMode, LC7981_240x128.init, LC7981_240x128.write]

end LC7981
